import Mathlib

/-!
Item attributes of the eandi server: store and binary codec.

A shallow embedding of `src/item.cpp`: the sparse attribute store
(`ItemAttributes`), the item-level accessors, and the attribute codec
(`Item::readAttr`, `Item::unserializeAttr`, `Item::serializeAttr`).

Conventions of the embedding.

* Machine integers are natural numbers; a value of an N-bit type is kept
  reduced modulo `2 ^ N` at the place where the source stores or converts it.
* A `std::string` is the list of its bytes.
* A `PropStream` is the list of the bytes that are still unread; the cursor is
  the head of the list.
* A tag (`itemAttrTypes`) is the numeric value of the enumerator, a bit mask.
-/

/-! ## Definitions -/

/-- Value of one store entry, the union of a 64-bit integer and an owned
string in the source. `integer` carries the 64-bit pattern as a number below
`2 ^ 64`. -/
inductive AttrValue where
  | integer (v : Nat)
  | string (s : List Nat)
  deriving DecidableEq, Repr

/-- The member `value.integer` of the union. Reading it from an entry that
holds a string is not defined by the source; the embedding returns 0 there. -/
def AttrValue.asInteger : AttrValue → Nat
  | .integer v => v
  | .string _ => 0

/-- The member `*value.string` of the union. Reading it from an entry that
holds an integer is not defined by the source; the embedding returns the empty
string there. -/
def AttrValue.asString : AttrValue → List Nat
  | .string s => s
  | .integer _ => []

/-- One entry of the attribute list: `ItemAttributes::Attribute`. -/
structure Attribute where
  type : Nat
  value : AttrValue
  deriving DecidableEq, Repr

/-- Modelled from the spec: the constructor `Attribute(type)` of the header
item.h, which is not among the sources. A new entry carries the tag and an
all-zero value (integer 0, which is also the null string pointer). -/
def Attribute.new (type : Nat) : Attribute :=
  { type := type, value := AttrValue.integer 0 }

/-- Modelled from the spec: the custom value `ItemAttributes::CustomAttribute`
of the header item.h, which is not among the sources: exactly one of a text, a
64-bit integer, a double and a boolean is live. The integer and the double are
carried as their 64-bit patterns. -/
inductive CustomAttribute where
  | text (s : List Nat)
  | integer (v : Nat)
  | double (bits : Nat)
  | boolean (b : Bool)
  deriving DecidableEq, Repr

/-- The attribute store `ItemAttributes`: the bit mask and the entry list of
the source, and the custom-attribute map, which is modelled from the spec (key
to custom value, keys unique, in use only while the reserved custom bit is
set). -/
structure ItemAttributes where
  attributeBits : Nat := 0
  attributes : List Attribute := []
  customAttributes : List (List Nat × CustomAttribute) := []
  deriving DecidableEq, Repr

/-- Modelled from the spec: the tag classification of the header item.h, which
is not among the sources. `isIntAttrType` and `isStrAttrType` say which tags
are integer-typed and which are string-typed. -/
structure AttrKinds where
  isIntAttrType : Nat → Bool
  isStrAttrType : Nat → Bool

/-- The machine operation `a & ~b`: the bits of `a` that are not bits of `b`. -/
def bitAndNot (a b : Nat) : Nat := a ^^^ (a &&& b)

/-- Overwrite the value of the entry at position `i` through `f` (a write
through the reference that `getAttr` returns). -/
def writeAt : List Attribute → Nat → (AttrValue → AttrValue) → List Attribute
  | [], _, _ => []
  | a :: rest, 0, f => { a with value := f a.value } :: rest
  | a :: rest, i + 1, f => a :: writeAt rest i f

/-- Position of the first entry of tag `type`, scanning from the front: the
range-for loops of `getAttr` and `getExistingAttr`. -/
def findAttr (type : Nat) : List Attribute → Option Nat
  | [] => none
  | a :: rest => if a.type = type then some 0 else (findAttr type rest).map (· + 1)

/-- The reverse scan of `removeAttribute`: `rev` is the list without its last
entry, last-to-first. The first entry of tag `type` met is overwritten with
`back`; `none` when the scan reaches the end without a match. -/
def replaceFirst (type : Nat) (back : Attribute) : List Attribute → Option (List Attribute)
  | [] => none
  | a :: rest =>
    if a.type = type then some (back :: rest)
    else (replaceFirst type back rest).map (a :: ·)

namespace ItemAttributes

/-- Modelled from the spec: `ItemAttributes::hasAttribute` of the header
item.h, which is not among the sources: the O(1) test of the tag against the
bit mask. -/
def hasAttribute (s : ItemAttributes) (type : Nat) : Bool :=
  (type &&& s.attributeBits) != 0

/-- `ItemAttributes::getExistingAttr`: the first entry of tag `type` when the
bit is set, otherwise nothing. -/
def getExistingAttr (s : ItemAttributes) (type : Nat) : Option Attribute :=
  if s.hasAttribute type then s.attributes.find? (fun a => a.type == type) else none

/-- `ItemAttributes::getAttr`: the store afterwards and the position of the
entry the returned reference points to. When the bit is clear, or the scan
finds nothing, the bit is set and a new entry is appended. -/
def getAttr (s : ItemAttributes) (type : Nat) : ItemAttributes × Nat :=
  let appended : ItemAttributes × Nat :=
    ({ s with attributeBits := s.attributeBits ||| type,
              attributes := s.attributes ++ [Attribute.new type] },
     s.attributes.length)
  if s.hasAttribute type then
    match findAttr type s.attributes with
    | some i => (s, i)
    | none => appended
  else appended

/-- `ItemAttributes::getStrAttr`. -/
def getStrAttr (K : AttrKinds) (s : ItemAttributes) (type : Nat) : List Nat :=
  if !K.isStrAttrType type then []
  else match s.getExistingAttr type with
    | none => []
    | some attr => attr.value.asString

/-- `ItemAttributes::setStrAttr`. -/
def setStrAttr (K : AttrKinds) (s : ItemAttributes) (type : Nat) (value : List Nat) :
    ItemAttributes :=
  if !K.isStrAttrType type then s
  else if value.isEmpty then s
  else
    let r := s.getAttr type
    { r.1 with attributes := writeAt r.1.attributes r.2 (fun _ => AttrValue.string value) }

/-- `ItemAttributes::removeAttribute`. Calling `rbegin` on an empty list while
the bit is set is not defined by the source; the embedding only clears the bit
there. -/
def removeAttribute (s : ItemAttributes) (type : Nat) : ItemAttributes :=
  if !s.hasAttribute type then s
  else
    match s.attributes.reverse with
    | [] => { s with attributeBits := bitAndNot s.attributeBits type }
    | back :: rev =>
      if back.type = type then
        { s with attributeBits := bitAndNot s.attributeBits type, attributes := rev.reverse }
      else
        match replaceFirst type back rev with
        | some rev2 =>
          { s with attributeBits := bitAndNot s.attributeBits type, attributes := rev2.reverse }
        | none => { s with attributeBits := bitAndNot s.attributeBits type }

/-- `ItemAttributes::getIntAttr`; the result type is `uint32_t`, so the stored
64-bit value is cut to its low 32 bits. -/
def getIntAttr (K : AttrKinds) (s : ItemAttributes) (type : Nat) : Nat :=
  if !K.isIntAttrType type then 0
  else match s.getExistingAttr type with
    | none => 0
    | some attr => attr.value.asInteger % 2 ^ 32

/-- `ItemAttributes::setIntAttr`; `value` is a `uint64_t`. -/
def setIntAttr (K : AttrKinds) (s : ItemAttributes) (type : Nat) (value : Nat) :
    ItemAttributes :=
  if !K.isIntAttrType type then s
  else
    let r := s.getAttr type
    { r.1 with attributes := writeAt r.1.attributes r.2 (fun _ => AttrValue.integer (value % 2 ^ 64)) }

/-- `ItemAttributes::increaseIntAttr`; `value` is an `int64_t` and the sum
wraps around in 64 bits. -/
def increaseIntAttr (K : AttrKinds) (s : ItemAttributes) (type : Nat) (value : Int) :
    ItemAttributes :=
  if !K.isIntAttrType type then s
  else
    let r := s.getAttr type
    let add : AttrValue → AttrValue :=
      fun old => AttrValue.integer (Int.toNat (((old.asInteger : Int) + value) % 2 ^ 64))
    { r.1 with attributes := writeAt r.1.attributes r.2 add }

end ItemAttributes

/-- The store after an assignment through the reference returned by
`getAttr(type)`: the common shape of `setIntAttr`, `setStrAttr` and
`increaseIntAttr` once their guards have passed. -/
def ItemAttributes.writeThrough (s : ItemAttributes) (type : Nat) (f : AttrValue → AttrValue) :
    ItemAttributes :=
  { (s.getAttr type).1 with
    attributes := writeAt (s.getAttr type).1.attributes (s.getAttr type).2 f }

/-- The full 64-bit value stored under an integer tag, 0 when there is no
entry (`getIntAttr` returns only its low 32 bits). -/
def ItemAttributes.storedInt (s : ItemAttributes) (type : Nat) : Nat :=
  match s.getExistingAttr type with
  | none => 0
  | some attr => attr.value.asInteger

/-- The value kind of every entry matches the kind of its tag: an entry of an
integer-typed tag holds an integer, an entry of a string-typed tag a string.
Entries of the empty mask 0 are left out: no getter ever finds them, because
`hasAttribute(0)` is false. -/
def ItemAttributes.KindOK (K : AttrKinds) (s : ItemAttributes) : Prop :=
  ∀ a ∈ s.attributes, a.type ≠ 0 →
    (K.isIntAttrType a.type = true → ∃ v, a.value = AttrValue.integer v) ∧
    (K.isStrAttrType a.type = true → ∃ str, a.value = AttrValue.string str)

/-- A tag of the catalogue is a single bit of the mask. -/
def IsTag (type : Nat) : Prop := ∃ k, type = 2 ^ k

/-- Well-formedness of a store: the bit of every tag is set exactly when the
list holds an entry of that tag, every entry carries a tag, and no two entries
share a tag. -/
structure ItemAttributes.WF (s : ItemAttributes) : Prop where
  bits : ∀ k, s.attributeBits.testBit k = true ↔ ∃ a ∈ s.attributes, a.type = 2 ^ k
  tags : ∀ a ∈ s.attributes, IsTag a.type
  nodup : (s.attributes.map (fun a => a.type)).Nodup

/-- One call on a store. -/
inductive StoreOp where
  | setIntAttr (type : Nat) (value : Nat)
  | setStrAttr (type : Nat) (value : List Nat)
  | increaseIntAttr (type : Nat) (value : Int)
  | removeAttribute (type : Nat)
  deriving Repr

/-- The tag a call is made with. -/
def StoreOp.type : StoreOp → Nat
  | .setIntAttr t _ => t
  | .setStrAttr t _ => t
  | .increaseIntAttr t _ => t
  | .removeAttribute t => t

/-- Run one call. -/
def StoreOp.run (K : AttrKinds) (s : ItemAttributes) : StoreOp → ItemAttributes
  | .setIntAttr t v => s.setIntAttr K t v
  | .setStrAttr t v => s.setStrAttr K t v
  | .increaseIntAttr t v => s.increaseIntAttr K t v
  | .removeAttribute t => s.removeAttribute t

/-- Run a sequence of calls, first to last. -/
def runOps (K : AttrKinds) (s : ItemAttributes) (ops : List StoreOp) : ItemAttributes :=
  ops.foldl (StoreOp.run K) s

/-- A small classification used for concrete evaluations: bits 0 to 3 are
integer-typed, bits 4 to 7 string-typed. -/
def sampleKinds : AttrKinds :=
  { isIntAttrType := fun t => t == 1 || t == 2 || t == 4 || t == 8,
    isStrAttrType := fun t => t == 16 || t == 32 || t == 64 || t == 128 }

/-! ### Declarations that `item.cpp` takes from its headers -/

/-- The names of the attribute tags (`enum itemAttrTypes`) that the item code
uses. The first 56 are named in `item.cpp`; the last six are the tags behind
the accessors `setActionId`, `setText`, `setDate`, `setWriter`,
`setSpecialDescription` and `setFluidType`. -/
inductive itemAttrTypes where
  | ITEM_ATTRIBUTE_ACCURACY | ITEM_ATTRIBUTE_AGILITY | ITEM_ATTRIBUTE_ALACRITY
  | ITEM_ATTRIBUTE_ARMOR | ITEM_ATTRIBUTE_ARTICLE | ITEM_ATTRIBUTE_ATTACK
  | ITEM_ATTRIBUTE_CHARGES | ITEM_ATTRIBUTE_CONCENTRATION | ITEM_ATTRIBUTE_CONCOCTING
  | ITEM_ATTRIBUTE_COOKING | ITEM_ATTRIBUTE_CORPSEOWNER | ITEM_ATTRIBUTE_CRITICALHITAMOUNT
  | ITEM_ATTRIBUTE_CRITICALHITCHANCE | ITEM_ATTRIBUTE_CUSTOM | ITEM_ATTRIBUTE_DECAYSTATE
  | ITEM_ATTRIBUTE_DECAYTO | ITEM_ATTRIBUTE_DEFENSE | ITEM_ATTRIBUTE_DISTANCE
  | ITEM_ATTRIBUTE_DURATION | ITEM_ATTRIBUTE_ENCHANTING | ITEM_ATTRIBUTE_EVASION
  | ITEM_ATTRIBUTE_EXPLORING | ITEM_ATTRIBUTE_EXTRADEFENSE | ITEM_ATTRIBUTE_FINESSE
  | ITEM_ATTRIBUTE_FOCUS | ITEM_ATTRIBUTE_GATHERING | ITEM_ATTRIBUTE_HITCHANCE
  | ITEM_ATTRIBUTE_HP | ITEM_ATTRIBUTE_HPREGEN | ITEM_ATTRIBUTE_MAGIC
  | ITEM_ATTRIBUTE_MELEE | ITEM_ATTRIBUTE_MINING | ITEM_ATTRIBUTE_MP
  | ITEM_ATTRIBUTE_MPREGEN | ITEM_ATTRIBUTE_NAME | ITEM_ATTRIBUTE_PLURALNAME
  | ITEM_ATTRIBUTE_RESOLVE | ITEM_ATTRIBUTE_SHIELD | ITEM_ATTRIBUTE_SHOOTRANGE
  | ITEM_ATTRIBUTE_SLAYING | ITEM_ATTRIBUTE_SLOT1 | ITEM_ATTRIBUTE_SLOT1VALUE
  | ITEM_ATTRIBUTE_SLOT2 | ITEM_ATTRIBUTE_SLOT2VALUE | ITEM_ATTRIBUTE_SLOT3
  | ITEM_ATTRIBUTE_SLOT3VALUE | ITEM_ATTRIBUTE_SLOT4 | ITEM_ATTRIBUTE_SLOT4VALUE
  | ITEM_ATTRIBUTE_SLOT5 | ITEM_ATTRIBUTE_SLOT5VALUE | ITEM_ATTRIBUTE_SMITHING
  | ITEM_ATTRIBUTE_STOREITEM | ITEM_ATTRIBUTE_UNIQUEID | ITEM_ATTRIBUTE_UPGRADE
  | ITEM_ATTRIBUTE_WEIGHT | ITEM_ATTRIBUTE_WRAPID
  | ITEM_ATTRIBUTE_ACTIONID | ITEM_ATTRIBUTE_TEXT | ITEM_ATTRIBUTE_DATE
  | ITEM_ATTRIBUTE_WRITER | ITEM_ATTRIBUTE_DESCRIPTION | ITEM_ATTRIBUTE_FLUIDTYPE
  deriving DecidableEq, Repr

/-- The record tags (`enum AttrTypes_t`) named in `item.cpp`, in the order of
the case labels of `Item::readAttr`. -/
inductive AttrTypes_t where
  | ATTR_COUNT | ATTR_RUNE_CHARGES | ATTR_ACTION_ID | ATTR_UNIQUE_ID | ATTR_TEXT
  | ATTR_WRITTENDATE | ATTR_WRITTENBY | ATTR_DESC | ATTR_CHARGES | ATTR_DURATION
  | ATTR_DECAYING_STATE | ATTR_NAME | ATTR_ARTICLE | ATTR_PLURALNAME | ATTR_ATTACK
  | ATTR_WEIGHT | ATTR_DEFENSE | ATTR_EXTRADEFENSE | ATTR_ARMOR | ATTR_HITCHANCE
  | ATTR_SHOOTRANGE | ATTR_DECAYTO | ATTR_WRAPID | ATTR_STOREITEM | ATTR_ACCURACY
  | ATTR_EVASION | ATTR_RESOLVE | ATTR_AGILITY | ATTR_ALACRITY | ATTR_MAGIC
  | ATTR_FINESSE | ATTR_CONCENTRATION | ATTR_FOCUS | ATTR_DISTANCE | ATTR_MELEE
  | ATTR_SHIELD | ATTR_CONCOCTING | ATTR_ENCHANTING | ATTR_EXPLORING | ATTR_SMITHING
  | ATTR_COOKING | ATTR_MINING | ATTR_GATHERING | ATTR_SLAYING | ATTR_UPGRADE
  | ATTR_SLOT1 | ATTR_SLOT1VALUE | ATTR_SLOT2 | ATTR_SLOT2VALUE | ATTR_SLOT3
  | ATTR_SLOT3VALUE | ATTR_SLOT4 | ATTR_SLOT4VALUE | ATTR_SLOT5 | ATTR_SLOT5VALUE
  | ATTR_MP | ATTR_CRITICALHITCHANCE | ATTR_CRITICALHITAMOUNT | ATTR_MPREGEN
  | ATTR_HPREGEN | ATTR_HP | ATTR_DEPOT_ID | ATTR_HOUSEDOORID | ATTR_SLEEPERGUID
  | ATTR_SLEEPSTART | ATTR_TELE_DEST | ATTR_CONTAINER_ITEMS | ATTR_CUSTOM_ATTRIBUTES
  deriving DecidableEq, Repr

/-- Every record tag named in `item.cpp`. -/
def allAttrTypes : List AttrTypes_t :=
  [.ATTR_COUNT, .ATTR_RUNE_CHARGES, .ATTR_ACTION_ID, .ATTR_UNIQUE_ID, .ATTR_TEXT,
   .ATTR_WRITTENDATE, .ATTR_WRITTENBY, .ATTR_DESC, .ATTR_CHARGES, .ATTR_DURATION,
   .ATTR_DECAYING_STATE, .ATTR_NAME, .ATTR_ARTICLE, .ATTR_PLURALNAME, .ATTR_ATTACK,
   .ATTR_WEIGHT, .ATTR_DEFENSE, .ATTR_EXTRADEFENSE, .ATTR_ARMOR, .ATTR_HITCHANCE,
   .ATTR_SHOOTRANGE, .ATTR_DECAYTO, .ATTR_WRAPID, .ATTR_STOREITEM, .ATTR_ACCURACY,
   .ATTR_EVASION, .ATTR_RESOLVE, .ATTR_AGILITY, .ATTR_ALACRITY, .ATTR_MAGIC,
   .ATTR_FINESSE, .ATTR_CONCENTRATION, .ATTR_FOCUS, .ATTR_DISTANCE, .ATTR_MELEE,
   .ATTR_SHIELD, .ATTR_CONCOCTING, .ATTR_ENCHANTING, .ATTR_EXPLORING, .ATTR_SMITHING,
   .ATTR_COOKING, .ATTR_MINING, .ATTR_GATHERING, .ATTR_SLAYING, .ATTR_UPGRADE,
   .ATTR_SLOT1, .ATTR_SLOT1VALUE, .ATTR_SLOT2, .ATTR_SLOT2VALUE, .ATTR_SLOT3,
   .ATTR_SLOT3VALUE, .ATTR_SLOT4, .ATTR_SLOT4VALUE, .ATTR_SLOT5, .ATTR_SLOT5VALUE,
   .ATTR_MP, .ATTR_CRITICALHITCHANCE, .ATTR_CRITICALHITAMOUNT, .ATTR_MPREGEN,
   .ATTR_HPREGEN, .ATTR_HP, .ATTR_DEPOT_ID, .ATTR_HOUSEDOORID, .ATTR_SLEEPERGUID,
   .ATTR_SLEEPSTART, .ATTR_TELE_DEST, .ATTR_CONTAINER_ITEMS, .ATTR_CUSTOM_ATTRIBUTES]

/-- The result of `Item::readAttr`. -/
inductive Attr_ReadValue where
  | ATTR_READ_CONTINUE
  | ATTR_READ_ERROR
  | ATTR_READ_END
  deriving DecidableEq, Repr

/-- The kinds of custom value, for the type byte of the wire format. -/
inductive CustomKind where
  | text | integer | double | boolean
  deriving DecidableEq, Repr

/-- Modelled from the spec: the entry of the item-type catalogue (`ItemType`
of the header items.h, which is not among the sources), with the fields and
classification tests that `item.cpp` consults. -/
structure ItemType where
  id : Nat := 0
  /-- Whether `group == ITEM_GROUP_DEPRECATED`. -/
  deprecated : Bool := false
  stackable : Bool := false
  useable : Bool := false
  moveable : Bool := false
  pickupable : Bool := false
  charges : Nat := 0
  decayTime : Nat := 0
  decayTo : Int := -1
  stopTime : Bool := false
  isFluidContainer : Bool := false
  isSplash : Bool := false
  isDepot : Bool := false
  isContainer : Bool := false
  isTeleport : Bool := false
  isMagicField : Bool := false
  isDoor : Bool := false
  isTrashHolder : Bool := false
  isMailbox : Bool := false
  isBed : Bool := false
  deriving DecidableEq, Repr

/-- Modelled from the spec: everything `item.cpp` takes from declarations that
are not among the sources (the headers item.h, items.h, enums.h and
fileloader.h, and the game object). `mask` is the numeric value of each attribute
tag, `attrByte` the numeric value of each record tag, `customByte` the type
byte of each kind of custom value, `strLenBytes` the width of the length
prefix of a string on the wire, `countBits` the width of the `count` field,
`items` the item-type catalogue, and `addUniqueItem` the answer of the
unique-id registry of the game. -/
structure Header extends AttrKinds where
  mask : itemAttrTypes → Nat
  attrByte : AttrTypes_t → Nat
  customByte : CustomKind → Nat
  strLenBytes : Nat
  countBits : Nat
  DECAYING_FALSE : Nat
  DECAYING_TRUE : Nat
  DECAYING_PENDING : Nat
  items : Nat → ItemType
  addUniqueItem : Nat → Bool

/-- The enumerator a tag byte denotes (`static_cast<AttrTypes_t>` followed by
the case labels of the switch): the enumerator with that numeric value, or
nothing when no enumerator named in `item.cpp` has it. -/
def Header.attrOf (H : Header) (b : Nat) : Option AttrTypes_t :=
  allAttrTypes.find? (fun a => H.attrByte a == b)

/-- The kind of custom value a type byte denotes. -/
def Header.customOf (H : Header) (b : Nat) : Option CustomKind :=
  [CustomKind.text, CustomKind.integer, CustomKind.double, CustomKind.boolean].find?
    (fun k => H.customByte k == b)

/-! ### The byte streams -/

/-- The number whose little-endian bytes are the list. -/
def leValue : List Nat → Nat
  | [] => 0
  | b :: rest => b % 256 + 256 * leValue rest

/-- The `width` little-endian bytes of `v`. -/
def leBytes : Nat → Nat → List Nat
  | 0, _ => []
  | width + 1, v => v % 256 :: leBytes width (v / 256)

/-- Modelled from the spec: `PropStream::read<T>` of the header fileloader.h,
which is not among the sources, for a `T` of `width` bytes. It fails, without
moving, when fewer than `width` bytes are left; otherwise it consumes them and
yields their little-endian value. -/
def PropStream.read (width : Nat) (p : List Nat) : Option (Nat × List Nat) :=
  if p.length < width then none else some (leValue (p.take width), p.drop width)

/-- Modelled from the spec: `PropStream::skip` of the header fileloader.h. -/
def PropStream.skip (n : Nat) (p : List Nat) : Option (List Nat) :=
  if p.length < n then none else some (p.drop n)

/-- Modelled from the spec: `PropStream::readString` of the header
fileloader.h: a length prefix of `lenBytes` bytes, then that many bytes. -/
def PropStream.readString (lenBytes : Nat) (p : List Nat) : Option (List Nat × List Nat) :=
  match PropStream.read lenBytes p with
  | none => none
  | some (len, p1) => if p1.length < len then none else some (p1.take len, p1.drop len)

/-- Modelled from the spec: `PropWriteStream::write<T>` of the header
fileloader.h, for a `T` of `width` bytes: the bytes appended. -/
def PropWriteStream.write (width : Nat) (v : Nat) : List Nat := leBytes width v

/-- Modelled from the spec: `PropWriteStream::writeString` of the header
fileloader.h: the length prefix, then the bytes. -/
def PropWriteStream.writeString (lenBytes : Nat) (str : List Nat) : List Nat :=
  leBytes lenBytes str.length ++ str

/-! ### Items -/

/-- The classes that `Item::CreateItem` instantiates: the plain `Item` and the
derived classes named in its chain of tests. -/
inductive ItemKind where
  | plain | depotLocker | container | teleport | magicField | door | trashHolder
  | mailbox | bed
  deriving DecidableEq, Repr

/-- The item: type id, count, the optional attribute store and the provenance
flag, the members that `item.cpp` names. The initial count of 1 is modelled
from the spec. -/
structure Item where
  id : Nat
  count : Nat := 1
  attributes : Option ItemAttributes := none
  loadedFromMap : Bool := false
  /-- The reference counter that `incrementReferenceCounter` raises. -/
  referenceCounter : Nat := 0
  /-- The class `Item::CreateItem` instantiates. -/
  kind : ItemKind := ItemKind.plain
  deriving DecidableEq, Repr

namespace Item

/-- Modelled from the spec: `Item::getAttributes` of the header item.h, which
is not among the sources: the store, created empty on first use. -/
def getAttributes (i : Item) : ItemAttributes := i.attributes.getD {}

/-- Modelled from the spec: `Item::hasAttribute` of the header item.h; an item
without a store has no attribute. -/
def hasAttribute (i : Item) (type : Nat) : Bool :=
  match i.attributes with
  | none => false
  | some s => s.hasAttribute type

/-- Modelled from the spec: `Item::getIntAttr` of the header item.h; an item
without a store reads 0, and no store is created. -/
def getIntAttr (H : Header) (i : Item) (type : Nat) : Nat :=
  match i.attributes with
  | none => 0
  | some s => s.getIntAttr H.toAttrKinds type

/-- Modelled from the spec: `Item::getStrAttr` of the header item.h; an item
without a store reads the empty string. -/
def getStrAttr (H : Header) (i : Item) (type : Nat) : List Nat :=
  match i.attributes with
  | none => []
  | some s => s.getStrAttr H.toAttrKinds type

/-- Modelled from the spec: `Item::setIntAttr` of the header item.h: the store
setter, on the store created on first write. -/
def setIntAttr (H : Header) (i : Item) (type : Nat) (value : Nat) : Item :=
  { i with attributes := some (i.getAttributes.setIntAttr H.toAttrKinds type value) }

/-- Modelled from the spec: `Item::setStrAttr` of the header item.h. -/
def setStrAttr (H : Header) (i : Item) (type : Nat) (value : List Nat) : Item :=
  { i with attributes := some (i.getAttributes.setStrAttr H.toAttrKinds type value) }

/-- Modelled from the spec: `Item::removeAttribute` of the header item.h; no
store is created. -/
def removeAttribute (i : Item) (type : Nat) : Item :=
  match i.attributes with
  | none => i
  | some s => { i with attributes := some (s.removeAttribute type) }

/-- Modelled from the spec: `Item::setCustomAttribute` of the header item.h:
the reserved custom bit is set (with its list entry) and the key is bound to
the value, replacing an earlier binding of the same key. -/
def setCustomAttribute (H : Header) (i : Item) (key : List Nat) (val : CustomAttribute) :
    Item :=
  let s := (i.getAttributes.getAttr (H.mask .ITEM_ATTRIBUTE_CUSTOM)).1
  let map := s.customAttributes.filter (fun e => e.1 != key) ++ [(key, val)]
  { i with attributes := some { s with customAttributes := map } }

/-- Modelled from the spec: `Item::setItemCount` of the header item.h. -/
def setItemCount (H : Header) (i : Item) (n : Nat) : Item :=
  { i with count := n % 2 ^ H.countBits }

/-- Modelled from the spec: `Item::getFluidType` of the header item.h. -/
def getFluidType (H : Header) (i : Item) : Nat :=
  i.getIntAttr H (H.mask .ITEM_ATTRIBUTE_FLUIDTYPE) % 2 ^ 16

/-- Modelled from the spec: `Item::setFluidType` of the header item.h. -/
def setFluidType (H : Header) (i : Item) (n : Nat) : Item :=
  i.setIntAttr H (H.mask .ITEM_ATTRIBUTE_FLUIDTYPE) n

/-- Modelled from the spec: `Item::getCharges` of the header item.h. -/
def getCharges (H : Header) (i : Item) : Nat :=
  i.getIntAttr H (H.mask .ITEM_ATTRIBUTE_CHARGES) % 2 ^ 16

/-- Modelled from the spec: `Item::setCharges` of the header item.h. -/
def setCharges (H : Header) (i : Item) (n : Nat) : Item :=
  i.setIntAttr H (H.mask .ITEM_ATTRIBUTE_CHARGES) n

/-- Modelled from the spec: `Item::getActionId` of the header item.h. -/
def getActionId (H : Header) (i : Item) : Nat :=
  i.getIntAttr H (H.mask .ITEM_ATTRIBUTE_ACTIONID) % 2 ^ 16

/-- Modelled from the spec: `Item::setActionId` of the header item.h. -/
def setActionId (H : Header) (i : Item) (n : Nat) : Item :=
  i.setIntAttr H (H.mask .ITEM_ATTRIBUTE_ACTIONID) n

/-- Modelled from the spec: `Item::getText` of the header item.h. -/
def getText (H : Header) (i : Item) : List Nat :=
  i.getStrAttr H (H.mask .ITEM_ATTRIBUTE_TEXT)

/-- Modelled from the spec: `Item::setText` of the header item.h. -/
def setText (H : Header) (i : Item) (text : List Nat) : Item :=
  i.setStrAttr H (H.mask .ITEM_ATTRIBUTE_TEXT) text

/-- Modelled from the spec: `Item::getDate` of the header item.h. -/
def getDate (H : Header) (i : Item) : Nat :=
  i.getIntAttr H (H.mask .ITEM_ATTRIBUTE_DATE)

/-- Modelled from the spec: `Item::setDate` of the header item.h. -/
def setDate (H : Header) (i : Item) (n : Nat) : Item :=
  i.setIntAttr H (H.mask .ITEM_ATTRIBUTE_DATE) n

/-- Modelled from the spec: `Item::getWriter` of the header item.h. -/
def getWriter (H : Header) (i : Item) : List Nat :=
  i.getStrAttr H (H.mask .ITEM_ATTRIBUTE_WRITER)

/-- Modelled from the spec: `Item::setWriter` of the header item.h. -/
def setWriter (H : Header) (i : Item) (writer : List Nat) : Item :=
  i.setStrAttr H (H.mask .ITEM_ATTRIBUTE_WRITER) writer

/-- Modelled from the spec: `Item::getSpecialDescription` of the header
item.h. -/
def getSpecialDescription (H : Header) (i : Item) : List Nat :=
  i.getStrAttr H (H.mask .ITEM_ATTRIBUTE_DESCRIPTION)

/-- Modelled from the spec: `Item::setSpecialDescription` of the header
item.h. -/
def setSpecialDescription (H : Header) (i : Item) (desc : List Nat) : Item :=
  i.setStrAttr H (H.mask .ITEM_ATTRIBUTE_DESCRIPTION) desc

/-- Modelled from the spec: `Item::getDuration` of the header item.h. -/
def getDuration (H : Header) (i : Item) : Nat :=
  i.getIntAttr H (H.mask .ITEM_ATTRIBUTE_DURATION)

/-- Modelled from the spec: `Item::setDuration` of the header item.h. -/
def setDuration (H : Header) (i : Item) (time : Nat) : Item :=
  i.setIntAttr H (H.mask .ITEM_ATTRIBUTE_DURATION) time

/-- Modelled from the spec: `Item::getDecaying` of the header item.h. -/
def getDecaying (H : Header) (i : Item) : Nat :=
  i.getIntAttr H (H.mask .ITEM_ATTRIBUTE_DECAYSTATE)

/-- Modelled from the spec: `Item::setDecaying` of the header item.h. -/
def setDecaying (H : Header) (i : Item) (decayState : Nat) : Item :=
  i.setIntAttr H (H.mask .ITEM_ATTRIBUTE_DECAYSTATE) decayState

/-- `Item::getSubType`; the result type is `uint16_t`. -/
def getSubType (H : Header) (i : Item) : Nat :=
  let it := H.items i.id
  if it.isFluidContainer || it.isSplash then i.getFluidType H
  else if it.stackable then i.count % 2 ^ 16
  else if it.charges != 0 then i.getCharges H
  else i.count % 2 ^ 16

/-- `Item::setSubType`; `n` is a `uint16_t`. -/
def setSubType (H : Header) (i : Item) (n : Nat) : Item :=
  let it := H.items i.id
  if it.isFluidContainer || it.isSplash then i.setFluidType H n
  else if it.stackable then i.setItemCount H n
  else if it.charges != 0 then i.setCharges H n
  else i.setItemCount H n

/-- `Item::setUniqueId`; `n` is a `uint16_t`. The store setter
`ItemAttributes::setUniqueId` of the header is the integer setter on the
unique-id tag. -/
def setUniqueId (H : Header) (i : Item) (n : Nat) : Item :=
  if i.hasAttribute (H.mask .ITEM_ATTRIBUTE_UNIQUEID) then i
  else if H.addUniqueItem n then i.setIntAttr H (H.mask .ITEM_ATTRIBUTE_UNIQUEID) n
  else i

end Item

/-! ### The decoder -/

/-- What one case of the switch of `Item::readAttr` does with the stream and
the item. -/
inductive ReadCase where
  /-- `read<T>(v)` with a `T` of `width` bytes, then `setSubType(v)`. -/
  | subType (width : Nat)
  /-- `read<uint16_t>(v)`, then `setActionId(v)`. -/
  | actionId
  /-- `read<uint16_t>(v)`, then `setUniqueId(v)`. -/
  | uniqueId
  /-- `readString(s)`, then `setText(s)`. -/
  | text
  /-- `read<uint32_t>(v)`, then `setDate(v)`. -/
  | writtenDate
  /-- `readString(s)`, then `setWriter(s)`. -/
  | writtenBy
  /-- `readString(s)`, then `setSpecialDescription(s)`. -/
  | desc
  /-- `read<uint32_t>(v)`, then `setDuration(std::max<uint32_t>(0, v))`. -/
  | duration
  /-- `read<uint8_t>(v)`, then `setDecaying(DECAYING_PENDING)` unless `v` is
  `DECAYING_FALSE`. -/
  | decayingState
  /-- `readString(s)`, then `setStrAttr(type, s)`. -/
  | strAttr (type : itemAttrTypes)
  /-- `read<T>(v)` with a `T` of `width` bytes, then `setIntAttr(type, v)`. -/
  | intAttr (width : Nat) (type : itemAttrTypes)
  /-- `skip(n)`. -/
  | skip (n : Nat)
  /-- `return ATTR_READ_ERROR`. -/
  | fail
  /-- The loop over the custom attributes. -/
  | customAttributes
  deriving DecidableEq, Repr

/-- The case of the switch of `Item::readAttr` taken for each record tag, in
the order of the source. -/
def readCase : AttrTypes_t → ReadCase
  | .ATTR_COUNT => .subType 1
  | .ATTR_RUNE_CHARGES => .subType 1
  | .ATTR_ACTION_ID => .actionId
  | .ATTR_UNIQUE_ID => .uniqueId
  | .ATTR_TEXT => .text
  | .ATTR_WRITTENDATE => .writtenDate
  | .ATTR_WRITTENBY => .writtenBy
  | .ATTR_DESC => .desc
  | .ATTR_CHARGES => .subType 2
  | .ATTR_DURATION => .duration
  | .ATTR_DECAYING_STATE => .decayingState
  | .ATTR_NAME => .strAttr .ITEM_ATTRIBUTE_NAME
  | .ATTR_ARTICLE => .strAttr .ITEM_ATTRIBUTE_ARTICLE
  | .ATTR_PLURALNAME => .strAttr .ITEM_ATTRIBUTE_PLURALNAME
  | .ATTR_ATTACK => .intAttr 4 .ITEM_ATTRIBUTE_ATTACK
  | .ATTR_WEIGHT => .intAttr 4 .ITEM_ATTRIBUTE_WEIGHT
  | .ATTR_DEFENSE => .intAttr 8 .ITEM_ATTRIBUTE_DEFENSE
  | .ATTR_EXTRADEFENSE => .intAttr 8 .ITEM_ATTRIBUTE_EXTRADEFENSE
  | .ATTR_ARMOR => .intAttr 8 .ITEM_ATTRIBUTE_ARMOR
  | .ATTR_HITCHANCE => .intAttr 8 .ITEM_ATTRIBUTE_HITCHANCE
  | .ATTR_SHOOTRANGE => .intAttr 8 .ITEM_ATTRIBUTE_SHOOTRANGE
  | .ATTR_DECAYTO => .intAttr 8 .ITEM_ATTRIBUTE_DECAYTO
  | .ATTR_WRAPID => .intAttr 8 .ITEM_ATTRIBUTE_WRAPID
  | .ATTR_STOREITEM => .intAttr 8 .ITEM_ATTRIBUTE_STOREITEM
  | .ATTR_ACCURACY => .intAttr 8 .ITEM_ATTRIBUTE_ACCURACY
  | .ATTR_EVASION => .intAttr 8 .ITEM_ATTRIBUTE_EVASION
  | .ATTR_RESOLVE => .intAttr 8 .ITEM_ATTRIBUTE_RESOLVE
  | .ATTR_AGILITY => .intAttr 8 .ITEM_ATTRIBUTE_AGILITY
  | .ATTR_ALACRITY => .intAttr 8 .ITEM_ATTRIBUTE_ALACRITY
  | .ATTR_MAGIC => .intAttr 8 .ITEM_ATTRIBUTE_MAGIC
  | .ATTR_FINESSE => .intAttr 8 .ITEM_ATTRIBUTE_FINESSE
  | .ATTR_CONCENTRATION => .intAttr 8 .ITEM_ATTRIBUTE_CONCENTRATION
  | .ATTR_FOCUS => .intAttr 8 .ITEM_ATTRIBUTE_FOCUS
  | .ATTR_DISTANCE => .intAttr 8 .ITEM_ATTRIBUTE_DISTANCE
  | .ATTR_MELEE => .intAttr 8 .ITEM_ATTRIBUTE_MELEE
  | .ATTR_SHIELD => .intAttr 8 .ITEM_ATTRIBUTE_SHIELD
  | .ATTR_CONCOCTING => .intAttr 8 .ITEM_ATTRIBUTE_CONCOCTING
  | .ATTR_ENCHANTING => .intAttr 8 .ITEM_ATTRIBUTE_ENCHANTING
  | .ATTR_EXPLORING => .intAttr 8 .ITEM_ATTRIBUTE_EXPLORING
  | .ATTR_SMITHING => .intAttr 8 .ITEM_ATTRIBUTE_SMITHING
  | .ATTR_COOKING => .intAttr 8 .ITEM_ATTRIBUTE_COOKING
  | .ATTR_MINING => .intAttr 8 .ITEM_ATTRIBUTE_MINING
  | .ATTR_GATHERING => .intAttr 8 .ITEM_ATTRIBUTE_GATHERING
  | .ATTR_SLAYING => .intAttr 8 .ITEM_ATTRIBUTE_SLAYING
  | .ATTR_UPGRADE => .intAttr 8 .ITEM_ATTRIBUTE_UPGRADE
  | .ATTR_SLOT1 => .intAttr 8 .ITEM_ATTRIBUTE_SLOT1
  | .ATTR_SLOT1VALUE => .intAttr 8 .ITEM_ATTRIBUTE_SLOT1VALUE
  | .ATTR_SLOT2 => .intAttr 8 .ITEM_ATTRIBUTE_SLOT2
  | .ATTR_SLOT2VALUE => .intAttr 8 .ITEM_ATTRIBUTE_SLOT2VALUE
  | .ATTR_SLOT3 => .intAttr 8 .ITEM_ATTRIBUTE_SLOT3
  | .ATTR_SLOT3VALUE => .intAttr 8 .ITEM_ATTRIBUTE_SLOT3VALUE
  | .ATTR_SLOT4 => .intAttr 8 .ITEM_ATTRIBUTE_SLOT4
  | .ATTR_SLOT4VALUE => .intAttr 8 .ITEM_ATTRIBUTE_SLOT4VALUE
  | .ATTR_SLOT5 => .intAttr 8 .ITEM_ATTRIBUTE_SLOT5
  | .ATTR_SLOT5VALUE => .intAttr 8 .ITEM_ATTRIBUTE_SLOT5VALUE
  | .ATTR_MP => .intAttr 8 .ITEM_ATTRIBUTE_MP
  | .ATTR_CRITICALHITCHANCE => .intAttr 8 .ITEM_ATTRIBUTE_CRITICALHITCHANCE
  | .ATTR_CRITICALHITAMOUNT => .intAttr 8 .ITEM_ATTRIBUTE_CRITICALHITAMOUNT
  | .ATTR_MPREGEN => .intAttr 8 .ITEM_ATTRIBUTE_MPREGEN
  | .ATTR_HPREGEN => .intAttr 8 .ITEM_ATTRIBUTE_HPREGEN
  | .ATTR_HP => .intAttr 8 .ITEM_ATTRIBUTE_HP
  | .ATTR_DEPOT_ID => .skip 2
  | .ATTR_HOUSEDOORID => .skip 1
  | .ATTR_SLEEPERGUID => .skip 4
  | .ATTR_SLEEPSTART => .skip 4
  | .ATTR_TELE_DEST => .skip 5
  | .ATTR_CONTAINER_ITEMS => .fail
  | .ATTR_CUSTOM_ATTRIBUTES => .customAttributes

/-- A case that reads a value of `width` bytes and hands it to `f`; a failed
read is `ATTR_READ_ERROR` with stream and item as they were. -/
def readFixed (width : Nat) (propStream : List Nat) (item : Item) (f : Nat → Item) :
    Attr_ReadValue × List Nat × Item :=
  match PropStream.read width propStream with
  | none => (.ATTR_READ_ERROR, propStream, item)
  | some (v, rest) => (.ATTR_READ_CONTINUE, rest, f v)

/-- A case that reads a string and hands it to `f`. -/
def readText (H : Header) (propStream : List Nat) (item : Item) (f : List Nat → Item) :
    Attr_ReadValue × List Nat × Item :=
  match PropStream.readString H.strLenBytes propStream with
  | none => (.ATTR_READ_ERROR, propStream, item)
  | some (str, rest) => (.ATTR_READ_CONTINUE, rest, f str)

/-- Modelled from the spec: `CustomAttribute::unserialize` of the header
item.h, which is not among the sources: a type byte, then a string, a 64-bit
integer, a 64-bit double or a one-byte boolean; an unknown type byte fails. -/
def CustomAttribute.unserialize (H : Header) (propStream : List Nat) :
    Option (CustomAttribute × List Nat) :=
  match PropStream.read 1 propStream with
  | none => none
  | some (t, p1) =>
    match H.customOf t with
    | none => none
    | some .text =>
      (PropStream.readString H.strLenBytes p1).map (fun r => (CustomAttribute.text r.1, r.2))
    | some .integer => (PropStream.read 8 p1).map (fun r => (CustomAttribute.integer r.1, r.2))
    | some .double => (PropStream.read 8 p1).map (fun r => (CustomAttribute.double r.1, r.2))
    | some .boolean =>
      (PropStream.read 1 p1).map (fun r => (CustomAttribute.boolean (r.1 != 0), r.2))

/-- Modelled from the spec: `CustomAttribute::serialize` of the header item.h:
the type byte, then the value. -/
def CustomAttribute.serialize (H : Header) : CustomAttribute → List Nat
  | .text str =>
    PropWriteStream.write 1 (H.customByte .text) ++ PropWriteStream.writeString H.strLenBytes str
  | .integer v => PropWriteStream.write 1 (H.customByte .integer) ++ PropWriteStream.write 8 v
  | .double bits => PropWriteStream.write 1 (H.customByte .double) ++ PropWriteStream.write 8 bits
  | .boolean b =>
    PropWriteStream.write 1 (H.customByte .boolean) ++ PropWriteStream.write 1 (if b then 1 else 0)

/-- The loop of the case `ATTR_CUSTOM_ATTRIBUTES` of `Item::readAttr`, with
`size` iterations left. -/
def readCustomAttributes (H : Header) : Nat → List Nat → Item → Attr_ReadValue × List Nat × Item
  | 0, propStream, item => (.ATTR_READ_CONTINUE, propStream, item)
  | size + 1, propStream, item =>
    match PropStream.readString H.strLenBytes propStream with
    | none => (.ATTR_READ_ERROR, propStream, item)
    | some (key, p1) =>
      match CustomAttribute.unserialize H p1 with
      | none => (.ATTR_READ_ERROR, p1, item)
      | some (val, p2) => readCustomAttributes H size p2 (item.setCustomAttribute H key val)

/-- One case of the switch of `Item::readAttr`: the result, the stream
afterwards and the item afterwards. -/
def ReadCase.run (H : Header) (propStream : List Nat) (item : Item) :
    ReadCase → Attr_ReadValue × List Nat × Item
  | .subType width => readFixed width propStream item (fun v => item.setSubType H v)
  | .actionId => readFixed 2 propStream item (fun v => item.setActionId H v)
  | .uniqueId => readFixed 2 propStream item (fun v => item.setUniqueId H v)
  | .text => readText H propStream item (fun str => item.setText H str)
  | .writtenDate => readFixed 4 propStream item (fun v => item.setDate H v)
  | .writtenBy => readText H propStream item (fun str => item.setWriter H str)
  | .desc => readText H propStream item (fun str => item.setSpecialDescription H str)
  | .duration => readFixed 4 propStream item (fun v => item.setDuration H (max 0 v))
  | .decayingState =>
    readFixed 1 propStream item
      (fun v => if v != H.DECAYING_FALSE then item.setDecaying H H.DECAYING_PENDING else item)
  | .strAttr type => readText H propStream item (fun str => item.setStrAttr H (H.mask type) str)
  | .intAttr width type =>
    readFixed width propStream item (fun v => item.setIntAttr H (H.mask type) v)
  | .skip n =>
    match PropStream.skip n propStream with
    | none => (.ATTR_READ_ERROR, propStream, item)
    | some rest => (.ATTR_READ_CONTINUE, rest, item)
  | .fail => (.ATTR_READ_ERROR, propStream, item)
  | .customAttributes =>
    match PropStream.read 8 propStream with
    | none => (.ATTR_READ_ERROR, propStream, item)
    | some (size, p1) => readCustomAttributes H size p1 item

/-- `Item::readAttr`: `attr` is the numeric value of the tag; a value that is
none of the case labels takes the `default` branch. -/
def Item.readAttr (H : Header) (attr : Nat) (propStream : List Nat) (item : Item) :
    Attr_ReadValue × List Nat × Item :=
  match H.attrOf attr with
  | some a => (readCase a).run H propStream item
  | none => (.ATTR_READ_ERROR, propStream, item)

/-- The loop of `Item::unserializeAttr`, with `fuel` iterations allowed: the
returned flag, the stream afterwards and the item afterwards; `none` when the
fuel runs out. -/
def Item.unserializeAttrLoop (H : Header) :
    Nat → List Nat → Item → Option (Bool × List Nat × Item)
  | 0, _, _ => none
  | fuel + 1, propStream, item =>
    match PropStream.read 1 propStream with
    | none => some (true, propStream, item)
    | some (attr_type, p1) =>
      if attr_type = 0 then some (true, p1, item)
      else
        match Item.readAttr H attr_type p1 item with
        | (.ATTR_READ_ERROR, p2, item2) => some (false, p2, item2)
        | (.ATTR_READ_END, p2, item2) => some (true, p2, item2)
        | (.ATTR_READ_CONTINUE, p2, item2) => Item.unserializeAttrLoop H fuel p2 item2

/-- `Item::unserializeAttr`. Every iteration consumes the tag byte, so one
more iteration than the stream has bytes is enough fuel. -/
def Item.unserializeAttr (H : Header) (propStream : List Nat) (item : Item) :
    Option (Bool × List Nat × Item) :=
  Item.unserializeAttrLoop H (propStream.length + 1) propStream item

/-- The payload width of the cases of `Item::readAttr` that read or skip a
fixed number of bytes; nothing for the string cases, the custom attributes and
the case that only fails. -/
def ReadCase.fixedWidth : ReadCase → Option Nat
  | .subType width => some width
  | .actionId => some 2
  | .uniqueId => some 2
  | .writtenDate => some 4
  | .duration => some 4
  | .decayingState => some 1
  | .intAttr width _ => some width
  | .skip n => some n
  | .text => none
  | .writtenBy => none
  | .desc => none
  | .strAttr _ => none
  | .fail => none
  | .customAttributes => none

/-- Reading the custom entries of a list one after another from a stream, each
the way the loop of the case `ATTR_CUSTOM_ATTRIBUTES` of `Item::readAttr`
reads one (the key with `readString`, the value with `unserialize`): the
stream left behind the last of them, or `none` when the stream does not begin
with exactly these entries. -/
def readsCustomEntries (H : Header) :
    List (List Nat × CustomAttribute) → List Nat → Option (List Nat)
  | [], propStream => some propStream
  | (key, val) :: rest, propStream =>
    match PropStream.readString H.strLenBytes propStream with
    | none => none
    | some (k, p1) =>
      match CustomAttribute.unserialize H p1 with
      | none => none
      | some (v, p2) => if k = key ∧ v = val then readsCustomEntries H rest p2 else none

/-- No further custom entry can be read from the stream: the key or, behind
the key, the value fails to decode. -/
def customEntryFails (H : Header) (propStream : List Nat) : Bool :=
  match PropStream.readString H.strLenBytes propStream with
  | none => true
  | some (_, p1) => (CustomAttribute.unserialize H p1).isNone

/-! ### Records on the wire -/

/-- A record of the stream: the tag byte and the payload bytes. -/
structure AttrRecord where
  tag : Nat
  payload : List Nat
  deriving DecidableEq, Repr

/-- The bytes of a record: the tag, then the payload. -/
def AttrRecord.bytes (r : AttrRecord) : List Nat := r.tag :: r.payload

/-- A well-formed string payload: the length prefix, then exactly that many
bytes. -/
def stringPayload (H : Header) (p : List Nat) : Prop :=
  ∃ str, str.length < 256 ^ H.strLenBytes ∧ p = PropWriteStream.writeString H.strLenBytes str

/-- The kind of a custom value. -/
def CustomAttribute.kind : CustomAttribute → CustomKind
  | .text _ => .text
  | .integer _ => .integer
  | .double _ => .double
  | .boolean _ => .boolean

/-- A custom value that fits its wire format: the text fits the length prefix,
the integer and the double fit 64 bits, and the type byte of its kind is a
byte that denotes that kind. -/
def CustomAttribute.fits (H : Header) (val : CustomAttribute) : Prop :=
  H.customByte val.kind < 256 ∧ H.customOf (H.customByte val.kind) = some val.kind ∧
  match val with
  | .text str => str.length < 256 ^ H.strLenBytes
  | .integer v => v < 2 ^ 64
  | .double bits => bits < 2 ^ 64
  | .boolean _ => True

/-- The bytes of the custom-attribute entries, as `Item::serializeAttr` writes
them: for each entry the key string, then the value. -/
def customEntriesBytes (H : Header) (entries : List (List Nat × CustomAttribute)) : List Nat :=
  (entries.map (fun entry =>
    PropWriteStream.writeString H.strLenBytes entry.1 ++ entry.2.serialize H)).flatten

/-- A well-formed custom-attribute payload: the 64-bit entry count, then that
many entries, each a key string and a value that fits. -/
def customPayload (H : Header) (p : List Nat) : Prop :=
  ∃ entries : List (List Nat × CustomAttribute),
    entries.length < 2 ^ 64 ∧
    (∀ e ∈ entries, e.1.length < 256 ^ H.strLenBytes ∧ e.2.fits H) ∧
    p = PropWriteStream.write 8 entries.length ++ customEntriesBytes H entries

/-- The payloads that are well-formed for each case of `Item::readAttr`: the
fixed width for the cases that read or skip a fixed number of bytes, a
length-prefixed string for the string cases, counted entries for the custom
attributes, and none for the case that only fails. -/
def ReadCase.payloadOK (H : Header) (c : ReadCase) (p : List Nat) : Prop :=
  match c with
  | .text => stringPayload H p
  | .writtenBy => stringPayload H p
  | .desc => stringPayload H p
  | .strAttr _ => stringPayload H p
  | .fail => False
  | .customAttributes => customPayload H p
  | c => c.fixedWidth = some p.length

/-- A well-formed record: the tag is a non-zero byte that is one of the case
labels of `Item::readAttr`, and the payload is well-formed for that case. -/
structure AttrRecord.WF (H : Header) (r : AttrRecord) : Prop where
  byte : r.tag < 256
  nonzero : r.tag ≠ 0
  payload : ∃ a, H.attrOf r.tag = some a ∧ (readCase a).payloadOK H r.payload

/-- The item after `Item::readAttr` has read one record on its own. -/
def Item.applyRecord (H : Header) (item : Item) (r : AttrRecord) : Item :=
  (Item.readAttr H r.tag r.payload item).2.2

/-! ### The encoder -/

/-- One guarded write of `Item::serializeAttr`. -/
inductive WriteStep where
  /-- The count record, for stackable, fluid-container and splash types. -/
  | count
  /-- The charges record, when `getCharges()` is not 0. -/
  | charges
  /-- The action-id record, for moveable types with a non-zero action id. -/
  | actionId
  /-- The text record, when the text is not empty. -/
  | text
  /-- The written-date record, when the date is not 0. -/
  | writtenDate
  /-- The writer record, when the writer is not empty. -/
  | writtenBy
  /-- The description record, when the special description is not empty. -/
  | desc
  /-- The decay-state record, when the state is `DECAYING_TRUE` or
  `DECAYING_PENDING`. -/
  | decayingState
  /-- `if (hasAttribute(type)) { write<uint8_t>(attr); writeString(getStrAttr(type)); }` -/
  | strAttr (type : itemAttrTypes) (attr : AttrTypes_t)
  /-- `if (hasAttribute(type)) { write<uint8_t>(attr); write<T>(getIntAttr(type)); }`
  with a `T` of `width` bytes. -/
  | intAttr (type : itemAttrTypes) (attr : AttrTypes_t) (width : Nat)
  /-- The custom-attribute record, when the custom bit is set. -/
  | customAttributes
  deriving DecidableEq, Repr

/-- The guarded writes of `Item::serializeAttr`, in the order of the source. -/
def serializeSteps : List WriteStep :=
  [.count, .charges, .actionId, .text, .writtenDate, .writtenBy, .desc,
   .intAttr .ITEM_ATTRIBUTE_DURATION .ATTR_DURATION 4,
   .decayingState,
   .strAttr .ITEM_ATTRIBUTE_NAME .ATTR_NAME,
   .strAttr .ITEM_ATTRIBUTE_ARTICLE .ATTR_ARTICLE,
   .strAttr .ITEM_ATTRIBUTE_PLURALNAME .ATTR_PLURALNAME,
   .intAttr .ITEM_ATTRIBUTE_ATTACK .ATTR_ATTACK 4,
   .intAttr .ITEM_ATTRIBUTE_WEIGHT .ATTR_WEIGHT 4,
   .intAttr .ITEM_ATTRIBUTE_DEFENSE .ATTR_DEFENSE 8,
   .intAttr .ITEM_ATTRIBUTE_EXTRADEFENSE .ATTR_EXTRADEFENSE 8,
   .intAttr .ITEM_ATTRIBUTE_ARMOR .ATTR_ARMOR 8,
   .intAttr .ITEM_ATTRIBUTE_HITCHANCE .ATTR_HITCHANCE 8,
   .intAttr .ITEM_ATTRIBUTE_SHOOTRANGE .ATTR_SHOOTRANGE 8,
   .intAttr .ITEM_ATTRIBUTE_DECAYTO .ATTR_DECAYTO 8,
   .intAttr .ITEM_ATTRIBUTE_WRAPID .ATTR_WRAPID 8,
   .intAttr .ITEM_ATTRIBUTE_STOREITEM .ATTR_STOREITEM 8,
   .intAttr .ITEM_ATTRIBUTE_ACCURACY .ATTR_ACCURACY 8,
   .intAttr .ITEM_ATTRIBUTE_EVASION .ATTR_EVASION 8,
   .intAttr .ITEM_ATTRIBUTE_RESOLVE .ATTR_RESOLVE 8,
   .intAttr .ITEM_ATTRIBUTE_AGILITY .ATTR_AGILITY 8,
   .intAttr .ITEM_ATTRIBUTE_ALACRITY .ATTR_ALACRITY 8,
   .intAttr .ITEM_ATTRIBUTE_MAGIC .ATTR_MAGIC 8,
   .intAttr .ITEM_ATTRIBUTE_FINESSE .ATTR_FINESSE 8,
   .intAttr .ITEM_ATTRIBUTE_CONCENTRATION .ATTR_CONCENTRATION 8,
   .intAttr .ITEM_ATTRIBUTE_FOCUS .ATTR_FOCUS 8,
   .intAttr .ITEM_ATTRIBUTE_DISTANCE .ATTR_DISTANCE 8,
   .intAttr .ITEM_ATTRIBUTE_MELEE .ATTR_MELEE 8,
   .intAttr .ITEM_ATTRIBUTE_SHIELD .ATTR_SHIELD 8,
   .intAttr .ITEM_ATTRIBUTE_CONCOCTING .ATTR_CONCOCTING 8,
   .intAttr .ITEM_ATTRIBUTE_ENCHANTING .ATTR_ENCHANTING 8,
   .intAttr .ITEM_ATTRIBUTE_EXPLORING .ATTR_EXPLORING 8,
   .intAttr .ITEM_ATTRIBUTE_SMITHING .ATTR_SMITHING 8,
   .intAttr .ITEM_ATTRIBUTE_COOKING .ATTR_COOKING 8,
   .intAttr .ITEM_ATTRIBUTE_MINING .ATTR_MINING 8,
   .intAttr .ITEM_ATTRIBUTE_GATHERING .ATTR_GATHERING 8,
   .intAttr .ITEM_ATTRIBUTE_SLAYING .ATTR_SLAYING 8,
   .intAttr .ITEM_ATTRIBUTE_SLOT1 .ATTR_SLOT1 8,
   .intAttr .ITEM_ATTRIBUTE_SLOT1VALUE .ATTR_SLOT1VALUE 8,
   .intAttr .ITEM_ATTRIBUTE_SLOT2 .ATTR_SLOT1 8,
   .intAttr .ITEM_ATTRIBUTE_SLOT2VALUE .ATTR_SLOT2VALUE 8,
   .intAttr .ITEM_ATTRIBUTE_SLOT3 .ATTR_SLOT3 8,
   .intAttr .ITEM_ATTRIBUTE_SLOT3VALUE .ATTR_SLOT3VALUE 8,
   .intAttr .ITEM_ATTRIBUTE_SLOT4 .ATTR_SLOT4 8,
   .intAttr .ITEM_ATTRIBUTE_SLOT4VALUE .ATTR_SLOT4VALUE 8,
   .intAttr .ITEM_ATTRIBUTE_SLOT5 .ATTR_SLOT5 8,
   .intAttr .ITEM_ATTRIBUTE_SLOT5VALUE .ATTR_SLOT5VALUE 8,
   .intAttr .ITEM_ATTRIBUTE_CRITICALHITCHANCE .ATTR_CRITICALHITCHANCE 8,
   .intAttr .ITEM_ATTRIBUTE_CRITICALHITAMOUNT .ATTR_CRITICALHITAMOUNT 8,
   .intAttr .ITEM_ATTRIBUTE_MPREGEN .ATTR_MPREGEN 8,
   .intAttr .ITEM_ATTRIBUTE_HPREGEN .ATTR_HPREGEN 8,
   .intAttr .ITEM_ATTRIBUTE_HP .ATTR_HP 8,
   .intAttr .ITEM_ATTRIBUTE_MP .ATTR_MP 8,
   .customAttributes]

/-- The record tag that a guarded write of `Item::serializeAttr` writes with
`write<uint8_t>`. -/
def WriteStep.attr : WriteStep → AttrTypes_t
  | .count => .ATTR_COUNT
  | .charges => .ATTR_CHARGES
  | .actionId => .ATTR_ACTION_ID
  | .text => .ATTR_TEXT
  | .writtenDate => .ATTR_WRITTENDATE
  | .writtenBy => .ATTR_WRITTENBY
  | .desc => .ATTR_DESC
  | .decayingState => .ATTR_DECAYING_STATE
  | .strAttr _ attr => attr
  | .intAttr _ attr _ => attr
  | .customAttributes => .ATTR_CUSTOM_ATTRIBUTES

/-- The guard and the payload of a guarded write of `Item::serializeAttr`:
nothing when the guard fails, otherwise the bytes written after the tag. -/
def WriteStep.payload (H : Header) (item : Item) : WriteStep → Option (List Nat)
  | .count =>
    let it := H.items item.id
    if it.stackable || it.isFluidContainer || it.isSplash then
      some (PropWriteStream.write 1 (item.getSubType H))
    else none
  | .charges =>
    let charges := item.getCharges H
    if charges != 0 then some (PropWriteStream.write 2 charges) else none
  | .actionId =>
    if (H.items item.id).moveable then
      let actionId := item.getActionId H
      if actionId != 0 then some (PropWriteStream.write 2 actionId) else none
    else none
  | .text =>
    let text := item.getText H
    if !text.isEmpty then some (PropWriteStream.writeString H.strLenBytes text) else none
  | .writtenDate =>
    let writtenDate := item.getDate H
    if writtenDate != 0 then some (PropWriteStream.write 4 writtenDate) else none
  | .writtenBy =>
    let writer := item.getWriter H
    if !writer.isEmpty then some (PropWriteStream.writeString H.strLenBytes writer) else none
  | .desc =>
    let specialDesc := item.getSpecialDescription H
    if !specialDesc.isEmpty then
      some (PropWriteStream.writeString H.strLenBytes specialDesc)
    else none
  | .decayingState =>
    let decayState := item.getDecaying H
    if decayState == H.DECAYING_TRUE || decayState == H.DECAYING_PENDING then
      some (PropWriteStream.write 1 decayState)
    else none
  | .strAttr type _ =>
    if item.hasAttribute (H.mask type) then
      some (PropWriteStream.writeString H.strLenBytes (item.getStrAttr H (H.mask type)))
    else none
  | .intAttr type _ width =>
    if item.hasAttribute (H.mask type) then
      some (PropWriteStream.write width (item.getIntAttr H (H.mask type)))
    else none
  | .customAttributes =>
    if item.hasAttribute (H.mask .ITEM_ATTRIBUTE_CUSTOM) then
      let customAttrMap := item.getAttributes.customAttributes
      some (PropWriteStream.write 8 customAttrMap.length ++ customEntriesBytes H customAttrMap)
    else none

/-- The bytes one guarded write of `Item::serializeAttr` appends: nothing when
the guard fails, otherwise the tag byte and the payload. -/
def WriteStep.bytes (H : Header) (item : Item) (step : WriteStep) : List Nat :=
  match step.payload H item with
  | none => []
  | some payload => PropWriteStream.write 1 (H.attrByte step.attr) ++ payload

/-- `Item::serializeAttr`: the bytes written to the stream. -/
def Item.serializeAttr (H : Header) (item : Item) : List Nat :=
  (serializeSteps.map (WriteStep.bytes H item)).flatten

/-! ### The round trip through the codec -/

/-- Modelled from the spec: `Item::setDefaultDuration` of the header item.h,
which is not among the sources: a decay duration (the decay time of the type
in milliseconds) is seeded if the type defines one. -/
def Item.setDefaultDuration (H : Header) (i : Item) : Item :=
  let duration := (H.items i.id).decayTime * 1000 % 2 ^ 32
  if duration != 0 then i.setDuration H duration else i

/-- The constructor `Item::Item(type, count)`. -/
def Item.construct (H : Header) (type : Nat) (count : Nat) : Item :=
  let i : Item := { id := type }
  let it := H.items type
  let i1 :=
    if it.isFluidContainer || it.isSplash then i.setFluidType H count
    else if it.stackable then
      if count != 0 then i.setItemCount H count
      else if it.charges != 0 then i.setItemCount H it.charges
      else i
    else if it.charges != 0 then
      if count != 0 then i.setCharges H count else i.setCharges H it.charges
    else i
  i1.setDefaultDuration H

/-- The numbering of a header is usable for the codec: record tags are
distinct non-zero bytes, attribute tags are distinct single bits. -/
structure Header.WF (H : Header) : Prop where
  attrByte_lt : ∀ a, H.attrByte a < 256
  attrByte_ne : ∀ a, H.attrByte a ≠ 0
  attrByte_inj : ∀ a b, H.attrByte a = H.attrByte b → a = b
  mask_tag : ∀ t, IsTag (H.mask t)
  mask_inj : ∀ t u, H.mask t = H.mask u → t = u

/-- An item whose store (the empty one, when it has none) is well-formed. -/
def Item.WF (i : Item) : Prop := i.getAttributes.WF

/-- The entry of a tag that the getters of an item read, if any. -/
def Item.look (i : Item) (type : Nat) : Option Attribute :=
  i.getAttributes.getExistingAttr type

/-- The attribute tags that a case of `Item::readAttr` may write. -/
def ReadCase.touched : ReadCase → List itemAttrTypes
  | .subType _ => [.ITEM_ATTRIBUTE_FLUIDTYPE, .ITEM_ATTRIBUTE_CHARGES]
  | .actionId => [.ITEM_ATTRIBUTE_ACTIONID]
  | .uniqueId => [.ITEM_ATTRIBUTE_UNIQUEID]
  | .text => [.ITEM_ATTRIBUTE_TEXT]
  | .writtenDate => [.ITEM_ATTRIBUTE_DATE]
  | .writtenBy => [.ITEM_ATTRIBUTE_WRITER]
  | .desc => [.ITEM_ATTRIBUTE_DESCRIPTION]
  | .duration => [.ITEM_ATTRIBUTE_DURATION]
  | .decayingState => [.ITEM_ATTRIBUTE_DECAYSTATE]
  | .strAttr type => [type]
  | .intAttr _ type => [type]
  | .skip _ => []
  | .fail => []
  | .customAttributes => [.ITEM_ATTRIBUTE_CUSTOM]

/-- The payload a guarded write of `Item::serializeAttr` writes is well-formed
for the case of `Item::readAttr` that its record tag selects, as far as the
two tables say: same width for the fixed-width writes, a string case for the
string writes. -/
def WriteStep.compatible : WriteStep → Bool
  | .count => readCase .ATTR_COUNT == .subType 1
  | .charges => readCase .ATTR_CHARGES == .subType 2
  | .actionId => readCase .ATTR_ACTION_ID == .actionId
  | .text => readCase .ATTR_TEXT == .text
  | .writtenDate => readCase .ATTR_WRITTENDATE == .writtenDate
  | .writtenBy => readCase .ATTR_WRITTENBY == .writtenBy
  | .desc => readCase .ATTR_DESC == .desc
  | .decayingState => readCase .ATTR_DECAYING_STATE == .decayingState
  | .strAttr _ attr =>
    match readCase attr with
    | .strAttr _ => true
    | _ => false
  | .intAttr _ attr width =>
    match readCase attr with
    | .intAttr w _ => w == width
    | .duration => width == 4
    | _ => false
  | .customAttributes => readCase .ATTR_CUSTOM_ATTRIBUTES == .customAttributes

/-- Whether `step` is the only guarded write of `Item::serializeAttr` whose
record is read back into the attribute tag `t`. -/
def soleWriter (step : WriteStep) (t : itemAttrTypes) : Bool :=
  serializeSteps.all (fun s => s == step || !((readCase s.attr).touched.contains t))

/-- The integer tags written by a generic guarded write whose record tag is
read back, with the same width, into the same tag, and into which no other
record is read back. -/
def roundTripIntTags : List itemAttrTypes :=
  [.ITEM_ATTRIBUTE_DURATION, .ITEM_ATTRIBUTE_ATTACK, .ITEM_ATTRIBUTE_WEIGHT,
   .ITEM_ATTRIBUTE_DEFENSE, .ITEM_ATTRIBUTE_EXTRADEFENSE, .ITEM_ATTRIBUTE_ARMOR,
   .ITEM_ATTRIBUTE_HITCHANCE, .ITEM_ATTRIBUTE_SHOOTRANGE, .ITEM_ATTRIBUTE_DECAYTO,
   .ITEM_ATTRIBUTE_WRAPID, .ITEM_ATTRIBUTE_STOREITEM, .ITEM_ATTRIBUTE_ACCURACY,
   .ITEM_ATTRIBUTE_EVASION, .ITEM_ATTRIBUTE_RESOLVE, .ITEM_ATTRIBUTE_AGILITY,
   .ITEM_ATTRIBUTE_ALACRITY, .ITEM_ATTRIBUTE_MAGIC, .ITEM_ATTRIBUTE_FINESSE,
   .ITEM_ATTRIBUTE_CONCENTRATION, .ITEM_ATTRIBUTE_FOCUS, .ITEM_ATTRIBUTE_DISTANCE,
   .ITEM_ATTRIBUTE_MELEE, .ITEM_ATTRIBUTE_SHIELD, .ITEM_ATTRIBUTE_CONCOCTING,
   .ITEM_ATTRIBUTE_ENCHANTING, .ITEM_ATTRIBUTE_EXPLORING, .ITEM_ATTRIBUTE_SMITHING,
   .ITEM_ATTRIBUTE_COOKING, .ITEM_ATTRIBUTE_MINING, .ITEM_ATTRIBUTE_GATHERING,
   .ITEM_ATTRIBUTE_SLAYING, .ITEM_ATTRIBUTE_SLOT1VALUE, .ITEM_ATTRIBUTE_SLOT2VALUE,
   .ITEM_ATTRIBUTE_SLOT3, .ITEM_ATTRIBUTE_SLOT3VALUE, .ITEM_ATTRIBUTE_SLOT4,
   .ITEM_ATTRIBUTE_SLOT4VALUE, .ITEM_ATTRIBUTE_SLOT5, .ITEM_ATTRIBUTE_SLOT5VALUE,
   .ITEM_ATTRIBUTE_CRITICALHITCHANCE, .ITEM_ATTRIBUTE_CRITICALHITAMOUNT,
   .ITEM_ATTRIBUTE_MPREGEN, .ITEM_ATTRIBUTE_HPREGEN, .ITEM_ATTRIBUTE_HP, .ITEM_ATTRIBUTE_MP]

/-- The guarded write of `Item::serializeAttr` for each string tag that goes
through the codec: name, article and plural name by the generic string
write, text, writer and description by their own writes. -/
def roundTripStrSteps : List (itemAttrTypes × WriteStep) :=
  [(.ITEM_ATTRIBUTE_NAME, .strAttr .ITEM_ATTRIBUTE_NAME .ATTR_NAME),
   (.ITEM_ATTRIBUTE_ARTICLE, .strAttr .ITEM_ATTRIBUTE_ARTICLE .ATTR_ARTICLE),
   (.ITEM_ATTRIBUTE_PLURALNAME, .strAttr .ITEM_ATTRIBUTE_PLURALNAME .ATTR_PLURALNAME),
   (.ITEM_ATTRIBUTE_TEXT, .text),
   (.ITEM_ATTRIBUTE_WRITER, .writtenBy),
   (.ITEM_ATTRIBUTE_DESCRIPTION, .desc)]

/-- The generic integer write of `Item::serializeAttr` for the tag `t`, if
there is one. -/
def intStepOf (t : itemAttrTypes) : Option WriteStep :=
  serializeSteps.find? (fun s =>
    match s with
    | .intAttr type _ _ => type == t
    | _ => false)

/-- The table facts behind the round trip of an integer tag: its generic write
exists, is at least four bytes wide, is the only write read back into the tag,
and its record tag is read back with the same width into the same tag. -/
def intTagOK (t : itemAttrTypes) : Bool :=
  match intStepOf t with
  | some (.intAttr type attr width) =>
    type == t && decide (4 ≤ width) && soleWriter (.intAttr type attr width) t &&
      (readCase attr == .intAttr width t ||
        (readCase attr == .duration && width == 4 && t == .ITEM_ATTRIBUTE_DURATION))
  | _ => false

/-- The table facts behind the round trip of a string tag: the write is one of
the guarded writes, is the only one read back into the tag, and its record tag
is read back into the same tag. -/
def strStepOK (e : itemAttrTypes × WriteStep) : Bool :=
  serializeSteps.contains e.2 && soleWriter e.2 e.1 &&
    match e.2 with
    | .strAttr type attr => type == e.1 && readCase attr == .strAttr e.1
    | .text => e.1 == .ITEM_ATTRIBUTE_TEXT
    | .writtenBy => e.1 == .ITEM_ATTRIBUTE_WRITER
    | .desc => e.1 == .ITEM_ATTRIBUTE_DESCRIPTION
    | _ => false

/-- The item `j` comes from the item `i` by writes to the tags `ts` only: if
`i` has a well-formed store, so has `j`, and the entry of every tag outside
`ts` is the same in both. -/
def Item.Frame (H : Header) (ts : List itemAttrTypes) (i j : Item) : Prop :=
  i.WF → j.WF ∧ ∀ t0, t0 ∉ ts → j.look (H.mask t0) = i.look (H.mask t0)

/-- The records `Item::serializeAttr` writes for an item: record tag and
payload of every guarded write whose guard holds, in order. -/
def Item.emitted (H : Header) (item : Item) : List (AttrTypes_t × List Nat) :=
  serializeSteps.filterMap (fun s => (s.payload H item).map (fun p => (s.attr, p)))

/-- The item after the cases of `Item::readAttr` selected by the record tags
of `records` have run, one after another, each on its payload alone. -/
def Item.decodeRecords (H : Header) (target : Item) (records : List (AttrTypes_t × List Nat)) :
    Item :=
  records.foldl (fun i e => ((readCase e.1).run H e.2 i).2.2) target

/-- The strings and custom attributes of an item fit the wire format: every
string held by an entry fits the length prefix, and the custom entries are
fewer than `2 ^ 64` with keys and values that fit. -/
structure Item.Fits (H : Header) (item : Item) : Prop where
  strings : ∀ a ∈ item.getAttributes.attributes,
    a.value.asString.length < 256 ^ H.strLenBytes
  customCount : item.getAttributes.customAttributes.length < 2 ^ 64
  custom : ∀ e ∈ item.getAttributes.customAttributes,
    e.1.length < 256 ^ H.strLenBytes ∧ e.2.fits H

/-! ### Factory, clone and equality -/

/-- Modelled from the spec: the constructors of the classes derived from
`Item` (container.h, teleport.h and the other headers are not among the
sources): the item that `Item::Item(type)` builds, of the given class. -/
def Item.constructAs (H : Header) (kind : ItemKind) (type : Nat) : Item :=
  { Item.construct H type 0 with kind := kind }

/-- Modelled from the spec: `incrementReferenceCounter` of the header. -/
def Item.incrementReferenceCounter (i : Item) : Item :=
  { i with referenceCounter := i.referenceCounter + 1 }

/-- `Item::CreateItem(type, count)`; `none` is the null pointer. The
subtractions are 16-bit. -/
def Item.CreateItem (H : Header) (type : Nat) (count : Nat) : Option Item :=
  let it := H.items type
  if it.deprecated then none
  else
    let count := if it.stackable && count == 0 then 1 else count
    if it.id != 0 then
      let newItem : Item :=
        if it.isDepot then Item.constructAs H .depotLocker type
        else if it.isContainer then Item.constructAs H .container type
        else if it.isTeleport then Item.constructAs H .teleport type
        else if it.isMagicField then Item.constructAs H .magicField type
        else if it.isDoor then Item.constructAs H .door type
        else if it.isTrashHolder then Item.constructAs H .trashHolder type
        else if it.isMailbox then Item.constructAs H .mailbox type
        else if it.isBed then Item.constructAs H .bed type
        else if 2210 ≤ it.id && it.id ≤ 2212 then
          Item.construct H ((type + 2 ^ 16 - 3) % 2 ^ 16) count
        else if it.id == 2215 || it.id == 2216 then
          Item.construct H ((type + 2 ^ 16 - 2) % 2 ^ 16) count
        else if 2202 ≤ it.id && it.id ≤ 2206 then
          Item.construct H ((type + 2 ^ 16 - 37) % 2 ^ 16) count
        else if it.id == 2640 then Item.construct H 6132 count
        else if it.id == 6301 then Item.construct H 6300 count
        else if it.id == 18528 then Item.construct H 18408 count
        else Item.construct H type count
      some newItem.incrementReferenceCounter
    else none

/-- `Item::clone`: the clone and the queue `g_game.toDecayItems` afterwards;
`none` when `CreateItem` returns the null pointer (which the source returns,
or dereferences when the item has a store). The store is copied whole. -/
def Item.clone (H : Header) (x : Item) (toDecayItems : List Item) :
    Option (Item × List Item) :=
  match Item.CreateItem H x.id x.count with
  | none => none
  | some item =>
    match x.attributes with
    | none => some (item, toDecayItems)
    | some attributes =>
      let item1 : Item := { item with attributes := some attributes }
      if item1.getDuration H > 0 then
        let item2 := item1.incrementReferenceCounter.setDecaying H H.DECAYING_TRUE
        some (item2, item2 :: toDecayItems)
      else some (item1, toDecayItems)

/-- The two nested loops of `Item::equals` over the entry lists. -/
def attributesMatch (K : AttrKinds) (attributeList otherAttributeList : List Attribute) : Bool :=
  attributeList.all (fun entry =>
    if K.isStrAttrType entry.type then
      otherAttributeList.all (fun otherEntry =>
        !(entry.type == otherEntry.type
          && entry.value.asString != otherEntry.value.asString))
    else
      otherAttributeList.all (fun otherEntry =>
        !(entry.type == otherEntry.type
          && entry.value.asInteger != otherEntry.value.asInteger)))

/-- `Item::equals`; `none` is the null pointer. -/
def Item.equals (H : Header) (x : Item) (otherItem : Option Item) : Bool :=
  match otherItem with
  | none => false
  | some other =>
    if x.id != other.id then false
    else
      match x.attributes, other.attributes with
      | none, none => true
      | none, some otherAttributes => otherAttributes.attributeBits == 0
      | some attributes, none => attributes.attributeBits == 0
      | some attributes, some otherAttributes =>
        if attributes.attributeBits != otherAttributes.attributeBits then false
        else attributesMatch H.toAttrKinds attributes.attributes otherAttributes.attributes

/-- Whether the live member of the union is the string. -/
def AttrValue.isString : AttrValue → Bool
  | .string _ => true
  | .integer _ => false

/-- Every entry holds a value of the kind that `Item::equals` compares it at: a
string when its tag is string-typed, an integer otherwise. -/
def ItemAttributes.Typed (K : AttrKinds) (s : ItemAttributes) : Prop :=
  ∀ a ∈ s.attributes, a.value.isString = K.isStrAttrType a.type

/-- The payload widths of the decoder, tag by tag: one byte for count, rune
charges and decay state, two bytes for charges, action id and unique id, four
bytes for duration, written date, attack and weight, eight bytes for every
other integer stat. -/
def decoderWidths : List (AttrTypes_t × Nat) :=
  [(.ATTR_COUNT, 1), (.ATTR_RUNE_CHARGES, 1), (.ATTR_DECAYING_STATE, 1),
   (.ATTR_CHARGES, 2), (.ATTR_ACTION_ID, 2), (.ATTR_UNIQUE_ID, 2),
   (.ATTR_DURATION, 4), (.ATTR_WRITTENDATE, 4), (.ATTR_ATTACK, 4), (.ATTR_WEIGHT, 4),
   (.ATTR_DEFENSE, 8), (.ATTR_EXTRADEFENSE, 8), (.ATTR_ARMOR, 8), (.ATTR_HITCHANCE, 8),
   (.ATTR_SHOOTRANGE, 8), (.ATTR_DECAYTO, 8), (.ATTR_WRAPID, 8), (.ATTR_STOREITEM, 8),
   (.ATTR_ACCURACY, 8), (.ATTR_EVASION, 8), (.ATTR_RESOLVE, 8), (.ATTR_AGILITY, 8),
   (.ATTR_ALACRITY, 8), (.ATTR_MAGIC, 8), (.ATTR_FINESSE, 8), (.ATTR_CONCENTRATION, 8),
   (.ATTR_FOCUS, 8), (.ATTR_DISTANCE, 8), (.ATTR_MELEE, 8), (.ATTR_SHIELD, 8),
   (.ATTR_CONCOCTING, 8), (.ATTR_ENCHANTING, 8), (.ATTR_EXPLORING, 8), (.ATTR_SMITHING, 8),
   (.ATTR_COOKING, 8), (.ATTR_MINING, 8), (.ATTR_GATHERING, 8), (.ATTR_SLAYING, 8),
   (.ATTR_UPGRADE, 8), (.ATTR_SLOT1, 8), (.ATTR_SLOT1VALUE, 8), (.ATTR_SLOT2, 8),
   (.ATTR_SLOT2VALUE, 8), (.ATTR_SLOT3, 8), (.ATTR_SLOT3VALUE, 8), (.ATTR_SLOT4, 8),
   (.ATTR_SLOT4VALUE, 8), (.ATTR_SLOT5, 8), (.ATTR_SLOT5VALUE, 8), (.ATTR_MP, 8),
   (.ATTR_CRITICALHITCHANCE, 8), (.ATTR_CRITICALHITAMOUNT, 8), (.ATTR_MPREGEN, 8),
   (.ATTR_HPREGEN, 8), (.ATTR_HP, 8)]

/-- Whether `getSubType` and `setSubType` go to an attribute of the store (the
fluid type or the charges) for this type, and not to the `count` field: the
first and the third branch of their chains of tests. -/
def ItemType.subTypeInStore (it : ItemType) : Bool :=
  it.isFluidContainer || it.isSplash || (!it.stackable && it.charges != 0)

/-! ### The stream factory, type reassignment and custom values -/

/-- Modelled from the spec: the legacy PvP field and wall ids and their
persistent counterparts, enumerators of the header const.h, which is not among
the sources. `item.cpp` uses them as the case labels and the assigned values
of the switch of `Item::CreateItem(PropStream&)`. -/
structure LegacyIds where
  ITEM_FIREFIELD_PVP_FULL : Nat
  ITEM_FIREFIELD_PERSISTENT_FULL : Nat
  ITEM_FIREFIELD_PVP_MEDIUM : Nat
  ITEM_FIREFIELD_PERSISTENT_MEDIUM : Nat
  ITEM_FIREFIELD_PVP_SMALL : Nat
  ITEM_FIREFIELD_PERSISTENT_SMALL : Nat
  ITEM_ENERGYFIELD_PVP : Nat
  ITEM_ENERGYFIELD_PERSISTENT : Nat
  ITEM_POISONFIELD_PVP : Nat
  ITEM_POISONFIELD_PERSISTENT : Nat
  ITEM_MAGICWALL : Nat
  ITEM_MAGICWALL_PERSISTENT : Nat
  ITEM_WILDGROWTH : Nat
  ITEM_WILDGROWTH_PERSISTENT : Nat

/-- The case labels of the switch of `Item::CreateItem(PropStream&)`, in the
order of the source. -/
def LegacyIds.labels (L : LegacyIds) : List Nat :=
  [L.ITEM_FIREFIELD_PVP_FULL, L.ITEM_FIREFIELD_PVP_MEDIUM, L.ITEM_FIREFIELD_PVP_SMALL,
   L.ITEM_ENERGYFIELD_PVP, L.ITEM_POISONFIELD_PVP, L.ITEM_MAGICWALL, L.ITEM_WILDGROWTH]

/-- The switch of `Item::CreateItem(PropStream&)` on the id read from the
stream. The case labels of a switch are pairwise distinct, so the order of
the tests plays no part. -/
def LegacyIds.switchId (L : LegacyIds) (id : Nat) : Nat :=
  if id = L.ITEM_FIREFIELD_PVP_FULL then L.ITEM_FIREFIELD_PERSISTENT_FULL
  else if id = L.ITEM_FIREFIELD_PVP_MEDIUM then L.ITEM_FIREFIELD_PERSISTENT_MEDIUM
  else if id = L.ITEM_FIREFIELD_PVP_SMALL then L.ITEM_FIREFIELD_PERSISTENT_SMALL
  else if id = L.ITEM_ENERGYFIELD_PVP then L.ITEM_ENERGYFIELD_PERSISTENT
  else if id = L.ITEM_POISONFIELD_PVP then L.ITEM_POISONFIELD_PERSISTENT
  else if id = L.ITEM_MAGICWALL then L.ITEM_MAGICWALL_PERSISTENT
  else if id = L.ITEM_WILDGROWTH then L.ITEM_WILDGROWTH_PERSISTENT
  else id

/-- `Item::CreateItem(PropStream&)`: the item (`none` is the null pointer) and
the stream afterwards. -/
def Item.CreateItemFromStream (H : Header) (L : LegacyIds) (propStream : List Nat) :
    Option Item × List Nat :=
  match PropStream.read 2 propStream with
  | none => (none, propStream)
  | some (id, rest) => (Item.CreateItem H (L.switchId id) 0, rest)

/-- `Item::setID`; `newid` is a `uint16_t` and `newDuration` a `uint32_t`. -/
def Item.setID (H : Header) (i : Item) (newid : Nat) : Item :=
  let prevIt := H.items i.id
  let i1 : Item := { i with id := newid }
  let it := H.items newid
  let newDuration := it.decayTime * 1000 % 2 ^ 32
  let i2 :=
    if newDuration == 0 && !it.stopTime && decide (it.decayTo < 0) then
      (i1.removeAttribute (H.mask .ITEM_ATTRIBUTE_DECAYSTATE)).removeAttribute
        (H.mask .ITEM_ATTRIBUTE_DURATION)
    else i1
  let i3 := i2.removeAttribute (H.mask .ITEM_ATTRIBUTE_CORPSEOWNER)
  if decide (newDuration > 0)
      && (!prevIt.stopTime || !i3.hasAttribute (H.mask .ITEM_ATTRIBUTE_DURATION)) then
    (i3.setDecaying H H.DECAYING_FALSE).setDuration H newDuration
  else i3

/-- The static member `ItemAttributes::emptyString`, a default-constructed
string. -/
def ItemAttributes.emptyString : List Nat := []

/-- The static member `ItemAttributes::emptyInt`, zero-initialised. -/
def ItemAttributes.emptyInt : Nat := 0

/-- The static member `ItemAttributes::emptyDouble`, zero-initialised: the
64-bit pattern of 0.0. -/
def ItemAttributes.emptyDouble : Nat := 0

/-- The static member `ItemAttributes::emptyBool`, zero-initialised. -/
def ItemAttributes.emptyBool : Bool := false

/-- The call `boost::get<std::string>(value)`: it throws (`none`) when the
variant holds another type. -/
def CustomAttribute.boostGetString : CustomAttribute → Option (List Nat)
  | .text s => some s
  | _ => none

/-- The call `boost::get<int64_t>(value)`. -/
def CustomAttribute.boostGetInt : CustomAttribute → Option Nat
  | .integer v => some v
  | _ => none

/-- The call `boost::get<double>(value)`. -/
def CustomAttribute.boostGetDouble : CustomAttribute → Option Nat
  | .double bits => some bits
  | _ => none

/-- The call `boost::get<bool>(value)`. -/
def CustomAttribute.boostGetBool : CustomAttribute → Option Bool
  | .boolean b => some b
  | _ => none

/-- `CustomAttribute::get<std::string>`; `none` stands for a thrown
exception. -/
def CustomAttribute.getString (c : CustomAttribute) : Option (List Nat) :=
  if c.kind = CustomKind.text then c.boostGetString else some ItemAttributes.emptyString

/-- `CustomAttribute::get<int64_t>`. -/
def CustomAttribute.getInt (c : CustomAttribute) : Option Nat :=
  if c.kind = CustomKind.integer then c.boostGetInt else some ItemAttributes.emptyInt

/-- `CustomAttribute::get<double>`. -/
def CustomAttribute.getDouble (c : CustomAttribute) : Option Nat :=
  if c.kind = CustomKind.double then c.boostGetDouble else some ItemAttributes.emptyDouble

/-- `CustomAttribute::get<bool>`. -/
def CustomAttribute.getBool (c : CustomAttribute) : Option Bool :=
  if c.kind = CustomKind.boolean then c.boostGetBool else some ItemAttributes.emptyBool

/-- The structural tests of `Item::CreateItem` with the class each one
selects, in the order of the source; the first test that holds decides. -/
def factoryPriority : List ((ItemType → Bool) × ItemKind) :=
  [(fun it => it.isDepot, .depotLocker), (fun it => it.isContainer, .container),
   (fun it => it.isTeleport, .teleport), (fun it => it.isMagicField, .magicField),
   (fun it => it.isDoor, .door), (fun it => it.isTrashHolder, .trashHolder),
   (fun it => it.isMailbox, .mailbox), (fun it => it.isBed, .bed)]

/-- The order of the structural tests as the specification words it:
container, door, teleport, field, trash receptacle, mailbox, bed. -/
def statedPriority : List ((ItemType → Bool) × ItemKind) :=
  [(fun it => it.isContainer, .container), (fun it => it.isDoor, .door),
   (fun it => it.isTeleport, .teleport), (fun it => it.isMagicField, .magicField),
   (fun it => it.isTrashHolder, .trashHolder), (fun it => it.isMailbox, .mailbox),
   (fun it => it.isBed, .bed)]

/-- The class a priority list selects for a type: that of the first test that
holds, the plain item when none holds. -/
def selectVariant (priority : List ((ItemType → Bool) × ItemKind)) (it : ItemType) :
    ItemKind :=
  ((priority.find? (fun e => e.1 it)).map Prod.snd).getD ItemKind.plain

/-- Whether a type matches one of the structural tests of `Item::CreateItem`. -/
def ItemType.isStructural (it : ItemType) : Bool :=
  it.isDepot || it.isContainer || it.isTeleport || it.isMagicField || it.isDoor
    || it.isTrashHolder || it.isMailbox || it.isBed

/-- The historical alias table as the specification words it: the id of the
plain item made for a type id. -/
def historicalAlias (type : Nat) : Nat :=
  if 2210 ≤ type ∧ type ≤ 2212 then type - 3
  else if type = 2215 ∨ type = 2216 then type - 2
  else if 2202 ≤ type ∧ type ≤ 2206 then type - 37
  else if type = 2640 then 6132
  else if type = 6301 then 6300
  else if type = 18528 then 18408
  else type

/-- The domain of the alias table of `Item::CreateItem`, as the specification
lists it. -/
def aliasDomain : List Nat :=
  [2202, 2203, 2204, 2205, 2206, 2210, 2211, 2212, 2215, 2216, 2640, 6301, 18528]

/-! ### A concrete header for evaluations -/

/-- The string-typed tags of the sample header. -/
def sampleStrTags : List itemAttrTypes :=
  [.ITEM_ATTRIBUTE_NAME, .ITEM_ATTRIBUTE_ARTICLE, .ITEM_ATTRIBUTE_PLURALNAME,
   .ITEM_ATTRIBUTE_TEXT, .ITEM_ATTRIBUTE_WRITER, .ITEM_ATTRIBUTE_DESCRIPTION]

/-- A header used for concrete evaluations. Attribute tag number n (in the
order of `itemAttrTypes`) is bit n of the mask; record tag number n (in the
order of `AttrTypes_t`) has the byte n + 1; strings carry a two-byte length;
`count` is a byte; type 2 is stackable, type 3 is not moveable, type 4 is
moveable with default charges, and every other type is a plain moveable
type. -/
def sampleHeader : Header :=
  { isStrAttrType := fun t => sampleStrTags.any (fun x => 2 ^ x.toCtorIdx == t),
    isIntAttrType := fun t =>
      !(sampleStrTags.any (fun x => 2 ^ x.toCtorIdx == t)) && t != 0 && (t &&& (t - 1)) == 0,
    mask := fun t => 2 ^ t.toCtorIdx,
    attrByte := fun a => a.toCtorIdx + 1,
    customByte := fun k => k.toCtorIdx + 1,
    strLenBytes := 2,
    countBits := 8,
    DECAYING_FALSE := 0,
    DECAYING_TRUE := 1,
    DECAYING_PENDING := 2,
    items := fun id =>
      { id := id, stackable := id == 2, moveable := id != 3, charges := if id = 4 then 10 else 0 },
    addUniqueItem := fun _ => true }

/-- The string tags that go through the codec: the first components of
`roundTripStrSteps`. -/
def roundTripStrTags : List itemAttrTypes :=
  [.ITEM_ATTRIBUTE_NAME, .ITEM_ATTRIBUTE_ARTICLE, .ITEM_ATTRIBUTE_PLURALNAME,
   .ITEM_ATTRIBUTE_TEXT, .ITEM_ATTRIBUTE_WRITER, .ITEM_ATTRIBUTE_DESCRIPTION]

/-- An item of the plain moveable type 1 of the sample header, with a defense
of 7, the name "hi" and the action id 1000. -/
def sampleItem : Item :=
  (((Item.construct sampleHeader 1 0).setIntAttr sampleHeader
      (sampleHeader.mask .ITEM_ATTRIBUTE_DEFENSE) 7).setStrAttr sampleHeader
      (sampleHeader.mask .ITEM_ATTRIBUTE_NAME) [104, 105]).setActionId sampleHeader 1000

/-- An item of type 3 of the sample header, which is not moveable, with the
action id 1000. -/
def sampleImmovable : Item :=
  (Item.construct sampleHeader 3 0).setActionId sampleHeader 1000

/-- An item of the plain type 1 of the sample header whose second slot is 5. -/
def sampleSlotItem : Item :=
  (Item.construct sampleHeader 1 0).setIntAttr sampleHeader
    (sampleHeader.mask .ITEM_ATTRIBUTE_SLOT2) 5

/-- A sequence of calls used for concrete evaluations. -/
def sampleOps : List StoreOp :=
  [StoreOp.setIntAttr 1 5, StoreOp.setIntAttr 2 6, StoreOp.setStrAttr 16 [104, 105],
   StoreOp.increaseIntAttr 4 (-1), StoreOp.removeAttribute 1]

/-- The store that `sampleOps` builds: tags 4, 2 and 16 are present. -/
def sampleStore : ItemAttributes := runOps sampleKinds {} sampleOps

/-- Three records used for concrete evaluations, under the sample header: a
defense record with value 7, a name record with the string "hi", and a
house-door-id record. -/
def sampleRecords : List AttrRecord :=
  [{ tag := 17, payload := [7, 0, 0, 0, 0, 0, 0, 0] },
   { tag := 12, payload := [2, 0, 104, 105] },
   { tag := 63, payload := [9] }]

/-- An item of the stackable type 2 of the sample header with count 5: the
defense 7 set first, the name "hi" second. -/
def sampleOrderA : Item :=
  ((Item.construct sampleHeader 2 5).setIntAttr sampleHeader
    (sampleHeader.mask .ITEM_ATTRIBUTE_DEFENSE) 7).setStrAttr sampleHeader
    (sampleHeader.mask .ITEM_ATTRIBUTE_NAME) [104, 105]

/-- The item of `sampleOrderA` with the two calls in the other order. -/
def sampleOrderB : Item :=
  ((Item.construct sampleHeader 2 5).setStrAttr sampleHeader
    (sampleHeader.mask .ITEM_ATTRIBUTE_NAME) [104, 105]).setIntAttr sampleHeader
    (sampleHeader.mask .ITEM_ATTRIBUTE_DEFENSE) 7

/-- An item of the plain type 1 of the sample header with a remaining
duration of 5000 and no decay state. -/
def sampleDecaying : Item :=
  (Item.construct sampleHeader 1 0).setDuration sampleHeader 5000

/-- An item of type 4 of the sample header, which has default charges and is
not stackable, with a defense of 7. -/
def sampleChargeable : Item :=
  (Item.construct sampleHeader 4 0).setIntAttr sampleHeader
    (sampleHeader.mask .ITEM_ATTRIBUTE_DEFENSE) 7

/-- A second catalogue for evaluations of the factory and of `setID`, on the
numbering of the sample header: type 5 is stackable with default charges 7,
type 6 is a door and a teleport, type 7 is deprecated, type 8 is unknown (its
catalogue id is 0), type 9 decays into another type without a decay time,
type 10 has a decay time of 10, type 11 has a decay time of 20 and stops its
timer, type 12 is a depot and a container, type 2207 has a decay time of 10,
and every other type is a plain moveable type. -/
def factoryHeader : Header :=
  { sampleHeader with
    items := fun id =>
      if id = 5 then { id := 5, stackable := true, moveable := true, charges := 7 }
      else if id = 6 then { id := 6, isDoor := true, isTeleport := true }
      else if id = 7 then { id := 7, deprecated := true }
      else if id = 8 then { id := 0 }
      else if id = 9 then { id := 9, moveable := true, decayTo := 10 }
      else if id = 10 then { id := 10, moveable := true, decayTime := 10 }
      else if id = 11 then { id := 11, moveable := true, decayTime := 20, stopTime := true }
      else if id = 12 then { id := 12, isDepot := true, isContainer := true }
      else if id = 2207 then { id := 2207, moveable := true, decayTime := 10 }
      else { id := id, moveable := true } }

/-- Sample values of the legacy ids and their persistent counterparts. -/
def sampleLegacyIds : LegacyIds :=
  { ITEM_FIREFIELD_PVP_FULL := 1487, ITEM_FIREFIELD_PERSISTENT_FULL := 1492,
    ITEM_FIREFIELD_PVP_MEDIUM := 1488, ITEM_FIREFIELD_PERSISTENT_MEDIUM := 1493,
    ITEM_FIREFIELD_PVP_SMALL := 1489, ITEM_FIREFIELD_PERSISTENT_SMALL := 1494,
    ITEM_ENERGYFIELD_PVP := 1491, ITEM_ENERGYFIELD_PERSISTENT := 1495,
    ITEM_POISONFIELD_PVP := 1490, ITEM_POISONFIELD_PERSISTENT := 1496,
    ITEM_MAGICWALL := 1497, ITEM_MAGICWALL_PERSISTENT := 1498,
    ITEM_WILDGROWTH := 1499, ITEM_WILDGROWTH_PERSISTENT := 2721 }

/-- An item of type 11 of the second catalogue, whose timer stops, with a
remaining duration of 5000. -/
def sampleStopped : Item :=
  (Item.construct factoryHeader 11 0).setDuration factoryHeader 5000

/-- The item that CreateItem makes for the plain type 1 of the second
catalogue, after setID(2210): it has no store. -/
def sampleRenamed : Item :=
  (Item.construct factoryHeader 1 1).incrementReferenceCounter.setID factoryHeader 2210

/-- The item `sampleOrderA` with another count and a custom attribute in its
custom map; the entry list is the same. -/
def sampleOrderC : Item :=
  { sampleOrderA with
    count := 9,
    attributes := sampleOrderA.attributes.map
      (fun s => { s with customAttributes := [([97], CustomAttribute.boolean true)] }) }

/-- A third catalogue for evaluations of `setID` at large decay times, on the
numbering of the sample header: type 13 has the decay time 4294968, whose
product with 1000 is 2 ^ 32 + 704; type 14 has the decay time 2 ^ 29, whose
product with 1000 is a multiple of 2 ^ 32; every other type is a plain
moveable type. -/
def longDecayHeader : Header :=
  { sampleHeader with
    items := fun id =>
      if id = 13 then { id := 13, moveable := true, decayTime := 4294968 }
      else if id = 14 then { id := 14, moveable := true, decayTime := 536870912 }
      else { id := id, moveable := true } }

/-- The item `sampleOrderA` after setCustomAttribute("a", true). -/
def sampleCustomA : Item :=
  sampleOrderA.setCustomAttribute sampleHeader [97] (CustomAttribute.boolean true)

/-- The item `sampleOrderA` after setCustomAttribute("b", 5) and
setItemCount(9): another custom map and another count than `sampleCustomA`. -/
def sampleCustomB : Item :=
  (sampleOrderA.setCustomAttribute sampleHeader [98] (CustomAttribute.integer 5)).setItemCount
    sampleHeader 9

/-! ## Theorems -/

/-! ### Bit mask arithmetic -/

theorem hasAttribute_two_pow (s : ItemAttributes) (k : Nat) :
    s.hasAttribute (2 ^ k) = s.attributeBits.testBit k := by
  unfold ItemAttributes.hasAttribute
  rw [Nat.two_pow_and]
  cases h : s.attributeBits.testBit k <;> simp

theorem testBit_bitAndNot (a b i : Nat) :
    (bitAndNot a b).testBit i = (a.testBit i && !b.testBit i) := by
  unfold bitAndNot
  rw [Nat.testBit_xor, Nat.testBit_and]
  cases a.testBit i <;> cases b.testBit i <;> rfl

theorem two_pow_inj {j k : Nat} (h : (2 : Nat) ^ j = 2 ^ k) : j = k :=
  Nat.pow_right_injective (le_refl 2) h

/-! ### The list scans -/

theorem map_type_writeAt (l : List Attribute) (i : Nat) (f : AttrValue → AttrValue) :
    (writeAt l i f).map (fun a => a.type) = l.map (fun a => a.type) := by
  induction l generalizing i with
  | nil => rfl
  | cons a rest ih =>
    cases i with
    | zero => rfl
    | succ i => simp [writeAt, ih]

theorem length_writeAt (l : List Attribute) (i : Nat) (f : AttrValue → AttrValue) :
    (writeAt l i f).length = l.length := by
  induction l generalizing i with
  | nil => rfl
  | cons a rest ih =>
    cases i with
    | zero => rfl
    | succ i => simp [writeAt, ih]

theorem writeAt_append_length (pre : List Attribute) (a : Attribute) (post : List Attribute)
    (f : AttrValue → AttrValue) :
    writeAt (pre ++ a :: post) pre.length f = pre ++ { a with value := f a.value } :: post := by
  induction pre with
  | nil => rfl
  | cons b rest ih => simp [writeAt, ih]

theorem findAttr_none {type : Nat} {l : List Attribute} :
    findAttr type l = none ↔ ∀ a ∈ l, a.type ≠ type := by
  induction l with
  | nil => simp [findAttr]
  | cons b rest ih =>
    by_cases hb : b.type = type
    · simp [findAttr, hb]
    · simp [findAttr, hb, ih]

theorem findAttr_some {type : Nat} {l : List Attribute} {i : Nat} (h : findAttr type l = some i) :
    ∃ pre a post, l = pre ++ a :: post ∧ a.type = type ∧ pre.length = i ∧
      ∀ b ∈ pre, b.type ≠ type := by
  induction l generalizing i with
  | nil => simp [findAttr] at h
  | cons b rest ih =>
    by_cases hb : b.type = type
    · simp [findAttr, hb] at h
      exact ⟨[], b, rest, rfl, hb, by simpa using h, by simp⟩
    · simp only [findAttr, hb, if_false, Option.map_eq_some'] at h
      obtain ⟨j, hj, rfl⟩ := h
      obtain ⟨pre, a, post, hl, ha, hlen, hpre⟩ := ih hj
      refine ⟨b :: pre, a, post, by simp [hl], ha, by simp [hlen], ?_⟩
      intro c hc
      rcases List.mem_cons.mp hc with rfl | hc
      · exact hb
      · exact hpre c hc

theorem replaceFirst_none {type : Nat} {back : Attribute} {l : List Attribute} :
    replaceFirst type back l = none ↔ ∀ a ∈ l, a.type ≠ type := by
  induction l with
  | nil => simp [replaceFirst]
  | cons b rest ih =>
    by_cases hb : b.type = type
    · simp [replaceFirst, hb]
    · simp [replaceFirst, hb, ih]

theorem replaceFirst_some {type : Nat} {back : Attribute} {l r : List Attribute}
    (h : replaceFirst type back l = some r) :
    ∃ pre a post, l = pre ++ a :: post ∧ a.type = type ∧ r = pre ++ back :: post ∧
      ∀ b ∈ pre, b.type ≠ type := by
  induction l generalizing r with
  | nil => simp [replaceFirst] at h
  | cons b rest ih =>
    by_cases hb : b.type = type
    · simp [replaceFirst, hb] at h
      exact ⟨[], b, rest, rfl, hb, by simp [h], by simp⟩
    · simp only [replaceFirst, hb, if_false, Option.map_eq_some'] at h
      obtain ⟨r2, hr2, rfl⟩ := h
      obtain ⟨pre, a, post, hl, ha, hr, hpre⟩ := ih hr2
      refine ⟨b :: pre, a, post, by simp [hl], ha, by simp [hr], ?_⟩
      intro c hc
      rcases List.mem_cons.mp hc with rfl | hc
      · exact hb
      · exact hpre c hc

theorem find_type_of_nodup {l : List Attribute} (hn : (l.map (fun a => a.type)).Nodup)
    {a : Attribute} (ha : a ∈ l) :
    l.find? (fun b => b.type == a.type) = some a := by
  induction l with
  | nil => simp at ha
  | cons b rest ih =>
    rw [List.map_cons, List.nodup_cons] at hn
    rcases List.mem_cons.mp ha with rfl | hmem
    · simp [List.find?]
    · have hne : b.type ≠ a.type := by
        intro h
        exact hn.1 (h ▸ List.mem_map_of_mem (fun a => a.type) hmem)
      have hb : (b.type == a.type) = false := by simpa using hne
      simp [List.find?, hb, ih hn.2 hmem]

theorem find_type_none {l : List Attribute} {type : Nat} (h : ∀ a ∈ l, a.type ≠ type) :
    l.find? (fun b => b.type == type) = none := by
  simp only [List.find?_eq_none, beq_iff_eq]
  intro a ha
  simpa using h a ha

/-! ### Writing through `getAttr` -/

theorem setIntAttr_eq_writeThrough (K : AttrKinds) (s : ItemAttributes) (type value : Nat)
    (h : K.isIntAttrType type = true) :
    s.setIntAttr K type value
      = s.writeThrough type (fun _ => AttrValue.integer (value % 2 ^ 64)) := by
  simp [ItemAttributes.setIntAttr, ItemAttributes.writeThrough, h]

theorem increaseIntAttr_eq_writeThrough (K : AttrKinds) (s : ItemAttributes) (type : Nat)
    (value : Int) (h : K.isIntAttrType type = true) :
    s.increaseIntAttr K type value
      = s.writeThrough type
          (fun old => AttrValue.integer (Int.toNat (((old.asInteger : Int) + value) % 2 ^ 64))) := by
  simp [ItemAttributes.increaseIntAttr, ItemAttributes.writeThrough, h]

theorem setStrAttr_eq_writeThrough (K : AttrKinds) (s : ItemAttributes) (type : Nat)
    (value : List Nat) (h : K.isStrAttrType type = true) (hv : value ≠ []) :
    s.setStrAttr K type value = s.writeThrough type (fun _ => AttrValue.string value) := by
  have : value.isEmpty = false := by cases value <;> simp_all
  simp [ItemAttributes.setStrAttr, ItemAttributes.writeThrough, h, this]

theorem writeThrough_absent (s : ItemAttributes) (type : Nat) (f : AttrValue → AttrValue)
    (h : s.hasAttribute type = false) :
    s.writeThrough type f
      = { s with attributeBits := s.attributeBits ||| type,
                 attributes := s.attributes ++ [⟨type, f (AttrValue.integer 0)⟩] } := by
  have hw := writeAt_append_length s.attributes (Attribute.new type) [] f
  simp only [ItemAttributes.writeThrough, ItemAttributes.getAttr, h]
  simpa [Attribute.new] using hw

theorem writeThrough_present (s : ItemAttributes) (hwf : s.WF) (k : Nat)
    (f : AttrValue → AttrValue) (h : s.hasAttribute (2 ^ k) = true) :
    ∃ pre a post, s.attributes = pre ++ a :: post ∧ a.type = 2 ^ k ∧
      s.writeThrough (2 ^ k) f
        = { s with attributes := pre ++ ⟨2 ^ k, f a.value⟩ :: post } := by
  have hbit : s.attributeBits.testBit k = true := by rw [← hasAttribute_two_pow]; exact h
  obtain ⟨a0, ha0, hta0⟩ := (hwf.bits k).mp hbit
  cases hf : findAttr (2 ^ k) s.attributes with
  | none => exact absurd hta0 (findAttr_none.mp hf a0 ha0)
  | some i =>
    obtain ⟨pre, a, post, hl, ha, hlen, -⟩ := findAttr_some hf
    refine ⟨pre, a, post, hl, ha, ?_⟩
    have hw := writeAt_append_length pre a post f
    simp only [ItemAttributes.writeThrough, ItemAttributes.getAttr, h, hf, if_true]
    rw [← hlen, hl, hw, ha]

/-! ### Well-formedness is preserved -/

theorem WF_empty : ItemAttributes.WF {} :=
  { bits := by intro k; simp
    tags := by intro a ha; simp at ha
    nodup := by simp }

theorem WF_of_same_types {s t : ItemAttributes} (hwf : s.WF)
    (hb : t.attributeBits = s.attributeBits)
    (ht : t.attributes.map (fun a => a.type) = s.attributes.map (fun a => a.type)) : t.WF := by
  have hmem : ∀ x, (∃ a ∈ t.attributes, a.type = x) ↔ ∃ a ∈ s.attributes, a.type = x := by
    intro x
    have h1 : (∃ a ∈ t.attributes, a.type = x) ↔ x ∈ t.attributes.map (fun a => a.type) := by
      simp [List.mem_map]
    have h2 : (∃ a ∈ s.attributes, a.type = x) ↔ x ∈ s.attributes.map (fun a => a.type) := by
      simp [List.mem_map]
    rw [h1, h2, ht]
  refine ⟨?_, ?_, ?_⟩
  · intro k; rw [hb, hwf.bits k, hmem]
  · intro a ha
    obtain ⟨b, hb1, hb2⟩ := (hmem a.type).mp ⟨a, ha, rfl⟩
    rw [← hb2]; exact hwf.tags b hb1
  · rw [ht]; exact hwf.nodup

theorem WF_writeThrough (s : ItemAttributes) (hwf : s.WF) (k : Nat) (f : AttrValue → AttrValue) :
    (s.writeThrough (2 ^ k) f).WF := by
  cases h : s.hasAttribute (2 ^ k) with
  | true =>
    obtain ⟨pre, a, post, hl, ha, heq⟩ := writeThrough_present s hwf k f h
    rw [heq]
    apply WF_of_same_types hwf
    · rfl
    · simp [hl, ha]
  | false =>
    rw [writeThrough_absent s _ f h]
    have hbit : s.attributeBits.testBit k = false := by rw [← hasAttribute_two_pow]; exact h
    have hno : ∀ a ∈ s.attributes, a.type ≠ 2 ^ k := by
      intro a ha hta
      have := (hwf.bits k).mpr ⟨a, ha, hta⟩
      rw [hbit] at this; exact Bool.noConfusion this
    refine ⟨?_, ?_, ?_⟩
    · intro j
      simp only [Nat.testBit_or, Nat.testBit_two_pow, Bool.or_eq_true, decide_eq_true_eq,
        List.mem_append, List.mem_singleton]
      rw [hwf.bits j]
      constructor
      · rintro (⟨a, ha, hta⟩ | rfl)
        · exact ⟨a, Or.inl ha, hta⟩
        · exact ⟨_, Or.inr rfl, rfl⟩
      · rintro ⟨a, ha | rfl, hta⟩
        · exact Or.inl ⟨a, ha, hta⟩
        · exact Or.inr (two_pow_inj hta)
    · intro a ha
      simp only [List.mem_append, List.mem_singleton] at ha
      rcases ha with ha | rfl
      · exact hwf.tags a ha
      · exact ⟨k, rfl⟩
    · simp only [List.map_append, List.map_cons, List.map_nil]
      rw [List.nodup_append]
      refine ⟨hwf.nodup, by simp, ?_⟩
      intro x hx hx2
      simp only [List.mem_singleton] at hx2
      obtain ⟨a, ha, hta⟩ := List.mem_map.mp hx
      exact hno a ha (hta.trans hx2)

/-! ### Looking up one tag in two stores -/

theorem getExistingAttr_eq_some {s : ItemAttributes} (hwf : s.WF) {k : Nat} {a : Attribute}
    (ha : a ∈ s.attributes) (hta : a.type = 2 ^ k) :
    s.getExistingAttr (2 ^ k) = some a := by
  have hbit : s.hasAttribute (2 ^ k) = true := by
    rw [hasAttribute_two_pow]; exact (hwf.bits k).mpr ⟨a, ha, hta⟩
  have hfind := find_type_of_nodup hwf.nodup ha
  rw [hta] at hfind
  simp [ItemAttributes.getExistingAttr, hbit, hfind]

theorem getExistingAttr_eq_none {s : ItemAttributes} {type : Nat}
    (h : s.hasAttribute type = false ∨ ∀ a ∈ s.attributes, a.type ≠ type) :
    s.getExistingAttr type = none := by
  unfold ItemAttributes.getExistingAttr
  rcases h with h | h
  · simp [h]
  · simp only [find_type_none h, ite_self]

theorem getExistingAttr_congr {s t : ItemAttributes} (hs : s.WF) (ht : t.WF) (j : Nat)
    (hmem : ∀ x, x.type = 2 ^ j → (x ∈ t.attributes ↔ x ∈ s.attributes)) :
    t.getExistingAttr (2 ^ j) = s.getExistingAttr (2 ^ j) ∧
      t.hasAttribute (2 ^ j) = s.hasAttribute (2 ^ j) := by
  by_cases hex : ∃ x ∈ s.attributes, x.type = 2 ^ j
  · obtain ⟨x, hx, hxt⟩ := hex
    have hx2 : x ∈ t.attributes := (hmem x hxt).mpr hx
    refine ⟨by rw [getExistingAttr_eq_some hs hx hxt, getExistingAttr_eq_some ht hx2 hxt], ?_⟩
    rw [hasAttribute_two_pow, hasAttribute_two_pow, (hs.bits j).mpr ⟨x, hx, hxt⟩,
      (ht.bits j).mpr ⟨x, hx2, hxt⟩]
  · have hs0 : ∀ a ∈ s.attributes, a.type ≠ 2 ^ j := fun a ha hta => hex ⟨a, ha, hta⟩
    have ht0 : ∀ a ∈ t.attributes, a.type ≠ 2 ^ j :=
      fun a ha hta => hex ⟨a, (hmem a hta).mp ha, hta⟩
    refine ⟨by rw [getExistingAttr_eq_none (Or.inr hs0), getExistingAttr_eq_none (Or.inr ht0)], ?_⟩
    rw [hasAttribute_two_pow, hasAttribute_two_pow]
    have h1 : s.attributeBits.testBit j ≠ true :=
      fun h => hex ((hs.bits j).mp h)
    have h2 : t.attributeBits.testBit j ≠ true :=
      fun h => by obtain ⟨a, ha, hta⟩ := (ht.bits j).mp h; exact ht0 a ha hta
    rw [Bool.eq_false_iff.mpr h1, Bool.eq_false_iff.mpr h2]

/-! ### Removing a tag -/

theorem removeAttribute_absent (s : ItemAttributes) (type : Nat)
    (h : s.hasAttribute type = false) : s.removeAttribute type = s := by
  simp [ItemAttributes.removeAttribute, h]

theorem removeAttribute_present (s : ItemAttributes) (hwf : s.WF) (k : Nat)
    (h : s.hasAttribute (2 ^ k) = true) :
    (∃ pre a, s.attributes = pre ++ [a] ∧ a.type = 2 ^ k ∧
        s.removeAttribute (2 ^ k)
          = { s with attributeBits := bitAndNot s.attributeBits (2 ^ k), attributes := pre }) ∨
    (∃ pre a post back, s.attributes = pre ++ a :: post ++ [back] ∧ a.type = 2 ^ k ∧
        s.removeAttribute (2 ^ k)
          = { s with attributeBits := bitAndNot s.attributeBits (2 ^ k),
                     attributes := pre ++ back :: post }) := by
  have hbit : s.attributeBits.testBit k = true := by rw [← hasAttribute_two_pow]; exact h
  obtain ⟨a0, ha0, hta0⟩ := (hwf.bits k).mp hbit
  cases hrev : s.attributes.reverse with
  | nil =>
    rw [List.reverse_eq_nil_iff] at hrev
    rw [hrev] at ha0; simp at ha0
  | cons back rev =>
    have hl : s.attributes = rev.reverse ++ [back] := by
      have := congrArg List.reverse hrev
      simpa using this
    by_cases hb : back.type = 2 ^ k
    · left
      refine ⟨rev.reverse, back, hl, hb, ?_⟩
      simp [ItemAttributes.removeAttribute, h, hrev, hb]
    · right
      cases hrep : replaceFirst (2 ^ k) back rev with
      | none =>
        exfalso
        rw [hl] at ha0
        rcases List.mem_append.mp ha0 with hm | hm
        · exact replaceFirst_none.mp hrep a0 (List.mem_reverse.mp hm) hta0
        · rw [List.mem_singleton] at hm; exact hb (hm ▸ hta0)
      | some rev2 =>
        obtain ⟨r1, a, r2, hr, hat, hr2, -⟩ := replaceFirst_some hrep
        refine ⟨r2.reverse, a, r1.reverse, back, ?_, hat, ?_⟩
        · rw [hl, hr]; simp
        · simp [ItemAttributes.removeAttribute, h, hrev, hb, hrep, hr2]

theorem removeAttribute_perm (s : ItemAttributes) (hwf : s.WF) (k : Nat)
    (h : s.hasAttribute (2 ^ k) = true) :
    ∃ a, a.type = 2 ^ k ∧ List.Perm s.attributes (a :: (s.removeAttribute (2 ^ k)).attributes) ∧
      (s.removeAttribute (2 ^ k)).attributeBits = bitAndNot s.attributeBits (2 ^ k) := by
  rcases removeAttribute_present s hwf k h with ⟨pre, a, hl, ha, heq⟩ | ⟨pre, a, post, back, hl, ha, heq⟩
  · refine ⟨a, ha, ?_, by rw [heq]⟩
    rw [heq, hl]
    exact List.perm_append_comm
  · refine ⟨a, ha, ?_, by rw [heq]⟩
    rw [heq, hl]
    simp only []
    have h1 : List.Perm (pre ++ a :: post ++ [back]) (a :: (pre ++ post ++ [back])) := by
      simp only [List.append_assoc, List.cons_append]
      exact List.perm_middle
    have h2 : List.Perm (pre ++ post ++ [back]) (pre ++ back :: post) := by
      simp only [List.append_assoc]
      exact List.Perm.append_left pre List.perm_append_comm
    exact h1.trans (List.Perm.cons a h2)

theorem WF_of_perm_cons {s t : ItemAttributes} (hwf : s.WF) (k : Nat) {a : Attribute}
    (ha : a.type = 2 ^ k) (hperm : List.Perm s.attributes (a :: t.attributes))
    (hb : t.attributeBits = bitAndNot s.attributeBits (2 ^ k)) :
    t.WF ∧ (∀ x ∈ t.attributes, x.type ≠ 2 ^ k) := by
  have hnd : (List.map (fun a => a.type) (a :: t.attributes)).Nodup :=
    (List.Perm.nodup_iff (List.Perm.map _ hperm)).mp hwf.nodup
  rw [List.map_cons, List.nodup_cons] at hnd
  have hno : ∀ x ∈ t.attributes, x.type ≠ 2 ^ k := by
    intro x hx hxt
    apply hnd.1
    rw [ha, ← hxt]
    exact List.mem_map_of_mem (fun a => a.type) hx
  have hmem : ∀ x, x ∈ s.attributes ↔ x = a ∨ x ∈ t.attributes := by
    intro x; rw [List.Perm.mem_iff hperm, List.mem_cons]
  refine ⟨⟨?_, ?_, hnd.2⟩, hno⟩
  · intro j
    rw [hb, testBit_bitAndNot, Nat.testBit_two_pow]
    simp only [Bool.and_eq_true, Bool.not_eq_true', decide_eq_false_iff_not]
    rw [hwf.bits j]
    constructor
    · rintro ⟨⟨x, hx, hxt⟩, hkj⟩
      rcases (hmem x).mp hx with rfl | hx2
      · exact absurd (two_pow_inj (ha.symm.trans hxt)) hkj
      · exact ⟨x, hx2, hxt⟩
    · rintro ⟨x, hx, hxt⟩
      refine ⟨⟨x, (hmem x).mpr (Or.inr hx), hxt⟩, ?_⟩
      rintro rfl
      exact hno x hx hxt
  · intro x hx
    exact hwf.tags x ((hmem x).mpr (Or.inr hx))

theorem WF_removeAttribute (s : ItemAttributes) (hwf : s.WF) (k : Nat) :
    (s.removeAttribute (2 ^ k)).WF := by
  cases h : s.hasAttribute (2 ^ k) with
  | false => rw [removeAttribute_absent s _ h]; exact hwf
  | true =>
    obtain ⟨a, ha, hperm, hb⟩ := removeAttribute_perm s hwf k h
    exact (WF_of_perm_cons hwf k ha hperm hb).1

/-! ### What a write through `getAttr` leaves alone, and what it stores -/

theorem writeThrough_frame (s : ItemAttributes) (hwf : s.WF) (k : Nat)
    (f : AttrValue → AttrValue) (j : Nat) (hj : j ≠ k) :
    (s.writeThrough (2 ^ k) f).getExistingAttr (2 ^ j) = s.getExistingAttr (2 ^ j) ∧
      (s.writeThrough (2 ^ k) f).hasAttribute (2 ^ j) = s.hasAttribute (2 ^ j) := by
  have hne : (2 : Nat) ^ j ≠ 2 ^ k := fun h => hj (two_pow_inj h)
  apply getExistingAttr_congr hwf (WF_writeThrough s hwf k f) j
  intro x hx
  cases h : s.hasAttribute (2 ^ k) with
  | true =>
    obtain ⟨pre, a, post, hl, ha, heq⟩ := writeThrough_present s hwf k f h
    rw [heq, hl]
    simp only [List.mem_append, List.mem_cons]
    constructor
    · rintro (h1 | rfl | h1)
      · exact Or.inl h1
      · exact absurd hx.symm hne
      · exact Or.inr (Or.inr h1)
    · rintro (h1 | rfl | h1)
      · exact Or.inl h1
      · exact absurd (hx.symm.trans ha) hne
      · exact Or.inr (Or.inr h1)
  | false =>
    rw [writeThrough_absent s _ f h]
    simp only [List.mem_append, List.mem_singleton]
    constructor
    · rintro (h1 | rfl)
      · exact h1
      · exact absurd hx.symm hne
    · exact fun h1 => Or.inl h1

theorem writeThrough_get (s : ItemAttributes) (hwf : s.WF) (k : Nat)
    (f : AttrValue → AttrValue) :
    (s.writeThrough (2 ^ k) f).getExistingAttr (2 ^ k)
      = some ⟨2 ^ k, f (match s.getExistingAttr (2 ^ k) with
                        | some a => a.value
                        | none => AttrValue.integer 0)⟩ := by
  have hwf2 := WF_writeThrough s hwf k f
  cases h : s.hasAttribute (2 ^ k) with
  | true =>
    obtain ⟨pre, a, post, hl, ha, heq⟩ := writeThrough_present s hwf k f h
    have hmem : a ∈ s.attributes := by rw [hl]; simp
    rw [getExistingAttr_eq_some hwf hmem ha]
    apply getExistingAttr_eq_some hwf2 _ rfl
    rw [heq]; simp
  | false =>
    rw [getExistingAttr_eq_none (Or.inl h)]
    apply getExistingAttr_eq_some hwf2 _ rfl
    rw [writeThrough_absent s _ f h]; simp

theorem WF_run (K : AttrKinds) (s : ItemAttributes) (hwf : s.WF) (op : StoreOp)
    (hop : IsTag op.type) : (op.run K s).WF := by
  obtain ⟨k, hk⟩ := hop
  cases op with
  | setIntAttr t v =>
    simp only [StoreOp.type] at hk; subst hk
    cases h : K.isIntAttrType (2 ^ k) with
    | false => simpa [StoreOp.run, ItemAttributes.setIntAttr, h] using hwf
    | true =>
      simp only [StoreOp.run]
      rw [setIntAttr_eq_writeThrough K s _ v h]; exact WF_writeThrough s hwf k _
  | setStrAttr t v =>
    simp only [StoreOp.type] at hk; subst hk
    cases h : K.isStrAttrType (2 ^ k) with
    | false => simpa [StoreOp.run, ItemAttributes.setStrAttr, h] using hwf
    | true =>
      by_cases hv : v = []
      · simpa [StoreOp.run, ItemAttributes.setStrAttr, h, hv] using hwf
      · simp only [StoreOp.run]
        rw [setStrAttr_eq_writeThrough K s _ v h hv]; exact WF_writeThrough s hwf k _
  | increaseIntAttr t v =>
    simp only [StoreOp.type] at hk; subst hk
    cases h : K.isIntAttrType (2 ^ k) with
    | false => simpa [StoreOp.run, ItemAttributes.increaseIntAttr, h] using hwf
    | true =>
      simp only [StoreOp.run]
      rw [increaseIntAttr_eq_writeThrough K s _ v h]; exact WF_writeThrough s hwf k _
  | removeAttribute t =>
    simp only [StoreOp.type] at hk; subst hk
    exact WF_removeAttribute s hwf k

theorem WF_runOps (K : AttrKinds) (ops : List StoreOp) (s : ItemAttributes) (hwf : s.WF)
    (hops : ∀ op ∈ ops, IsTag op.type) : (runOps K s ops).WF := by
  induction ops generalizing s with
  | nil => exact hwf
  | cons op rest ih =>
    simp only [runOps, List.foldl_cons]
    exact ih _ (WF_run K s hwf op (hops op (List.mem_cons_self _ _)))
      (fun o ho => hops o (List.mem_cons_of_mem _ ho))

/-! ### The store contract -/

/-- C2: starting from the empty store, after any finite sequence of setIntAttr,
setStrAttr, increaseIntAttr and removeAttribute calls made with tags, the bit
of every tag T is set exactly when the list holds an entry of tag T, and the
list holds no two entries of the same tag. -/
theorem store_bitmask_consistent (K : AttrKinds) (ops : List StoreOp)
    (hops : ∀ op ∈ ops, IsTag op.type) :
    (∀ T, IsTag T →
      ((runOps K {} ops).hasAttribute T = true ↔ ∃ a ∈ (runOps K {} ops).attributes, a.type = T)) ∧
    ((runOps K {} ops).attributes.map (fun a => a.type)).Nodup := by
  have hwf := WF_runOps K ops {} WF_empty hops
  refine ⟨?_, hwf.nodup⟩
  rintro T ⟨k, rfl⟩
  rw [hasAttribute_two_pow]
  exact hwf.bits k

/-- C3: setIntAttr with an integer-typed tag (bit k) and a 64-bit value v on a
well-formed store. If the tag is absent, the list becomes the old list with the
entry (tag, v) appended and the bit becomes set. If the tag is present, the
mask is unchanged and the list is the old list with the entry of that tag
replaced, in place, by (tag, v). In both cases the bit and the entry of every
other tag are as before. -/
theorem setIntAttr_contract (K : AttrKinds) (s : ItemAttributes) (hwf : s.WF) (k v : Nat)
    (hint : K.isIntAttrType (2 ^ k) = true) (hv : v < 2 ^ 64) :
    (s.hasAttribute (2 ^ k) = false →
      (s.setIntAttr K (2 ^ k) v).attributes = s.attributes ++ [⟨2 ^ k, AttrValue.integer v⟩] ∧
      (s.setIntAttr K (2 ^ k) v).hasAttribute (2 ^ k) = true) ∧
    (s.hasAttribute (2 ^ k) = true →
      ∃ pre a post, s.attributes = pre ++ a :: post ∧ a.type = 2 ^ k ∧
        (s.setIntAttr K (2 ^ k) v).attributes = pre ++ ⟨2 ^ k, AttrValue.integer v⟩ :: post ∧
        (s.setIntAttr K (2 ^ k) v).attributeBits = s.attributeBits) ∧
    (∀ j, j ≠ k →
      (s.setIntAttr K (2 ^ k) v).hasAttribute (2 ^ j) = s.hasAttribute (2 ^ j) ∧
      (s.setIntAttr K (2 ^ k) v).getExistingAttr (2 ^ j) = s.getExistingAttr (2 ^ j)) := by
  rw [setIntAttr_eq_writeThrough K s _ v hint, Nat.mod_eq_of_lt hv]
  refine ⟨?_, ?_, ?_⟩
  · intro h
    rw [writeThrough_absent s _ _ h]
    refine ⟨rfl, ?_⟩
    rw [hasAttribute_two_pow]
    simp [Nat.testBit_or, Nat.testBit_two_pow]
  · intro h
    obtain ⟨pre, a, post, hl, ha, heq⟩ := writeThrough_present s hwf k _ h
    exact ⟨pre, a, post, hl, ha, by rw [heq], by rw [heq]⟩
  · intro j hj
    exact (writeThrough_frame s hwf k _ j hj).symm

/-- C5: removeAttribute with a tag (bit k) on a well-formed store. If the tag
is absent the store is unchanged. If it is present, afterwards hasAttribute of
the tag is false, the list is one entry shorter, and it is the old list with
the entry of the tag overwritten by the former last entry and the tail popped
(or just the tail popped when the entry of the tag was the last one). For
every other tag, hasAttribute and the stored entry are as before. -/
theorem removeAttribute_contract (s : ItemAttributes) (hwf : s.WF) (k : Nat) :
    (s.hasAttribute (2 ^ k) = false → s.removeAttribute (2 ^ k) = s) ∧
    (s.hasAttribute (2 ^ k) = true →
      (s.removeAttribute (2 ^ k)).hasAttribute (2 ^ k) = false ∧
      (s.removeAttribute (2 ^ k)).attributes.length + 1 = s.attributes.length ∧
      ((∃ pre a, s.attributes = pre ++ [a] ∧ a.type = 2 ^ k ∧
          (s.removeAttribute (2 ^ k)).attributes = pre) ∨
       (∃ pre a post back, s.attributes = pre ++ a :: post ++ [back] ∧ a.type = 2 ^ k ∧
          (s.removeAttribute (2 ^ k)).attributes = pre ++ back :: post))) ∧
    (∀ j, j ≠ k →
      (s.removeAttribute (2 ^ k)).hasAttribute (2 ^ j) = s.hasAttribute (2 ^ j) ∧
      (s.removeAttribute (2 ^ k)).getExistingAttr (2 ^ j) = s.getExistingAttr (2 ^ j)) := by
  refine ⟨removeAttribute_absent s _, ?_, ?_⟩
  · intro h
    refine ⟨?_, ?_, ?_⟩
    · obtain ⟨a, ha, hperm, hb⟩ := removeAttribute_perm s hwf k h
      rw [hasAttribute_two_pow, hb, testBit_bitAndNot, Nat.testBit_two_pow]
      simp
    · obtain ⟨a, ha, hperm, hb⟩ := removeAttribute_perm s hwf k h
      have := List.Perm.length_eq hperm
      rw [this]; simp
    · rcases removeAttribute_present s hwf k h with
        ⟨pre, a, hl, ha, heq⟩ | ⟨pre, a, post, back, hl, ha, heq⟩
      · exact Or.inl ⟨pre, a, hl, ha, by rw [heq]⟩
      · exact Or.inr ⟨pre, a, post, back, hl, ha, by rw [heq]⟩
  · intro j hj
    have hne : (2 : Nat) ^ j ≠ 2 ^ k := fun h => hj (two_pow_inj h)
    cases h : s.hasAttribute (2 ^ k) with
    | false => rw [removeAttribute_absent s _ h]; exact ⟨rfl, rfl⟩
    | true =>
      obtain ⟨a, ha, hperm, hb⟩ := removeAttribute_perm s hwf k h
      have hwf2 := (WF_of_perm_cons hwf k ha hperm hb).1
      have := getExistingAttr_congr hwf hwf2 j (by
        intro x hx
        rw [List.Perm.mem_iff hperm, List.mem_cons]
        constructor
        · exact fun h1 => Or.inr h1
        · rintro (rfl | h1)
          · exact absurd (hx.symm.trans ha) hne
          · exact h1)
      exact ⟨this.2, this.1⟩

/-- C6: increaseIntAttr with an integer-typed tag (bit k) and a signed 64-bit
delta d on a well-formed store. Afterwards the tag is present and its entry
holds the previous stored value plus d, reduced modulo 2 ^ 64 (two's-complement
wrap-around); the previous stored value is 0 when the tag was absent. The bit
and the entry of every other tag are as before. -/
theorem increaseIntAttr_contract (K : AttrKinds) (s : ItemAttributes) (hwf : s.WF) (k : Nat)
    (d : Int) (hint : K.isIntAttrType (2 ^ k) = true) :
    (s.increaseIntAttr K (2 ^ k) d).hasAttribute (2 ^ k) = true ∧
    (s.increaseIntAttr K (2 ^ k) d).getExistingAttr (2 ^ k)
      = some ⟨2 ^ k, AttrValue.integer (Int.toNat (((s.storedInt (2 ^ k) : Int) + d) % 2 ^ 64))⟩ ∧
    (s.hasAttribute (2 ^ k) = false → s.storedInt (2 ^ k) = 0) ∧
    (∀ j, j ≠ k →
      (s.increaseIntAttr K (2 ^ k) d).hasAttribute (2 ^ j) = s.hasAttribute (2 ^ j) ∧
      (s.increaseIntAttr K (2 ^ k) d).getExistingAttr (2 ^ j) = s.getExistingAttr (2 ^ j)) := by
  rw [increaseIntAttr_eq_writeThrough K s _ d hint]
  have hget := writeThrough_get s hwf k
    (fun old => AttrValue.integer (Int.toNat (((old.asInteger : Int) + d) % 2 ^ 64)))
  have hwf2 := WF_writeThrough s hwf k
    (fun old => AttrValue.integer (Int.toNat (((old.asInteger : Int) + d) % 2 ^ 64)))
  refine ⟨?_, ?_, ?_, ?_⟩
  · rw [hasAttribute_two_pow]
    cases hb : (s.writeThrough (2 ^ k) _).attributeBits.testBit k with
    | true => rfl
    | false =>
      rw [getExistingAttr_eq_none (Or.inl (by rw [hasAttribute_two_pow]; exact hb))] at hget
      exact Option.noConfusion hget
  · rw [hget]
    unfold ItemAttributes.storedInt
    cases s.getExistingAttr (2 ^ k) <;> rfl
  · intro h
    unfold ItemAttributes.storedInt
    rw [getExistingAttr_eq_none (Or.inl h)]
  · intro j hj
    exact (writeThrough_frame s hwf k _ j hj).symm

/-! ### Value kinds -/

theorem writeThrough_cases (s : ItemAttributes) (type : Nat) (f : AttrValue → AttrValue) :
    (∃ pre a post, s.attributes = pre ++ a :: post ∧ a.type = type ∧
        s.writeThrough type f = { s with attributes := pre ++ ⟨type, f a.value⟩ :: post }) ∨
    s.writeThrough type f
      = { s with attributeBits := s.attributeBits ||| type,
                 attributes := s.attributes ++ [⟨type, f (AttrValue.integer 0)⟩] } := by
  cases h : s.hasAttribute type with
  | false => exact Or.inr (writeThrough_absent s type f h)
  | true =>
    cases hf : findAttr type s.attributes with
    | none =>
      right
      have hw := writeAt_append_length s.attributes (Attribute.new type) [] f
      simp only [ItemAttributes.writeThrough, ItemAttributes.getAttr, h, hf]
      simpa [Attribute.new] using hw
    | some i =>
      left
      obtain ⟨pre, a, post, hl, ha, hlen, -⟩ := findAttr_some hf
      refine ⟨pre, a, post, hl, ha, ?_⟩
      have hw := writeAt_append_length pre a post f
      simp only [ItemAttributes.writeThrough, ItemAttributes.getAttr, h, hf, if_true]
      rw [← hlen, hl, hw, ha]

theorem KindOK_writeThrough (K : AttrKinds) (s : ItemAttributes) (hk : s.KindOK K) (type : Nat)
    (f : AttrValue → AttrValue)
    (hf : type ≠ 0 → ∀ x, (K.isIntAttrType type = true → ∃ v, f x = AttrValue.integer v) ∧
               (K.isStrAttrType type = true → ∃ str, f x = AttrValue.string str)) :
    (s.writeThrough type f).KindOK K := by
  rcases writeThrough_cases s type f with ⟨pre, a, post, hl, -, heq⟩ | heq
  · rw [heq]
    intro b hb
    simp only [List.mem_append, List.mem_cons] at hb
    rcases hb with hb | rfl | hb
    · exact hk b (by rw [hl]; simp [hb])
    · exact fun h0 => hf h0 a.value
    · exact hk b (by rw [hl]; simp [hb])
  · rw [heq]
    intro b hb
    simp only [List.mem_append, List.mem_singleton] at hb
    rcases hb with hb | rfl
    · exact hk b hb
    · exact fun h0 => hf h0 _

theorem removeAttribute_subset (s : ItemAttributes) (type : Nat) :
    ∀ a ∈ (s.removeAttribute type).attributes, a ∈ s.attributes := by
  intro a ha
  unfold ItemAttributes.removeAttribute at ha
  cases h : s.hasAttribute type with
  | false => simpa [h] using ha
  | true =>
    simp only [h, Bool.not_true, Bool.false_eq_true, if_false] at ha
    cases hrev : s.attributes.reverse with
    | nil => simpa [hrev] using ha
    | cons back rev =>
      have hl : s.attributes = rev.reverse ++ [back] := by
        have := congrArg List.reverse hrev
        simpa using this
      simp only [hrev] at ha
      by_cases hb : back.type = type
      · simp only [hb, if_true] at ha
        rw [hl]; exact List.mem_append_left _ ha
      · simp only [hb, if_false] at ha
        cases hrep : replaceFirst type back rev with
        | none => simpa [hrep] using ha
        | some rev2 =>
          obtain ⟨r1, x, r2, hr, -, hr2, -⟩ := replaceFirst_some hrep
          simp only [hrep, hr2, List.mem_reverse, List.mem_append, List.mem_cons] at ha
          rw [hl, hr]
          simp only [List.mem_append, List.mem_reverse, List.mem_cons, List.mem_singleton]
          rcases ha with h1 | rfl | h1
          · exact Or.inl (Or.inl h1)
          · exact Or.inr (Or.inl rfl)
          · exact Or.inl (Or.inr (Or.inr h1))

theorem KindOK_run (K : AttrKinds)
    (hdisj : ∀ t, t ≠ 0 → ¬(K.isIntAttrType t = true ∧ K.isStrAttrType t = true))
    (s : ItemAttributes) (hk : s.KindOK K) (op : StoreOp) : (op.run K s).KindOK K := by
  cases op with
  | setIntAttr t v =>
    cases h : K.isIntAttrType t with
    | false => simpa [StoreOp.run, ItemAttributes.setIntAttr, h] using hk
    | true =>
      simp only [StoreOp.run]
      rw [setIntAttr_eq_writeThrough K s _ v h]
      exact KindOK_writeThrough K s hk t _
        (fun h0 _ => ⟨fun _ => ⟨_, rfl⟩, fun hs => absurd ⟨h, hs⟩ (hdisj t h0)⟩)
  | setStrAttr t v =>
    cases h : K.isStrAttrType t with
    | false => simpa [StoreOp.run, ItemAttributes.setStrAttr, h] using hk
    | true =>
      by_cases hv : v = []
      · simpa [StoreOp.run, ItemAttributes.setStrAttr, h, hv] using hk
      · simp only [StoreOp.run]
        rw [setStrAttr_eq_writeThrough K s _ v h hv]
        exact KindOK_writeThrough K s hk t _
          (fun h0 _ => ⟨fun hi => absurd ⟨hi, h⟩ (hdisj t h0), fun _ => ⟨_, rfl⟩⟩)
  | increaseIntAttr t v =>
    cases h : K.isIntAttrType t with
    | false => simpa [StoreOp.run, ItemAttributes.increaseIntAttr, h] using hk
    | true =>
      simp only [StoreOp.run]
      rw [increaseIntAttr_eq_writeThrough K s _ v h]
      exact KindOK_writeThrough K s hk t _
        (fun h0 _ => ⟨fun _ => ⟨_, rfl⟩, fun hs => absurd ⟨h, hs⟩ (hdisj t h0)⟩)
  | removeAttribute t =>
    intro a ha
    exact hk a (removeAttribute_subset s t a ha)

theorem KindOK_runOps (K : AttrKinds)
    (hdisj : ∀ t, t ≠ 0 → ¬(K.isIntAttrType t = true ∧ K.isStrAttrType t = true))
    (ops : List StoreOp) (s : ItemAttributes) (hk : s.KindOK K) : (runOps K s ops).KindOK K := by
  induction ops generalizing s with
  | nil => exact hk
  | cons op rest ih =>
    simp only [runOps, List.foldl_cons]
    exact ih _ (KindOK_run K hdisj s hk op)

theorem hasAttribute_zero (s : ItemAttributes) : s.hasAttribute 0 = false := by
  simp [ItemAttributes.hasAttribute]

theorem getExistingAttr_mem {s : ItemAttributes} {type : Nat} {a : Attribute}
    (h : s.getExistingAttr type = some a) : a ∈ s.attributes ∧ a.type = type := by
  unfold ItemAttributes.getExistingAttr at h
  cases hb : s.hasAttribute type with
  | false => simp [hb] at h
  | true =>
    simp only [hb, if_true] at h
    exact ⟨List.mem_of_find?_eq_some h, by simpa using List.find?_some h⟩

/-- C4: attribute reads default safely. On every store, getIntAttr returns 0
when the tag is absent (bit clear or no entry) or not integer-typed, and
getStrAttr returns the empty string when the tag is absent or not string-typed.
On every store built from the empty one by store calls, when no non-zero tag is
both integer-typed and string-typed, the entry that either getter reads holds a
value of the kind of its tag, so no entry is read at the wrong kind. -/
theorem attribute_reads_default (K : AttrKinds) (s : ItemAttributes) (type : Nat) :
    ((s.hasAttribute type = false ∨ (∀ a ∈ s.attributes, a.type ≠ type) ∨
        K.isIntAttrType type = false) → s.getIntAttr K type = 0) ∧
    ((s.hasAttribute type = false ∨ (∀ a ∈ s.attributes, a.type ≠ type) ∨
        K.isStrAttrType type = false) → s.getStrAttr K type = []) ∧
    ((∀ t, t ≠ 0 → ¬(K.isIntAttrType t = true ∧ K.isStrAttrType t = true)) →
      ∀ ops, s = runOps K {} ops → ∀ a, s.getExistingAttr type = some a →
        (K.isIntAttrType type = true → ∃ v, a.value = AttrValue.integer v) ∧
        (K.isStrAttrType type = true → ∃ str, a.value = AttrValue.string str)) := by
  refine ⟨?_, ?_, ?_⟩
  · rintro (h | h | h)
    · simp [ItemAttributes.getIntAttr, getExistingAttr_eq_none (Or.inl h)]
    · simp [ItemAttributes.getIntAttr, getExistingAttr_eq_none (Or.inr h)]
    · simp [ItemAttributes.getIntAttr, h]
  · rintro (h | h | h)
    · simp [ItemAttributes.getStrAttr, getExistingAttr_eq_none (Or.inl h)]
    · simp [ItemAttributes.getStrAttr, getExistingAttr_eq_none (Or.inr h)]
    · simp [ItemAttributes.getStrAttr, h]
  · intro hdisj ops hs a ha
    have hk : s.KindOK K := by
      rw [hs]
      exact KindOK_runOps K hdisj ops {} (by intro a ha; simp at ha)
    obtain ⟨hmem, hta⟩ := getExistingAttr_mem ha
    have h0 : type ≠ 0 := by
      rintro rfl
      rw [getExistingAttr_eq_none (Or.inl (hasAttribute_zero s))] at ha
      exact Option.noConfusion ha
    rw [← hta] at h0 ⊢
    exact hk a hmem h0

/-! ### Concrete instances of the store contract -/

theorem sampleOps_tags : ∀ op ∈ sampleOps, IsTag op.type := by
  intro op hop
  simp only [sampleOps, List.mem_cons, List.mem_singleton, List.not_mem_nil, or_false] at hop
  rcases hop with rfl | rfl | rfl | rfl | rfl
  · exact ⟨0, rfl⟩
  · exact ⟨1, rfl⟩
  · exact ⟨4, rfl⟩
  · exact ⟨2, rfl⟩
  · exact ⟨0, rfl⟩

theorem sampleKinds_disjoint :
    ∀ t, t ≠ 0 → ¬(sampleKinds.isIntAttrType t = true ∧ sampleKinds.isStrAttrType t = true) := by
  intro t _
  simp only [sampleKinds, Bool.or_eq_true, beq_iff_eq]
  omega

theorem sampleStore_WF : sampleStore.WF :=
  WF_runOps sampleKinds sampleOps {} WF_empty sampleOps_tags

theorem store_bitmask_consistent_witness :
    (∀ op ∈ sampleOps, IsTag op.type) ∧
    ((runOps sampleKinds {} sampleOps).hasAttribute (2 ^ 4) = true ↔
      ∃ a ∈ (runOps sampleKinds {} sampleOps).attributes, a.type = 2 ^ 4) ∧
    ((runOps sampleKinds {} sampleOps).attributes.map (fun a => a.type)).Nodup :=
  ⟨sampleOps_tags,
   (store_bitmask_consistent sampleKinds sampleOps sampleOps_tags).1 (2 ^ 4) ⟨4, rfl⟩,
   (store_bitmask_consistent sampleKinds sampleOps sampleOps_tags).2⟩

theorem setIntAttr_contract_witness :
    (sampleStore.setIntAttr sampleKinds (2 ^ 3) 7).attributes
        = sampleStore.attributes ++ [⟨2 ^ 3, AttrValue.integer 7⟩] ∧
    (sampleStore.setIntAttr sampleKinds (2 ^ 3) 7).hasAttribute (2 ^ 3) = true ∧
    (sampleStore.setIntAttr sampleKinds (2 ^ 3) 7).getExistingAttr (2 ^ 1)
        = sampleStore.getExistingAttr (2 ^ 1) :=
  ⟨((setIntAttr_contract sampleKinds sampleStore sampleStore_WF 3 7 (by decide)
      (by decide)).1 (by decide)).1,
   ((setIntAttr_contract sampleKinds sampleStore sampleStore_WF 3 7 (by decide)
      (by decide)).1 (by decide)).2,
   ((setIntAttr_contract sampleKinds sampleStore sampleStore_WF 3 7 (by decide)
      (by decide)).2.2 1 (by decide)).2⟩

theorem attribute_reads_default_witness :
    sampleStore.getIntAttr sampleKinds 16 = 0 ∧
    sampleStore.getStrAttr sampleKinds 1 = [] ∧
    (∀ a, sampleStore.getExistingAttr 16 = some a →
      (sampleKinds.isIntAttrType 16 = true → ∃ v, a.value = AttrValue.integer v) ∧
      (sampleKinds.isStrAttrType 16 = true → ∃ str, a.value = AttrValue.string str)) :=
  ⟨(attribute_reads_default sampleKinds sampleStore 16).1 (Or.inr (Or.inr (by decide))),
   (attribute_reads_default sampleKinds sampleStore 1).2.1 (Or.inl (by decide)),
   (attribute_reads_default sampleKinds sampleStore 16).2.2 sampleKinds_disjoint sampleOps rfl⟩

theorem removeAttribute_contract_witness :
    sampleStore.hasAttribute (2 ^ 1) = true ∧
    (sampleStore.removeAttribute (2 ^ 1)).hasAttribute (2 ^ 1) = false ∧
    (sampleStore.removeAttribute (2 ^ 1)).attributes.length + 1 = sampleStore.attributes.length ∧
    (sampleStore.removeAttribute (2 ^ 1)).getExistingAttr (2 ^ 4)
        = sampleStore.getExistingAttr (2 ^ 4) :=
  ⟨by decide,
   ((removeAttribute_contract sampleStore sampleStore_WF 1).2.1 (by decide)).1,
   ((removeAttribute_contract sampleStore sampleStore_WF 1).2.1 (by decide)).2.1,
   ((removeAttribute_contract sampleStore sampleStore_WF 1).2.2 4 (by decide)).2⟩

theorem increaseIntAttr_contract_witness :
    sampleKinds.isIntAttrType (2 ^ 2) = true ∧
    (sampleStore.increaseIntAttr sampleKinds (2 ^ 2) 3).getExistingAttr (2 ^ 2)
        = some ⟨2 ^ 2, AttrValue.integer
            (Int.toNat (((sampleStore.storedInt (2 ^ 2) : Int) + 3) % 2 ^ 64))⟩ :=
  ⟨by decide,
   (increaseIntAttr_contract sampleKinds sampleStore sampleStore_WF 2 3 (by decide)).2.1⟩

/-! ### Streams -/

theorem length_leBytes (width v : Nat) : (leBytes width v).length = width := by
  induction width generalizing v with
  | zero => rfl
  | succ w ih => simp [leBytes, ih]

theorem leValue_leBytes (width v : Nat) : leValue (leBytes width v) = v % 256 ^ width := by
  induction width generalizing v with
  | zero => simp [leBytes, leValue, Nat.mod_one]
  | succ w ih =>
    simp only [leBytes, leValue, ih, Nat.mod_mod]
    rw [pow_succ, mul_comm (256 ^ w) 256, Nat.mod_mul]

theorem read_append (p rest : List Nat) :
    PropStream.read p.length (p ++ rest) = some (leValue p, rest) := by
  simp [PropStream.read]

theorem read_of_length {width : Nat} {p : List Nat} (h : p.length = width) (rest : List Nat) :
    PropStream.read width (p ++ rest) = some (leValue p, rest) := by
  subst h; exact read_append p rest

theorem read_none {width : Nat} {p : List Nat} (h : p.length < width) :
    PropStream.read width p = none := by
  simp [PropStream.read, h]

theorem read_cons (b : Nat) (rest : List Nat) (hb : b < 256) :
    PropStream.read 1 (b :: rest) = some (b, rest) := by
  have := read_append [b] rest
  simpa [leValue, Nat.mod_eq_of_lt hb] using this

theorem read_length {width : Nat} {p rest : List Nat} {v : Nat}
    (h : PropStream.read width p = some (v, rest)) : rest.length + width = p.length := by
  unfold PropStream.read at h
  by_cases hl : p.length < width
  · simp [hl] at h
  · simp only [hl, if_false, Option.some.injEq, Prod.mk.injEq] at h
    rw [← h.2, List.length_drop]; omega

theorem skip_append (p rest : List Nat) : PropStream.skip p.length (p ++ rest) = some rest := by
  simp [PropStream.skip]

theorem skip_length {n : Nat} {p rest : List Nat} (h : PropStream.skip n p = some rest) :
    rest.length + n = p.length := by
  unfold PropStream.skip at h
  by_cases hl : p.length < n
  · simp [hl] at h
  · simp only [hl, if_false, Option.some.injEq] at h
    rw [← h, List.length_drop]; omega

theorem readString_writeString (n : Nat) (str rest : List Nat) (h : str.length < 256 ^ n) :
    PropStream.readString n (PropWriteStream.writeString n str ++ rest) = some (str, rest) := by
  unfold PropStream.readString PropWriteStream.writeString
  rw [List.append_assoc, read_of_length (length_leBytes n str.length), leValue_leBytes,
    Nat.mod_eq_of_lt h]
  simp

theorem readString_length {n : Nat} {p rest str : List Nat}
    (h : PropStream.readString n p = some (str, rest)) : rest.length + n ≤ p.length := by
  unfold PropStream.readString at h
  cases hr : PropStream.read n p with
  | none => simp [hr] at h
  | some r =>
    obtain ⟨len, p1⟩ := r
    have h1 := read_length hr
    simp only [hr] at h
    by_cases hl : p1.length < len
    · simp [hl] at h
    · simp only [hl, if_false, Option.some.injEq, Prod.mk.injEq] at h
      rw [← h.2, List.length_drop]; omega

/-! ### The decoder: tags, stream lengths and fuel -/

theorem mem_allAttrTypes (a : AttrTypes_t) : a ∈ allAttrTypes := by
  cases a <;> simp [allAttrTypes]

theorem attrOf_eq_none {H : Header} {b : Nat} :
    H.attrOf b = none ↔ ∀ a, H.attrByte a ≠ b := by
  unfold Header.attrOf
  rw [List.find?_eq_none]
  constructor
  · intro h a; simpa using h a (mem_allAttrTypes a)
  · intro h a _; simpa using h a

theorem attrOf_some {H : Header} {b : Nat} {a : AttrTypes_t} (h : H.attrOf b = some a) :
    H.attrByte a = b := by
  unfold Header.attrOf at h
  simpa using List.find?_some h

theorem unserialize_length {H : Header} {p rest : List Nat} {val : CustomAttribute}
    (h : CustomAttribute.unserialize H p = some (val, rest)) : rest.length ≤ p.length := by
  unfold CustomAttribute.unserialize at h
  cases hr : PropStream.read 1 p with
  | none => simp [hr] at h
  | some r =>
    obtain ⟨t, p1⟩ := r
    have h1 := read_length hr
    simp only [hr] at h
    cases hk : H.customOf t with
    | none => simp [hk] at h
    | some k =>
      cases k <;> simp only [hk, Option.map_eq_some', Prod.mk.injEq] at h
      · obtain ⟨⟨str, r2⟩, h2, -, hrest⟩ := h
        have := readString_length h2
        rw [← hrest]; dsimp only; omega
      · obtain ⟨⟨v, r2⟩, h2, -, hrest⟩ := h
        have := read_length h2
        rw [← hrest]; dsimp only; omega
      · obtain ⟨⟨v, r2⟩, h2, -, hrest⟩ := h
        have := read_length h2
        rw [← hrest]; dsimp only; omega
      · obtain ⟨⟨v, r2⟩, h2, -, hrest⟩ := h
        have := read_length h2
        rw [← hrest]; dsimp only; omega

theorem readFixed_length (width : Nat) (p : List Nat) (item : Item) (f : Nat → Item) :
    (readFixed width p item f).2.1.length ≤ p.length := by
  unfold readFixed
  cases hr : PropStream.read width p with
  | none => simp
  | some r => obtain ⟨v, rest⟩ := r; have := read_length hr; simp; omega

theorem readText_length (H : Header) (p : List Nat) (item : Item) (f : List Nat → Item) :
    (readText H p item f).2.1.length ≤ p.length := by
  unfold readText
  cases hr : PropStream.readString H.strLenBytes p with
  | none => simp
  | some r => obtain ⟨v, rest⟩ := r; have := readString_length hr; simp; omega

theorem readCustomAttributes_length (H : Header) (size : Nat) (p : List Nat) (item : Item) :
    (readCustomAttributes H size p item).2.1.length ≤ p.length := by
  induction size generalizing p item with
  | zero => simp [readCustomAttributes]
  | succ n ih =>
    unfold readCustomAttributes
    cases hr : PropStream.readString H.strLenBytes p with
    | none => simp
    | some r =>
      obtain ⟨key, p1⟩ := r
      have h1 := readString_length hr
      dsimp only
      cases hu : CustomAttribute.unserialize H p1 with
      | none => dsimp only; omega
      | some r2 =>
        obtain ⟨val, p2⟩ := r2
        have h2 := unserialize_length hu
        have h3 := ih p2 (item.setCustomAttribute H key val)
        dsimp only
        omega

theorem run_length (H : Header) (c : ReadCase) (p : List Nat) (item : Item) :
    (c.run H p item).2.1.length ≤ p.length := by
  cases c <;> simp only [ReadCase.run]
  case skip n =>
    cases hs : PropStream.skip n p with
    | none => simp
    | some rest => have := skip_length hs; simp; omega
  case fail => simp
  case customAttributes =>
    cases hr : PropStream.read 8 p with
    | none => simp
    | some r =>
      obtain ⟨size, p1⟩ := r
      have h1 := read_length hr
      have h2 := readCustomAttributes_length H size p1 item
      dsimp only
      omega
  all_goals first | exact readFixed_length _ _ _ _ | exact readText_length _ _ _ _

theorem readAttr_length (H : Header) (attr : Nat) (p : List Nat) (item : Item) :
    (Item.readAttr H attr p item).2.1.length ≤ p.length := by
  unfold Item.readAttr
  cases H.attrOf attr with
  | none => simp
  | some a => exact run_length H _ p item

theorem unserializeAttrLoop_fuel (H : Header) (n m : Nat) (p : List Nat) (item : Item)
    (hn : p.length < n) (hm : p.length < m) :
    Item.unserializeAttrLoop H n p item = Item.unserializeAttrLoop H m p item := by
  induction n generalizing m p item with
  | zero => omega
  | succ n ih =>
    cases m with
    | zero => omega
    | succ m =>
      unfold Item.unserializeAttrLoop
      cases hr : PropStream.read 1 p with
      | none => rfl
      | some r =>
        obtain ⟨t, p1⟩ := r
        have h1 := read_length hr
        by_cases ht : t = 0
        · simp [ht]
        · simp only [ht, if_false]
          have h2 := readAttr_length H t p1 item
          rcases hres : Item.readAttr H t p1 item with ⟨res, p2, item2⟩
          rw [hres] at h2
          cases res
          · exact ih m p2 item2 (by simp at h2; omega) (by simp at h2; omega)
          · rfl
          · rfl

theorem unserializeAttr_eq_loop (H : Header) (n : Nat) (p : List Nat) (item : Item)
    (hn : p.length < n) :
    Item.unserializeAttr H p item = Item.unserializeAttrLoop H n p item :=
  unserializeAttrLoop_fuel H _ n p item (Nat.lt_succ_self _) hn

theorem unserializeAttr_cons (H : Header) (b : Nat) (p : List Nat) (item : Item)
    (hb : b < 256) (hb0 : b ≠ 0) :
    Item.unserializeAttr H (b :: p) item =
      match Item.readAttr H b p item with
      | (.ATTR_READ_ERROR, p2, item2) => some (false, p2, item2)
      | (.ATTR_READ_END, p2, item2) => some (true, p2, item2)
      | (.ATTR_READ_CONTINUE, p2, item2) => Item.unserializeAttr H p2 item2 := by
  have h2 := readAttr_length H b p item
  unfold Item.unserializeAttr
  rw [List.length_cons]
  conv => lhs; unfold Item.unserializeAttrLoop
  rw [read_cons b p hb]
  simp only [hb0, if_false]
  rcases hres : Item.readAttr H b p item with ⟨res, p2, item2⟩
  rw [hres] at h2
  cases res
  · exact unserializeAttrLoop_fuel H _ _ p2 item2 (by simp at h2; omega) (Nat.lt_succ_self _)
  · rfl
  · rfl

theorem unserializeAttr_zero (H : Header) (p : List Nat) (item : Item) :
    Item.unserializeAttr H (0 :: p) item = some (true, p, item) := by
  unfold Item.unserializeAttr
  rw [List.length_cons]
  unfold Item.unserializeAttrLoop
  rw [read_cons 0 p (by decide)]
  simp

theorem unserializeAttrLoop_isSome (H : Header) (n : Nat) (p : List Nat) (item : Item)
    (hn : p.length < n) : (Item.unserializeAttrLoop H n p item).isSome = true := by
  induction n generalizing p item with
  | zero => omega
  | succ n ih =>
    unfold Item.unserializeAttrLoop
    cases hr : PropStream.read 1 p with
    | none => rfl
    | some r =>
      obtain ⟨t, p1⟩ := r
      have h1 := read_length hr
      by_cases ht : t = 0
      · simp [ht]
      · simp only [ht, if_false]
        have h2 := readAttr_length H t p1 item
        rcases hres : Item.readAttr H t p1 item with ⟨res, p2, item2⟩
        rw [hres] at h2
        cases res
        · exact ih p2 item2 (by simp at h2; omega)
        · rfl
        · rfl

theorem unserializeAttr_isSome (H : Header) (p : List Nat) (item : Item) :
    (Item.unserializeAttr H p item).isSome = true :=
  unserializeAttrLoop_isSome H _ p item (Nat.lt_succ_self _)

/-! ### The decoder: rejected streams and skipped records -/

/-- C7: when the next tag byte is non-zero and is the value of none of the
case labels of readAttr, readAttr returns ATTR_READ_ERROR (leaving stream and
item as they were) and unserializeAttr returns false. -/
theorem unknown_tag_rejected (H : Header) (b : Nat) (rest : List Nat) (item : Item)
    (hb : b < 256) (hb0 : b ≠ 0) (hunk : ∀ a, H.attrByte a ≠ b) :
    Item.readAttr H b rest item = (.ATTR_READ_ERROR, rest, item) ∧
    Item.unserializeAttr H (b :: rest) item = some (false, rest, item) := by
  have hr : Item.readAttr H b rest item = (.ATTR_READ_ERROR, rest, item) := by
    simp [Item.readAttr, attrOf_eq_none.mpr hunk]
  refine ⟨hr, ?_⟩
  rw [unserializeAttr_cons H b rest item hb hb0, hr]

theorem sampleHeader_unknown_200 : ∀ a, sampleHeader.attrByte a ≠ 200 := by
  intro a; cases a <;> decide

theorem unknown_tag_rejected_witness :
    Item.readAttr sampleHeader 200 [1, 2] { id := 1 } = (.ATTR_READ_ERROR, [1, 2], { id := 1 }) ∧
    Item.unserializeAttr sampleHeader (200 :: [1, 2]) { id := 1 }
      = some (false, [1, 2], { id := 1 }) :=
  unknown_tag_rejected sampleHeader 200 [1, 2] { id := 1 } (by decide) (by decide)
    sampleHeader_unknown_200

theorem run_truncated (H : Header) (c : ReadCase) (w : Nat) (payload : List Nat) (item : Item)
    (hw : c.fixedWidth = some w) (hlen : payload.length < w) :
    c.run H payload item = (.ATTR_READ_ERROR, payload, item) := by
  cases c <;> simp only [ReadCase.fixedWidth, Option.some.injEq, reduceCtorEq] at hw <;>
    subst hw <;>
    simp [ReadCase.run, readFixed, read_none hlen, PropStream.skip, hlen]

/-- C8: for every record tag whose case of readAttr reads or skips a fixed
number of bytes, when the stream holds fewer bytes after the tag than that
width, unserializeAttr returns false (with the item as it was). -/
theorem truncated_payload_rejected (H : Header) (b : Nat) (a : AttrTypes_t) (w : Nat)
    (payload : List Nat) (item : Item) (hb : b < 256) (hb0 : b ≠ 0)
    (ha : H.attrOf b = some a) (hw : (readCase a).fixedWidth = some w)
    (hlen : payload.length < w) :
    Item.unserializeAttr H (b :: payload) item = some (false, payload, item) := by
  have hr : Item.readAttr H b payload item = (.ATTR_READ_ERROR, payload, item) := by
    simp only [Item.readAttr, ha]
    exact run_truncated H _ w payload item hw hlen
  rw [unserializeAttr_cons H b payload item hb hb0, hr]

theorem truncated_payload_rejected_witness :
    sampleHeader.attrOf 17 = some .ATTR_DEFENSE ∧
    (readCase .ATTR_DEFENSE).fixedWidth = some 8 ∧
    Item.unserializeAttr sampleHeader (17 :: [1, 2, 3]) { id := 1 }
      = some (false, [1, 2, 3], { id := 1 }) :=
  ⟨by decide, by decide,
   truncated_payload_rejected sampleHeader 17 .ATTR_DEFENSE 8 [1, 2, 3] { id := 1 }
     (by decide) (by decide) (by decide) (by decide) (by decide)⟩

/-- C10: for the depot-id (2 bytes), house-door-id (1 byte), sleeper-guid
(4 bytes), sleep-start (4 bytes) and teleport-destination (5 bytes) tags,
readAttr consumes exactly that many payload bytes, leaves the item as it was
and returns ATTR_READ_CONTINUE; so unserializeAttr on such a record followed by
a stream s gives the result (flag, cursor and item) that it gives on s alone,
and it does give a result. -/
theorem skip_only_tags_aligned (H : Header) (b : Nat) (a : AttrTypes_t) (n : Nat)
    (payload s : List Nat) (item : Item) (hb : b < 256) (hb0 : b ≠ 0)
    (ha : H.attrOf b = some a)
    (hskip : (a, n) ∈ [(AttrTypes_t.ATTR_DEPOT_ID, 2), (AttrTypes_t.ATTR_HOUSEDOORID, 1),
      (AttrTypes_t.ATTR_SLEEPERGUID, 4), (AttrTypes_t.ATTR_SLEEPSTART, 4),
      (AttrTypes_t.ATTR_TELE_DEST, 5)])
    (hlen : payload.length = n) :
    Item.readAttr H b (payload ++ s) item = (.ATTR_READ_CONTINUE, s, item) ∧
    Item.unserializeAttr H (b :: (payload ++ s)) item = Item.unserializeAttr H s item ∧
    (Item.unserializeAttr H s item).isSome = true := by
  have hc : readCase a = .skip n := by
    simp only [List.mem_cons, Prod.mk.injEq, List.mem_singleton, List.not_mem_nil,
      or_false] at hskip
    rcases hskip with ⟨rfl, rfl⟩ | ⟨rfl, rfl⟩ | ⟨rfl, rfl⟩ | ⟨rfl, rfl⟩ | ⟨rfl, rfl⟩ <;> rfl
  have hr : Item.readAttr H b (payload ++ s) item = (.ATTR_READ_CONTINUE, s, item) := by
    simp only [Item.readAttr, ha, hc, ReadCase.run]
    rw [← hlen, skip_append]
  refine ⟨hr, ?_, unserializeAttr_isSome H s item⟩
  rw [unserializeAttr_cons H b _ item hb hb0, hr]

theorem skip_only_tags_aligned_witness :
    sampleHeader.attrOf 66 = some .ATTR_TELE_DEST ∧
    Item.readAttr sampleHeader 66 ([1, 2, 3, 4, 5] ++ [17, 7, 0, 0, 0, 0, 0, 0, 0, 0]) { id := 1 }
      = (.ATTR_READ_CONTINUE, [17, 7, 0, 0, 0, 0, 0, 0, 0, 0], { id := 1 }) ∧
    Item.unserializeAttr sampleHeader
        (66 :: ([1, 2, 3, 4, 5] ++ [17, 7, 0, 0, 0, 0, 0, 0, 0, 0])) { id := 1 }
      = Item.unserializeAttr sampleHeader [17, 7, 0, 0, 0, 0, 0, 0, 0, 0] { id := 1 } :=
  ⟨by decide,
   (skip_only_tags_aligned sampleHeader 66 .ATTR_TELE_DEST 5 [1, 2, 3, 4, 5]
     [17, 7, 0, 0, 0, 0, 0, 0, 0, 0] { id := 1 } (by decide) (by decide) (by decide)
     (by simp) rfl).1,
   (skip_only_tags_aligned sampleHeader 66 .ATTR_TELE_DEST 5 [1, 2, 3, 4, 5]
     [17, 7, 0, 0, 0, 0, 0, 0, 0, 0] { id := 1 } (by decide) (by decide) (by decide)
     (by simp) rfl).2.1⟩

/-! ### The decoder: one well-formed record, then the rest of the stream -/

theorem readFixed_append {width : Nat} (payload rest : List Nat) (item : Item) (f : Nat → Item)
    (h : payload.length = width) :
    readFixed width (payload ++ rest) item f = (.ATTR_READ_CONTINUE, rest, f (leValue payload)) := by
  simp [readFixed, read_of_length h rest]

theorem readFixed_exact {width : Nat} (payload : List Nat) (item : Item) (f : Nat → Item)
    (h : payload.length = width) :
    readFixed width payload item f = (.ATTR_READ_CONTINUE, [], f (leValue payload)) := by
  have := readFixed_append payload [] item f h
  simpa using this

theorem readText_append (H : Header) (str rest : List Nat) (item : Item) (f : List Nat → Item)
    (h : str.length < 256 ^ H.strLenBytes) :
    readText H (PropWriteStream.writeString H.strLenBytes str ++ rest) item f
      = (.ATTR_READ_CONTINUE, rest, f str) := by
  simp [readText, readString_writeString H.strLenBytes str rest h]

theorem readText_exact (H : Header) (str : List Nat) (item : Item) (f : List Nat → Item)
    (h : str.length < 256 ^ H.strLenBytes) :
    readText H (PropWriteStream.writeString H.strLenBytes str) item f
      = (.ATTR_READ_CONTINUE, [], f str) := by
  have := readText_append H str [] item f h
  simpa using this

theorem read_write (width v : Nat) (rest : List Nat) (h : v < 256 ^ width) :
    PropStream.read width (PropWriteStream.write width v ++ rest) = some (v, rest) := by
  rw [PropWriteStream.write, read_of_length (length_leBytes width v), leValue_leBytes,
    Nat.mod_eq_of_lt h]

theorem unserialize_serialize (H : Header) (val : CustomAttribute) (rest : List Nat)
    (h : val.fits H) :
    CustomAttribute.unserialize H (val.serialize H ++ rest) = some (val, rest) := by
  obtain ⟨hb, hk, hv⟩ := h
  have hread : ∀ tail : List Nat,
      PropStream.read 1 (PropWriteStream.write 1 (H.customByte val.kind) ++ tail)
        = some (H.customByte val.kind, tail) :=
    fun tail => read_write 1 _ tail (by simpa using hb)
  cases val with
  | text str =>
    simp only [CustomAttribute.kind] at hread hk
    simp only [CustomAttribute.serialize, CustomAttribute.unserialize, List.append_assoc,
      hread, hk, readString_writeString H.strLenBytes str rest hv]
    rfl
  | integer v =>
    simp only [CustomAttribute.kind] at hread hk
    have hv2 : v < 256 ^ 8 := by
      have : (256 : Nat) ^ 8 = 2 ^ 64 := by norm_num
      rw [this]; exact hv
    simp only [CustomAttribute.serialize, CustomAttribute.unserialize, List.append_assoc,
      hread, hk, read_write 8 v rest hv2]
    rfl
  | double bits =>
    simp only [CustomAttribute.kind] at hread hk
    have hv2 : bits < 256 ^ 8 := by
      have : (256 : Nat) ^ 8 = 2 ^ 64 := by norm_num
      rw [this]; exact hv
    simp only [CustomAttribute.serialize, CustomAttribute.unserialize, List.append_assoc,
      hread, hk, read_write 8 bits rest hv2]
    rfl
  | boolean flag =>
    simp only [CustomAttribute.kind] at hread hk
    cases flag
    · simp only [CustomAttribute.serialize, CustomAttribute.unserialize, List.append_assoc,
        hread, hk, Bool.false_eq_true, if_false, read_write 1 0 rest (by norm_num)]
      rfl
    · simp only [CustomAttribute.serialize, CustomAttribute.unserialize, List.append_assoc,
        hread, hk, if_true, read_write 1 1 rest (by norm_num)]
      rfl

theorem readCustomAttributes_append (H : Header) (entries : List (List Nat × CustomAttribute))
    (rest : List Nat) (item : Item)
    (h : ∀ e ∈ entries, e.1.length < 256 ^ H.strLenBytes ∧ e.2.fits H) :
    readCustomAttributes H entries.length (customEntriesBytes H entries ++ rest) item
      = (.ATTR_READ_CONTINUE, rest,
          entries.foldl (fun i e => i.setCustomAttribute H e.1 e.2) item) := by
  induction entries generalizing item with
  | nil => simp [readCustomAttributes, customEntriesBytes]
  | cons e tail ih =>
    obtain ⟨hkey, hval⟩ := h e (List.mem_cons_self _ _)
    have htail := ih (item.setCustomAttribute H e.1 e.2)
      (fun x hx => h x (List.mem_cons_of_mem _ hx))
    simp only [customEntriesBytes, List.map_cons, List.flatten_cons, List.length_cons,
      readCustomAttributes, List.append_assoc, List.foldl_cons] at htail ⊢
    rw [readString_writeString H.strLenBytes e.1 _ hkey]
    dsimp only
    rw [unserialize_serialize H e.2 _ hval]
    exact htail

theorem run_append (H : Header) (c : ReadCase) (payload : List Nat) (hok : c.payloadOK H payload)
    (rest : List Nat) (item : Item) :
    c.run H (payload ++ rest) item
      = (.ATTR_READ_CONTINUE, rest, (c.run H payload item).2.2) := by
  cases c
  case fail => exact absurd hok (by simp [ReadCase.payloadOK])
  case customAttributes =>
    obtain ⟨entries, hlen, hent, rfl⟩ := hok
    have hlen2 : entries.length < 256 ^ 8 := by
      have : (256 : Nat) ^ 8 = 2 ^ 64 := by norm_num
      rw [this]; exact hlen
    have h8 := read_write 8 entries.length (customEntriesBytes H entries ++ rest) hlen2
    have h8b := read_write 8 entries.length (customEntriesBytes H entries) hlen2
    have e1 := readCustomAttributes_append H entries rest item hent
    have e2 := readCustomAttributes_append H entries [] item hent
    rw [List.append_nil] at e2
    simp only [ReadCase.run, List.append_assoc, h8, h8b, e1, e2]
  case text =>
    obtain ⟨str, hlen, rfl⟩ := hok
    simp only [ReadCase.run, readText_append H str rest item _ hlen,
      readText_exact H str item _ hlen]
  case writtenBy =>
    obtain ⟨str, hlen, rfl⟩ := hok
    simp only [ReadCase.run, readText_append H str rest item _ hlen,
      readText_exact H str item _ hlen]
  case desc =>
    obtain ⟨str, hlen, rfl⟩ := hok
    simp only [ReadCase.run, readText_append H str rest item _ hlen,
      readText_exact H str item _ hlen]
  case strAttr t =>
    obtain ⟨str, hlen, rfl⟩ := hok
    simp only [ReadCase.run, readText_append H str rest item _ hlen,
      readText_exact H str item _ hlen]
  case skip n =>
    simp only [ReadCase.payloadOK, ReadCase.fixedWidth, Option.some.injEq] at hok
    subst hok
    simp [ReadCase.run, skip_append, PropStream.skip]
  all_goals
    simp only [ReadCase.payloadOK, ReadCase.fixedWidth, Option.some.injEq] at hok
    simp only [ReadCase.run, readFixed_append payload rest item _ hok.symm,
      readFixed_exact payload item _ hok.symm]

theorem readAttr_append (H : Header) (r : AttrRecord) (hwf : r.WF H) (rest : List Nat)
    (item : Item) :
    Item.readAttr H r.tag (r.payload ++ rest) item
      = (.ATTR_READ_CONTINUE, rest, item.applyRecord H r) := by
  obtain ⟨a, ha, hok⟩ := hwf.payload
  simp only [Item.applyRecord, Item.readAttr, ha]
  exact run_append H _ r.payload hok rest item

theorem unserializeAttr_records (H : Header) (records : List AttrRecord) (rest : List Nat)
    (item : Item) (hwf : ∀ r ∈ records, r.WF H) :
    Item.unserializeAttr H ((records.map AttrRecord.bytes).flatten ++ 0 :: rest) item
      = some (true, rest, records.foldl (Item.applyRecord H) item) := by
  induction records generalizing item with
  | nil => simpa using unserializeAttr_zero H rest item
  | cons r tail ih =>
    have hr := hwf r (List.mem_cons_self _ _)
    have htail := ih (item.applyRecord H r) (fun x hx => hwf x (List.mem_cons_of_mem _ hx))
    simp only [List.map_cons, List.flatten_cons, AttrRecord.bytes, List.cons_append,
      List.append_assoc, List.foldl_cons] at htail ⊢
    rw [unserializeAttr_cons H r.tag _ item hr.byte hr.nonzero, readAttr_append H r hr]
    exact htail

/-- C9: on a stream made of well-formed records r1 ... rk, a zero byte, and any
further bytes `rest`, unserializeAttr returns true, the item afterwards is the
item after reading r1, ..., rk one after another, and the cursor stands right
after the zero byte, so that `rest` is left unread. -/
theorem sentinel_terminates (H : Header) (records : List AttrRecord) (rest : List Nat)
    (item : Item) (hwf : ∀ r ∈ records, r.WF H) :
    Item.unserializeAttr H ((records.map AttrRecord.bytes).flatten ++ 0 :: rest) item
      = some (true, rest, records.foldl (Item.applyRecord H) item) := by
  induction records generalizing item with
  | nil => simpa using unserializeAttr_zero H rest item
  | cons r tail ih =>
    have hr := hwf r (List.mem_cons_self _ _)
    simp only [List.map_cons, List.flatten_cons, AttrRecord.bytes, List.cons_append,
      List.append_assoc, List.foldl_cons]
    rw [unserializeAttr_cons H r.tag _ item hr.byte hr.nonzero, readAttr_append H r hr]
    exact ih (item.applyRecord H r) (fun x hx => hwf x (List.mem_cons_of_mem _ hx))

theorem sampleRecords_WF : ∀ r ∈ sampleRecords, r.WF sampleHeader := by
  intro r hr
  simp only [sampleRecords, List.mem_cons, List.mem_singleton, List.not_mem_nil, or_false] at hr
  rcases hr with rfl | rfl | rfl
  · exact ⟨by decide, by decide, .ATTR_DEFENSE, by decide, rfl⟩
  · exact ⟨by decide, by decide, .ATTR_NAME, by decide, [104, 105], by decide, by decide⟩
  · exact ⟨by decide, by decide, .ATTR_HOUSEDOORID, by decide, rfl⟩

theorem sentinel_terminates_witness :
    (∀ r ∈ sampleRecords, r.WF sampleHeader) ∧
    Item.unserializeAttr sampleHeader
        ((sampleRecords.map AttrRecord.bytes).flatten ++ 0 :: [42, 43]) { id := 1 }
      = some (true, [42, 43], sampleRecords.foldl (Item.applyRecord sampleHeader) { id := 1 }) :=
  ⟨sampleRecords_WF, sentinel_terminates sampleHeader sampleRecords [42, 43] { id := 1 }
    sampleRecords_WF⟩

/-! ### Facts about the two tables of the codec -/

theorem steps_compatible : serializeSteps.all WriteStep.compatible = true := by decide

theorem steps_nodup : serializeSteps.Nodup := by decide

theorem intTags_ok : roundTripIntTags.all intTagOK = true := by decide

theorem strSteps_ok : roundTripStrSteps.all strStepOK = true := by decide

theorem date_sole : soleWriter .writtenDate .ITEM_ATTRIBUTE_DATE = true := by decide

theorem actionId_sole : soleWriter .actionId .ITEM_ATTRIBUTE_ACTIONID = true := by decide

/-! ### Items and their stores -/

theorem Item.hasAttribute_eq (i : Item) (type : Nat) :
    i.hasAttribute type = i.getAttributes.hasAttribute type := by
  cases h : i.attributes with
  | none => simp [Item.hasAttribute, Item.getAttributes, h, ItemAttributes.hasAttribute]
  | some s => simp [Item.hasAttribute, Item.getAttributes, h]

theorem Item.getIntAttr_eq (H : Header) (i : Item) (type : Nat) :
    i.getIntAttr H type = i.getAttributes.getIntAttr H.toAttrKinds type := by
  cases h : i.attributes with
  | none =>
    simp [Item.getIntAttr, Item.getAttributes, h, ItemAttributes.getIntAttr,
      ItemAttributes.getExistingAttr, ItemAttributes.hasAttribute]
  | some s => simp [Item.getIntAttr, Item.getAttributes, h]

theorem Item.getStrAttr_eq (H : Header) (i : Item) (type : Nat) :
    i.getStrAttr H type = i.getAttributes.getStrAttr H.toAttrKinds type := by
  cases h : i.attributes with
  | none =>
    simp [Item.getStrAttr, Item.getAttributes, h, ItemAttributes.getStrAttr,
      ItemAttributes.getExistingAttr, ItemAttributes.hasAttribute]
  | some s => simp [Item.getStrAttr, Item.getAttributes, h]

theorem Item.hasAttribute_of_look {i : Item} (hwf : i.WF) {k : Nat} {a : Attribute}
    (h : i.look (2 ^ k) = some a) : i.hasAttribute (2 ^ k) = true := by
  rw [Item.hasAttribute_eq, hasAttribute_two_pow]
  obtain ⟨hmem, hta⟩ := getExistingAttr_mem h
  exact (hwf.bits k).mpr ⟨a, hmem, hta⟩

theorem Item.getIntAttr_of_look (H : Header) {i : Item} {type : Nat} {a : Attribute}
    (h : i.look type = some a) (hint : H.isIntAttrType type = true) :
    i.getIntAttr H type = a.value.asInteger % 2 ^ 32 := by
  rw [Item.getIntAttr_eq]
  unfold Item.look at h
  simp [ItemAttributes.getIntAttr, hint, h]

theorem Item.getStrAttr_of_look (H : Header) {i : Item} {type : Nat} {a : Attribute}
    (h : i.look type = some a) (hstr : H.isStrAttrType type = true) :
    i.getStrAttr H type = a.value.asString := by
  rw [Item.getStrAttr_eq]
  unfold Item.look at h
  simp [ItemAttributes.getStrAttr, hstr, h]

theorem getAttributes_setIntAttr (H : Header) (i : Item) (type v : Nat) :
    (i.setIntAttr H type v).getAttributes = i.getAttributes.setIntAttr H.toAttrKinds type v :=
  rfl

theorem getAttributes_setStrAttr (H : Header) (i : Item) (type : Nat) (v : List Nat) :
    (i.setStrAttr H type v).getAttributes = i.getAttributes.setStrAttr H.toAttrKinds type v :=
  rfl

theorem writeAt_id (l : List Attribute) (i : Nat) : writeAt l i (fun v => v) = l := by
  induction l generalizing i with
  | nil => rfl
  | cons a rest ih =>
    cases i with
    | zero => rfl
    | succ i => simp [writeAt, ih]

theorem getAttr_eq_writeThrough (s : ItemAttributes) (type : Nat) :
    (s.getAttr type).1 = s.writeThrough type (fun v => v) := by
  unfold ItemAttributes.writeThrough
  rw [writeAt_id]

theorem getExistingAttr_of_fields {s t : ItemAttributes}
    (hb : t.attributeBits = s.attributeBits) (ha : t.attributes = s.attributes) (type : Nat) :
    t.getExistingAttr type = s.getExistingAttr type := by
  simp [ItemAttributes.getExistingAttr, ItemAttributes.hasAttribute, hb, ha]

/-! ### Writes that leave the other tags alone -/

theorem Frame_refl (H : Header) (ts : List itemAttrTypes) (i : Item) : Item.Frame H ts i i :=
  fun hwf => ⟨hwf, fun _ _ => rfl⟩

theorem Frame_trans {H : Header} {ts : List itemAttrTypes} {i j k : Item}
    (h1 : Item.Frame H ts i j) (h2 : Item.Frame H ts j k) : Item.Frame H ts i k := by
  intro hwf
  obtain ⟨hj, hlook1⟩ := h1 hwf
  obtain ⟨hk, hlook2⟩ := h2 hj
  exact ⟨hk, fun t0 ht0 => (hlook2 t0 ht0).trans (hlook1 t0 ht0)⟩

theorem mask_ne {H : Header} (hH : H.WF) {t u : itemAttrTypes} (h : t ≠ u) :
    ∃ k j, H.mask t = 2 ^ k ∧ H.mask u = 2 ^ j ∧ j ≠ k := by
  obtain ⟨k, hk⟩ := hH.mask_tag t
  obtain ⟨j, hj⟩ := hH.mask_tag u
  refine ⟨k, j, hk, hj, ?_⟩
  rintro rfl
  exact h (hH.mask_inj t u (hk.trans hj.symm))

theorem Frame_writeThrough {H : Header} (hH : H.WF) {ts : List itemAttrTypes}
    {t : itemAttrTypes} (ht : t ∈ ts) (i j : Item) (f : AttrValue → AttrValue)
    (hj : j.getAttributes = i.getAttributes.writeThrough (H.mask t) f) :
    Item.Frame H ts i j := by
  intro hwf
  obtain ⟨k, hk⟩ := hH.mask_tag t
  unfold Item.WF Item.look at *
  rw [hj, hk]
  refine ⟨WF_writeThrough _ hwf k f, ?_⟩
  intro t0 ht0
  have hne : t0 ≠ t := fun h => ht0 (h ▸ ht)
  obtain ⟨k0, j0, hk0, hj0, hjk⟩ := mask_ne hH hne.symm
  have : k0 = k := two_pow_inj (hk0.symm.trans hk)
  subst this
  rw [hj0]
  exact (writeThrough_frame _ hwf k0 f j0 hjk).1

theorem Frame_same {H : Header} {ts : List itemAttrTypes} (i j : Item)
    (hb : j.getAttributes.attributeBits = i.getAttributes.attributeBits)
    (ha : j.getAttributes.attributes = i.getAttributes.attributes) :
    Item.Frame H ts i j := by
  intro hwf
  unfold Item.WF Item.look at *
  refine ⟨WF_of_same_types hwf hb (by rw [ha]), ?_⟩
  intro t0 _
  exact getExistingAttr_of_fields hb ha _

theorem Frame_setIntAttr {H : Header} (hH : H.WF) {ts : List itemAttrTypes}
    {t : itemAttrTypes} (ht : t ∈ ts) (i : Item) (v : Nat) :
    Item.Frame H ts i (i.setIntAttr H (H.mask t) v) := by
  cases h : H.isIntAttrType (H.mask t) with
  | false =>
    apply Frame_same <;>
      simp [Item.setIntAttr, Item.getAttributes, ItemAttributes.setIntAttr, h]
  | true =>
    apply Frame_writeThrough hH ht i _ (fun _ => AttrValue.integer (v % 2 ^ 64))
    rw [← setIntAttr_eq_writeThrough H.toAttrKinds _ _ v h]
    simp [Item.setIntAttr, Item.getAttributes]

theorem Frame_setStrAttr {H : Header} (hH : H.WF) {ts : List itemAttrTypes}
    {t : itemAttrTypes} (ht : t ∈ ts) (i : Item) (v : List Nat) :
    Item.Frame H ts i (i.setStrAttr H (H.mask t) v) := by
  by_cases h : H.isStrAttrType (H.mask t) = true ∧ v ≠ []
  · apply Frame_writeThrough hH ht i _ (fun _ => AttrValue.string v)
    rw [← setStrAttr_eq_writeThrough H.toAttrKinds _ _ v h.1 h.2]
    simp [Item.setStrAttr, Item.getAttributes]
  · have hs : i.getAttributes.setStrAttr H.toAttrKinds (H.mask t) v = i.getAttributes := by
      unfold ItemAttributes.setStrAttr
      cases hk : H.isStrAttrType (H.mask t) with
      | false => simp
      | true =>
        have : v = [] := by
          by_contra hv; exact h ⟨hk, hv⟩
        simp [this]
    apply Frame_same <;> rw [getAttributes_setStrAttr, hs]

theorem Frame_setItemCount (H : Header) (ts : List itemAttrTypes) (i : Item) (n : Nat) :
    Item.Frame H ts i (i.setItemCount H n) := by
  apply Frame_same <;> simp [Item.setItemCount, Item.getAttributes]

theorem Frame_setCustomAttribute {H : Header} (hH : H.WF) {ts : List itemAttrTypes}
    (ht : itemAttrTypes.ITEM_ATTRIBUTE_CUSTOM ∈ ts) (i : Item) (key : List Nat)
    (val : CustomAttribute) :
    Item.Frame H ts i (i.setCustomAttribute H key val) := by
  have h1 : Item.Frame H ts i
      { i with attributes := some (i.getAttributes.getAttr (H.mask .ITEM_ATTRIBUTE_CUSTOM)).1 } := by
    apply Frame_writeThrough hH ht i _ (fun v => v)
    simp [Item.getAttributes, getAttr_eq_writeThrough]
  refine Frame_trans h1 ?_
  apply Frame_same <;> simp [Item.setCustomAttribute, Item.getAttributes]

theorem Frame_readFixed {H : Header} {ts : List itemAttrTypes} (width : Nat) (p : List Nat)
    (item : Item) (f : Nat → Item) (hf : ∀ v, Item.Frame H ts item (f v)) :
    Item.Frame H ts item (readFixed width p item f).2.2 := by
  unfold readFixed
  cases PropStream.read width p with
  | none => exact Frame_refl H ts item
  | some r => exact hf r.1

theorem Frame_readText {H : Header} {ts : List itemAttrTypes} (p : List Nat)
    (item : Item) (f : List Nat → Item) (hf : ∀ v, Item.Frame H ts item (f v)) :
    Item.Frame H ts item (readText H p item f).2.2 := by
  unfold readText
  cases PropStream.readString H.strLenBytes p with
  | none => exact Frame_refl H ts item
  | some r => exact hf r.1

theorem Frame_setSubType {H : Header} (hH : H.WF) (item : Item) (n : Nat) :
    Item.Frame H [.ITEM_ATTRIBUTE_FLUIDTYPE, .ITEM_ATTRIBUTE_CHARGES] item
      (item.setSubType H n) := by
  unfold Item.setSubType
  dsimp only
  split
  · exact Frame_setIntAttr hH (by simp) item n
  · split
    · exact Frame_setItemCount H _ item n
    · split
      · exact Frame_setIntAttr hH (by simp) item n
      · exact Frame_setItemCount H _ item n

theorem Frame_setUniqueId {H : Header} (hH : H.WF) (item : Item) (n : Nat) :
    Item.Frame H [.ITEM_ATTRIBUTE_UNIQUEID] item (item.setUniqueId H n) := by
  unfold Item.setUniqueId
  split
  · exact Frame_refl H _ item
  · split
    · exact Frame_setIntAttr hH (by simp) item n
    · exact Frame_refl H _ item

theorem Frame_readCustomAttributes {H : Header} (hH : H.WF) (size : Nat) (p : List Nat)
    (item : Item) :
    Item.Frame H [.ITEM_ATTRIBUTE_CUSTOM] item (readCustomAttributes H size p item).2.2 := by
  induction size generalizing p item with
  | zero => exact Frame_refl H _ item
  | succ n ih =>
    unfold readCustomAttributes
    cases PropStream.readString H.strLenBytes p with
    | none => exact Frame_refl H _ item
    | some r =>
      obtain ⟨key, p1⟩ := r
      dsimp only
      cases CustomAttribute.unserialize H p1 with
      | none => exact Frame_refl H _ item
      | some r2 =>
        obtain ⟨val, p2⟩ := r2
        exact Frame_trans (Frame_setCustomAttribute hH (by simp) item key val) (ih p2 _)

theorem Frame_run {H : Header} (hH : H.WF) (c : ReadCase) (p : List Nat) (item : Item) :
    Item.Frame H c.touched item (c.run H p item).2.2 := by
  cases c <;> simp only [ReadCase.run, ReadCase.touched]
  case subType w => exact Frame_readFixed _ _ _ _ (fun v => Frame_setSubType hH item v)
  case actionId => exact Frame_readFixed _ _ _ _ (fun v => Frame_setIntAttr hH (by simp) item v)
  case uniqueId => exact Frame_readFixed _ _ _ _ (fun v => Frame_setUniqueId hH item v)
  case text => exact Frame_readText _ _ _ (fun v => Frame_setStrAttr hH (by simp) item v)
  case writtenDate =>
    exact Frame_readFixed _ _ _ _ (fun v => Frame_setIntAttr hH (by simp) item v)
  case writtenBy => exact Frame_readText _ _ _ (fun v => Frame_setStrAttr hH (by simp) item v)
  case desc => exact Frame_readText _ _ _ (fun v => Frame_setStrAttr hH (by simp) item v)
  case duration =>
    exact Frame_readFixed _ _ _ _ (fun v => Frame_setIntAttr hH (by simp) item _)
  case decayingState =>
    refine Frame_readFixed _ _ _ _ (fun v => ?_)
    split
    · exact Frame_setIntAttr hH (by simp) item _
    · exact Frame_refl H _ item
  case strAttr t => exact Frame_readText _ _ _ (fun v => Frame_setStrAttr hH (by simp) item v)
  case intAttr w t =>
    exact Frame_readFixed _ _ _ _ (fun v => Frame_setIntAttr hH (by simp) item v)
  case skip n =>
    cases PropStream.skip n p with
    | none => exact Frame_refl H _ item
    | some rest => exact Frame_refl H _ item
  case fail => exact Frame_refl H _ item
  case customAttributes =>
    cases PropStream.read 8 p with
    | none => exact Frame_refl H _ item
    | some r => exact Frame_readCustomAttributes hH r.1 r.2 item

/-! ### From the encoder to a list of records -/

theorem attrOf_attrByte {H : Header} (hH : H.WF) (a : AttrTypes_t) :
    H.attrOf (H.attrByte a) = some a := by
  cases h : H.attrOf (H.attrByte a) with
  | none => exact absurd rfl (attrOf_eq_none.mp h a)
  | some b => rw [hH.attrByte_inj b a (attrOf_some h)]

theorem write_byte {v : Nat} (h : v < 256) : PropWriteStream.write 1 v = [v] := by
  simp [PropWriteStream.write, leBytes, Nat.mod_eq_of_lt h]

theorem bytes_eq {H : Header} (hH : H.WF) (item : Item) (steps : List WriteStep) :
    (steps.map (WriteStep.bytes H item)).flatten
      = ((steps.filterMap (fun s => (s.payload H item).map (fun p => (s.attr, p)))).map
          (fun e => AttrRecord.bytes ⟨H.attrByte e.1, e.2⟩)).flatten := by
  induction steps with
  | nil => rfl
  | cons s rest ih =>
    rw [List.map_cons, List.flatten_cons, ih, List.filterMap_cons]
    unfold WriteStep.bytes
    cases s.payload H item with
    | none => rfl
    | some p => simp [AttrRecord.bytes, write_byte (hH.attrByte_lt s.attr)]

theorem serializeAttr_eq {H : Header} (hH : H.WF) (item : Item) :
    item.serializeAttr H
      = (((item.emitted H).map (fun e => (⟨H.attrByte e.1, e.2⟩ : AttrRecord))).map
          AttrRecord.bytes).flatten := by
  rw [List.map_map]
  exact bytes_eq hH item serializeSteps

theorem length_write (width v : Nat) : (PropWriteStream.write width v).length = width :=
  length_leBytes width v

theorem getStrAttr_length {H : Header} (item : Item) (hfit : item.Fits H) (type : Nat) :
    (item.getStrAttr H type).length < 256 ^ H.strLenBytes := by
  rw [Item.getStrAttr_eq]
  unfold ItemAttributes.getStrAttr
  split
  · exact Nat.pow_pos (by norm_num)
  · split
    · exact Nat.pow_pos (by norm_num)
    · next a ha => exact hfit.strings a (getExistingAttr_mem ha).1

theorem payload_ok {H : Header} (item : Item) (hfit : item.Fits H) (s : WriteStep)
    (hs : s.compatible = true) (p : List Nat) (hp : s.payload H item = some p) :
    (readCase s.attr).payloadOK H p := by
  have hstr : ∀ type, stringPayload H
      (PropWriteStream.writeString H.strLenBytes (item.getStrAttr H type)) :=
    fun type => ⟨_, getStrAttr_length item hfit type, rfl⟩
  cases s with
  | count =>
    simp only [WriteStep.payload] at hp
    split at hp
    · cases hp; simp [WriteStep.attr, readCase, ReadCase.payloadOK, ReadCase.fixedWidth,
        length_write]
    · cases hp
  | charges =>
    simp only [WriteStep.payload] at hp
    split at hp
    · cases hp; simp [WriteStep.attr, readCase, ReadCase.payloadOK, ReadCase.fixedWidth,
        length_write]
    · cases hp
  | actionId =>
    simp only [WriteStep.payload] at hp
    split at hp
    · split at hp
      · cases hp; simp [WriteStep.attr, readCase, ReadCase.payloadOK, ReadCase.fixedWidth,
          length_write]
      · cases hp
    · cases hp
  | text =>
    simp only [WriteStep.payload] at hp
    split at hp
    · cases hp; exact hstr _
    · cases hp
  | writtenDate =>
    simp only [WriteStep.payload] at hp
    split at hp
    · cases hp; simp [WriteStep.attr, readCase, ReadCase.payloadOK, ReadCase.fixedWidth,
        length_write]
    · cases hp
  | writtenBy =>
    simp only [WriteStep.payload] at hp
    split at hp
    · cases hp; exact hstr _
    · cases hp
  | desc =>
    simp only [WriteStep.payload] at hp
    split at hp
    · cases hp; exact hstr _
    · cases hp
  | decayingState =>
    simp only [WriteStep.payload] at hp
    split at hp
    · cases hp; simp [WriteStep.attr, readCase, ReadCase.payloadOK, ReadCase.fixedWidth,
        length_write]
    · cases hp
  | strAttr t a =>
    simp only [WriteStep.payload] at hp
    split at hp
    · cases hp
      simp only [WriteStep.compatible] at hs
      simp only [WriteStep.attr]
      cases hc : readCase a <;> simp only [hc, Bool.false_eq_true] at hs
      exact hstr _
    · cases hp
  | intAttr t a w =>
    simp only [WriteStep.payload] at hp
    split at hp
    · cases hp
      simp only [WriteStep.compatible] at hs
      simp only [WriteStep.attr]
      cases hc : readCase a <;> simp only [hc, Bool.false_eq_true, beq_iff_eq] at hs
      · simp [ReadCase.payloadOK, ReadCase.fixedWidth, length_write, hs]
      · simp [ReadCase.payloadOK, ReadCase.fixedWidth, length_write, hs]
    · cases hp
  | customAttributes =>
    simp only [WriteStep.payload] at hp
    split at hp
    · cases hp
      exact ⟨_, hfit.customCount, hfit.custom, rfl⟩
    · cases hp

theorem emitted_WF {H : Header} (hH : H.WF) (item : Item) (hfit : item.Fits H) :
    ∀ r ∈ (item.emitted H).map (fun e => (⟨H.attrByte e.1, e.2⟩ : AttrRecord)), r.WF H := by
  intro r hr
  obtain ⟨e, he, rfl⟩ := List.mem_map.mp hr
  unfold Item.emitted at he
  obtain ⟨s, hs, hse⟩ := List.mem_filterMap.mp he
  obtain ⟨p, hp, rfl⟩ := Option.map_eq_some'.mp hse
  have hcomp : s.compatible = true := List.all_eq_true.mp steps_compatible s hs
  exact ⟨hH.attrByte_lt _, hH.attrByte_ne _, s.attr, attrOf_attrByte hH _,
    payload_ok item hfit s hcomp p hp⟩

theorem applyRecord_eq {H : Header} (hH : H.WF) (i : Item) (e : AttrTypes_t × List Nat) :
    i.applyRecord H ⟨H.attrByte e.1, e.2⟩ = ((readCase e.1).run H e.2 i).2.2 := by
  simp [Item.applyRecord, Item.readAttr, attrOf_attrByte hH]

theorem foldl_applyRecord {H : Header} (hH : H.WF) (records : List (AttrTypes_t × List Nat))
    (target : Item) :
    (records.map (fun e => (⟨H.attrByte e.1, e.2⟩ : AttrRecord))).foldl (Item.applyRecord H) target
      = target.decodeRecords H records := by
  unfold Item.decodeRecords
  induction records generalizing target with
  | nil => rfl
  | cons e rest ih =>
    simp only [List.map_cons, List.foldl_cons]
    rw [applyRecord_eq hH, ih]

theorem unserialize_serializeAttr {H : Header} (hH : H.WF) (orig target : Item)
    (hfit : orig.Fits H) (rest : List Nat) :
    Item.unserializeAttr H (orig.serializeAttr H ++ 0 :: rest) target
      = some (true, rest, target.decodeRecords H (orig.emitted H)) := by
  rw [serializeAttr_eq hH, unserializeAttr_records H _ rest target (emitted_WF hH orig hfit),
    foldl_applyRecord hH]

/-! ### The entry of one tag after decoding what the encoder wrote -/

theorem decodeRecords_WF {H : Header} (hH : H.WF) (records : List (AttrTypes_t × List Nat))
    (target : Item) (ht : target.WF) : (target.decodeRecords H records).WF := by
  unfold Item.decodeRecords
  induction records generalizing target with
  | nil => exact ht
  | cons e rest ih =>
    rw [List.foldl_cons]
    exact ih _ (Frame_run hH (readCase e.1) e.2 target ht).1

theorem decodeRecords_look {H : Header} (hH : H.WF) (t0 : itemAttrTypes)
    (records : List (AttrTypes_t × List Nat))
    (hno : ∀ e ∈ records, t0 ∉ (readCase e.1).touched) (target : Item) (ht : target.WF) :
    (target.decodeRecords H records).look (H.mask t0) = target.look (H.mask t0) := by
  unfold Item.decodeRecords
  induction records generalizing target with
  | nil => rfl
  | cons e rest ih =>
    rw [List.foldl_cons]
    obtain ⟨hwf, hlook⟩ := Frame_run hH (readCase e.1) e.2 target ht
    rw [ih (fun x hx => hno x (List.mem_cons_of_mem _ hx)) _ hwf]
    exact hlook t0 (hno e (List.mem_cons_self _ _))

theorem roundtrip_core {H : Header} (hH : H.WF) (orig target : Item) (ht : target.WF)
    (s0 : WriteStep) (hs0 : s0 ∈ serializeSteps) (t0 : itemAttrTypes)
    (hsole : soleWriter s0 t0 = true) (p0 : List Nat) (hp : s0.payload H orig = some p0)
    (ent : Attribute)
    (hown : ∀ i : Item, i.WF →
      (((readCase s0.attr).run H p0 i).2.2).look (H.mask t0) = some ent) :
    (target.decodeRecords H (orig.emitted H)).look (H.mask t0) = some ent := by
  obtain ⟨S1, S2, hsplit⟩ := List.append_of_mem hs0
  have hnd := steps_nodup
  rw [hsplit] at hnd
  have hnot : s0 ∉ S2 := (List.nodup_cons.mp (List.nodup_append.mp hnd).2.1).1
  have hS2 : ∀ s ∈ S2, t0 ∉ (readCase s.attr).touched := by
    intro s hs hmem
    have hin : s ∈ serializeSteps := by rw [hsplit]; simp [hs]
    have := List.all_eq_true.mp hsole s hin
    simp only [Bool.or_eq_true, beq_iff_eq, Bool.not_eq_true', List.contains_eq_any_beq,
      List.any_eq_false, beq_iff_eq] at this
    rcases this with rfl | h
    · exact hnot hs
    · exact h t0 hmem (by simp)
  have hem : orig.emitted H
      = S1.filterMap (fun s => (s.payload H orig).map (fun p => (s.attr, p)))
        ++ (s0.attr, p0) :: S2.filterMap (fun s => (s.payload H orig).map (fun p => (s.attr, p))) := by
    unfold Item.emitted
    rw [hsplit, List.filterMap_append, List.filterMap_cons, hp]
    rfl
  rw [hem]
  unfold Item.decodeRecords
  rw [List.foldl_append, List.foldl_cons]
  have hwf1 := decodeRecords_WF hH
    (S1.filterMap (fun s => (s.payload H orig).map (fun p => (s.attr, p)))) target ht
  unfold Item.decodeRecords at hwf1
  have hwf2 := (Frame_run hH (readCase s0.attr) p0 _ hwf1).1
  have hl := decodeRecords_look hH t0
    (S2.filterMap (fun s => (s.payload H orig).map (fun p => (s.attr, p)))) (by
      intro e he
      obtain ⟨s, hs, hse⟩ := List.mem_filterMap.mp he
      obtain ⟨p, -, rfl⟩ := Option.map_eq_some'.mp hse
      exact hS2 s hs) _ hwf2
  unfold Item.decodeRecords at hl
  rw [hl]
  exact hown _ hwf1

theorem look_setIntAttr {H : Header} (hH : H.WF) (i : Item) (hwf : i.WF) (t : itemAttrTypes)
    (v : Nat) (hint : H.isIntAttrType (H.mask t) = true) :
    (i.setIntAttr H (H.mask t) v).look (H.mask t)
      = some ⟨H.mask t, AttrValue.integer (v % 2 ^ 64)⟩ := by
  obtain ⟨k, hk⟩ := hH.mask_tag t
  unfold Item.look
  rw [getAttributes_setIntAttr, setIntAttr_eq_writeThrough _ _ _ _ hint, hk]
  exact writeThrough_get _ hwf k _

theorem look_setStrAttr {H : Header} (hH : H.WF) (i : Item) (hwf : i.WF) (t : itemAttrTypes)
    (v : List Nat) (hstr : H.isStrAttrType (H.mask t) = true) (hv : v ≠ []) :
    (i.setStrAttr H (H.mask t) v).look (H.mask t)
      = some ⟨H.mask t, AttrValue.string v⟩ := by
  obtain ⟨k, hk⟩ := hH.mask_tag t
  unfold Item.look
  rw [getAttributes_setStrAttr, setStrAttr_eq_writeThrough _ _ _ _ hstr hv, hk]
  exact writeThrough_get _ hwf k _

theorem getIntAttr_lt (H : Header) (i : Item) (type : Nat) : i.getIntAttr H type < 2 ^ 32 := by
  rw [Item.getIntAttr_eq]
  unfold ItemAttributes.getIntAttr
  split
  · norm_num
  · split
    · norm_num
    · exact Nat.mod_lt _ (by norm_num)

theorem hasAttribute_of_getStrAttr {H : Header} {i : Item} {type : Nat}
    (h : i.getStrAttr H type ≠ []) : i.hasAttribute type = true := by
  rw [Item.hasAttribute_eq]
  rw [Item.getStrAttr_eq] at h
  cases hb : i.getAttributes.hasAttribute type with
  | true => rfl
  | false =>
    exfalso; apply h
    simp [ItemAttributes.getStrAttr, getExistingAttr_eq_none (Or.inl hb)]

theorem run_fixed_written (H : Header) (c : ReadCase) (width v : Nat) (i : Item)
    (f : Nat → Item) (hc : ∀ p, c.run H p i = readFixed width p i f) (hv : v < 256 ^ width) :
    (c.run H (PropWriteStream.write width v) i).2.2 = f v := by
  rw [hc, readFixed_exact _ _ _ (length_write width v)]
  simp [PropWriteStream.write, leValue_leBytes, Nat.mod_eq_of_lt hv]

theorem run_text_written (H : Header) (c : ReadCase) (str : List Nat) (i : Item)
    (f : List Nat → Item) (hc : ∀ p, c.run H p i = readText H p i f)
    (hlen : str.length < 256 ^ H.strLenBytes) :
    (c.run H (PropWriteStream.writeString H.strLenBytes str) i).2.2 = f str := by
  rw [hc, readText_exact H str i f hlen]

theorem roundtrip_int {H : Header} (hH : H.WF) (orig target : Item) (ht : target.WF)
    (s0 : WriteStep) (hs0 : s0 ∈ serializeSteps) (t0 : itemAttrTypes)
    (hsole : soleWriter s0 t0 = true) (w v : Nat)
    (hp : s0.payload H orig = some (PropWriteStream.write w v)) (hv : v < 256 ^ w)
    (hv32 : v < 2 ^ 32)
    (hc : ∀ (i : Item) (p : List Nat), (readCase s0.attr).run H p i
      = readFixed w p i (fun x => i.setIntAttr H (H.mask t0) x))
    (hint : H.isIntAttrType (H.mask t0) = true) :
    (target.decodeRecords H (orig.emitted H)).hasAttribute (H.mask t0) = true ∧
    (target.decodeRecords H (orig.emitted H)).getIntAttr H (H.mask t0) = v := by
  have hv64 : v % 2 ^ 64 = v := Nat.mod_eq_of_lt (lt_trans hv32 (by norm_num))
  have hlook := roundtrip_core hH orig target ht s0 hs0 t0 hsole _ hp
    ⟨H.mask t0, AttrValue.integer v⟩ (by
      intro i hi
      rw [run_fixed_written H _ w v i _ (hc i) hv, look_setIntAttr hH i hi t0 v hint, hv64])
  have hwf := decodeRecords_WF hH (orig.emitted H) target ht
  obtain ⟨k, hk⟩ := hH.mask_tag t0
  refine ⟨?_, ?_⟩
  · rw [hk] at hlook ⊢
    exact Item.hasAttribute_of_look hwf hlook
  · rw [Item.getIntAttr_of_look H hlook hint]
    exact Nat.mod_eq_of_lt hv32

theorem roundtrip_str {H : Header} (hH : H.WF) (orig target : Item) (ht : target.WF)
    (s0 : WriteStep) (hs0 : s0 ∈ serializeSteps) (t0 : itemAttrTypes)
    (hsole : soleWriter s0 t0 = true) (str : List Nat)
    (hp : s0.payload H orig = some (PropWriteStream.writeString H.strLenBytes str))
    (hlen : str.length < 256 ^ H.strLenBytes) (hne : str ≠ [])
    (hc : ∀ (i : Item) (p : List Nat), (readCase s0.attr).run H p i
      = readText H p i (fun x => i.setStrAttr H (H.mask t0) x))
    (hstr : H.isStrAttrType (H.mask t0) = true) :
    (target.decodeRecords H (orig.emitted H)).hasAttribute (H.mask t0) = true ∧
    (target.decodeRecords H (orig.emitted H)).getStrAttr H (H.mask t0) = str := by
  have hlook := roundtrip_core hH orig target ht s0 hs0 t0 hsole _ hp
    ⟨H.mask t0, AttrValue.string str⟩ (by
      intro i hi
      rw [run_text_written H _ str i _ (hc i) hlen, look_setStrAttr hH i hi t0 str hstr hne])
  have hwf := decodeRecords_WF hH (orig.emitted H) target ht
  obtain ⟨k, hk⟩ := hH.mask_tag t0
  refine ⟨?_, ?_⟩
  · rw [hk] at hlook ⊢
    exact Item.hasAttribute_of_look hwf hlook
  · rw [Item.getStrAttr_of_look H hlook hstr]
    rfl

theorem roundtrip_intTag {H : Header} (hH : H.WF) (orig target : Item) (ht : target.WF)
    (t : itemAttrTypes) (hmem : t ∈ roundTripIntTags)
    (hint : H.isIntAttrType (H.mask t) = true) (hhas : orig.hasAttribute (H.mask t) = true) :
    (target.decodeRecords H (orig.emitted H)).hasAttribute (H.mask t) = true ∧
    (target.decodeRecords H (orig.emitted H)).getIntAttr H (H.mask t)
      = orig.getIntAttr H (H.mask t) := by
  have hok := List.all_eq_true.mp intTags_ok t hmem
  unfold intTagOK at hok
  cases hstep : intStepOf t with
  | none => simp [hstep] at hok
  | some s0 =>
    have hs0 : s0 ∈ serializeSteps := List.mem_of_find?_eq_some hstep
    cases s0 with
    | intAttr type a w =>
      simp only [hstep, Bool.and_eq_true, beq_iff_eq, decide_eq_true_eq, Bool.or_eq_true] at hok
      obtain ⟨⟨⟨rfl, hw⟩, hsole⟩, hcase⟩ := hok
      have hv32 := getIntAttr_lt H orig (H.mask type)
      have hv : orig.getIntAttr H (H.mask type) < 256 ^ w := by
        have h1 : (2 : Nat) ^ 32 = 256 ^ 4 := by norm_num
        have h2 : (256 : Nat) ^ 4 ≤ 256 ^ w := Nat.pow_le_pow_right (by norm_num) hw
        omega
      apply roundtrip_int hH orig target ht _ hs0 type hsole w _ _ hv hv32 _ hint
      · simp [WriteStep.payload, hhas]
      · intro i p
        rcases hcase with hc | ⟨⟨hc, rfl⟩, rfl⟩
        · simp only [WriteStep.attr, hc, ReadCase.run]
        · simp only [WriteStep.attr, hc, ReadCase.run, Item.setDuration, Nat.zero_max]
    | _ => simp [hstep] at hok

theorem roundtrip_strTag {H : Header} (hH : H.WF) (orig target : Item) (hfit : orig.Fits H)
    (ht : target.WF) (e : itemAttrTypes × WriteStep) (hmem : e ∈ roundTripStrSteps)
    (hstr : H.isStrAttrType (H.mask e.1) = true) (hne : orig.getStrAttr H (H.mask e.1) ≠ []) :
    (target.decodeRecords H (orig.emitted H)).hasAttribute (H.mask e.1) = true ∧
    (target.decodeRecords H (orig.emitted H)).getStrAttr H (H.mask e.1)
      = orig.getStrAttr H (H.mask e.1) := by
  have hok := List.all_eq_true.mp strSteps_ok e hmem
  obtain ⟨t, s0⟩ := e
  unfold strStepOK at hok
  simp only [Bool.and_eq_true] at hok
  obtain ⟨⟨hs0c, hsole⟩, hshape⟩ := hok
  have hs0 : s0 ∈ serializeSteps := by simpa using hs0c
  have hempty : (orig.getStrAttr H (H.mask t)).isEmpty = false := by
    cases h : orig.getStrAttr H (H.mask t) with
    | nil => exact absurd h hne
    | cons _ _ => rfl
  cases s0 with
  | strAttr type a =>
    simp only [Bool.and_eq_true, beq_iff_eq] at hshape
    obtain ⟨rfl, hc⟩ := hshape
    apply roundtrip_str hH orig target ht _ hs0 type hsole _ _ (getStrAttr_length orig hfit _) hne _ hstr
    · simp [WriteStep.payload, hasAttribute_of_getStrAttr hne]
    · intro i p
      simp only [WriteStep.attr, hc, ReadCase.run]
  | text =>
    simp only [beq_iff_eq] at hshape
    subst hshape
    apply roundtrip_str hH orig target ht _ hs0 _ hsole _ _ (getStrAttr_length orig hfit _) hne _ hstr
    · simp only [WriteStep.payload, Item.getText, hempty]; rfl
    · intro i p
      rfl
  | writtenBy =>
    simp only [beq_iff_eq] at hshape
    subst hshape
    apply roundtrip_str hH orig target ht _ hs0 _ hsole _ _ (getStrAttr_length orig hfit _) hne _ hstr
    · simp only [WriteStep.payload, Item.getWriter, hempty]; rfl
    · intro i p
      rfl
  | desc =>
    simp only [beq_iff_eq] at hshape
    subst hshape
    apply roundtrip_str hH orig target ht _ hs0 _ hsole _ _ (getStrAttr_length orig hfit _) hne _ hstr
    · simp only [WriteStep.payload, Item.getSpecialDescription, hempty]; rfl
    · intro i p
      rfl
  | _ => simp at hshape

theorem roundtrip_date {H : Header} (hH : H.WF) (orig target : Item) (ht : target.WF)
    (hint : H.isIntAttrType (H.mask .ITEM_ATTRIBUTE_DATE) = true) (hne : orig.getDate H ≠ 0) :
    (target.decodeRecords H (orig.emitted H)).hasAttribute (H.mask .ITEM_ATTRIBUTE_DATE) = true ∧
    (target.decodeRecords H (orig.emitted H)).getDate H = orig.getDate H := by
  have hv32 : orig.getDate H < 2 ^ 32 := getIntAttr_lt H orig _
  apply roundtrip_int hH orig target ht .writtenDate (by decide) .ITEM_ATTRIBUTE_DATE date_sole 4
    _ _ (by norm_num at hv32 ⊢; exact hv32) hv32 _ hint
  · simp [WriteStep.payload, hne]
  · intro i p
    rfl

theorem roundtrip_actionId {H : Header} (hH : H.WF) (orig target : Item) (ht : target.WF)
    (hint : H.isIntAttrType (H.mask .ITEM_ATTRIBUTE_ACTIONID) = true)
    (hmove : (H.items orig.id).moveable = true) (hne : orig.getActionId H ≠ 0) :
    (target.decodeRecords H (orig.emitted H)).hasAttribute (H.mask .ITEM_ATTRIBUTE_ACTIONID)
      = true ∧
    (target.decodeRecords H (orig.emitted H)).getActionId H = orig.getActionId H := by
  have hv16 : orig.getActionId H < 2 ^ 16 := Nat.mod_lt _ (by norm_num)
  have h := roundtrip_int hH orig target ht .actionId (by decide) .ITEM_ATTRIBUTE_ACTIONID
    actionId_sole 2 (orig.getActionId H) (by simp [WriteStep.payload, hmove, hne])
    (by norm_num at hv16 ⊢; exact hv16) (lt_trans hv16 (by norm_num)) (fun i p => rfl) hint
  refine ⟨h.1, ?_⟩
  unfold Item.getActionId at h ⊢
  rw [h.2]
  exact Nat.mod_eq_of_lt hv16

/-! ### The round trip -/

theorem construct_WF {H : Header} (hH : H.WF) (type count : Nat) :
    (Item.construct H type count).WF := by
  have h0 : ({ id := type } : Item).WF := WF_empty
  have hset : ∀ (i : Item) (t : itemAttrTypes) (v : Nat), i.WF →
      (i.setIntAttr H (H.mask t) v).WF :=
    fun i t v hi => (Frame_setIntAttr hH (List.mem_singleton.mpr rfl) i v hi).1
  have hcount : ∀ (i : Item) (n : Nat), i.WF → (i.setItemCount H n).WF :=
    fun i n hi => (Frame_setItemCount H [] i n hi).1
  have hdur : ∀ i : Item, i.WF → (i.setDefaultDuration H).WF := by
    intro i hi
    unfold Item.setDefaultDuration
    dsimp only
    split
    · exact hset _ _ _ hi
    · exact hi
  unfold Item.construct
  dsimp only
  apply hdur
  split
  · exact hset _ _ _ h0
  · split
    · split
      · exact hcount _ _ h0
      · split
        · exact hcount _ _ h0
        · exact h0
    · split
      · split
        · exact hset _ _ _ h0
        · exact hset _ _ _ h0
      · exact h0

theorem sampleHeader_WF : sampleHeader.WF where
  attrByte_lt := by intro a; cases a <;> decide
  attrByte_ne := by intro a; simp [sampleHeader]
  attrByte_inj := by
    intro a b h
    have h2 : a.toCtorIdx = b.toCtorIdx := by simpa [sampleHeader] using h
    have := congrArg AttrTypes_t.ofNat h2
    simpa [AttrTypes_t.ofNat_toCtorIdx] using this
  mask_tag := fun t => ⟨t.toCtorIdx, rfl⟩
  mask_inj := by
    intro t u h
    have h2 : t.toCtorIdx = u.toCtorIdx := two_pow_inj h
    have := congrArg itemAttrTypes.ofNat h2
    simpa [itemAttrTypes.ofNat_toCtorIdx] using this

theorem sampleItem_Fits : sampleItem.Fits sampleHeader where
  strings := by decide
  customCount := by decide
  custom := by
    have h : sampleItem.getAttributes.customAttributes = [] := by decide
    intro e he
    rw [h] at he
    exact absurd he (List.not_mem_nil e)

theorem strTag_step (t : itemAttrTypes) (ht : t ∈ roundTripStrTags) :
    ∃ e ∈ roundTripStrSteps, e.1 = t := by
  have h : roundTripStrTags = roundTripStrSteps.map Prod.fst := rfl
  rw [h] at ht
  obtain ⟨e, he, rfl⟩ := List.mem_map.mp ht
  exact ⟨e, he, rfl⟩

/-- C1 (amended): take an item whose strings and custom attributes fit the
wire format, and decode the bytes written by serializeAttr, followed by the
zero sentinel, into any item with a well-formed store (a freshly constructed
item is one). Then unserializeAttr returns true with the whole stream consumed,
and on the decoded item hasAttribute and the getter agree with the original
item for: every integer tag of `roundTripIntTags` that is present on the
original (duration, attack, weight and the eight-byte stats other than the
first slot, the second slot and the upgrade); every string tag of
`roundTripStrTags` whose string is not empty (name, article, plural name, text,
writer, description); the written date when it is not 0; and the action id
when it is not 0 and the type is moveable. -/
theorem codec_roundtrip (H : Header) (hH : H.WF) (orig target : Item) (hfit : orig.Fits H)
    (ht : target.WF) :
    ∃ result : Item,
      Item.unserializeAttr H (orig.serializeAttr H ++ [0]) target = some (true, [], result) ∧
      (∀ t ∈ roundTripIntTags, H.isIntAttrType (H.mask t) = true →
        orig.hasAttribute (H.mask t) = true →
        result.hasAttribute (H.mask t) = true ∧
        result.getIntAttr H (H.mask t) = orig.getIntAttr H (H.mask t)) ∧
      (∀ t ∈ roundTripStrTags, H.isStrAttrType (H.mask t) = true →
        orig.getStrAttr H (H.mask t) ≠ [] →
        result.hasAttribute (H.mask t) = true ∧
        result.getStrAttr H (H.mask t) = orig.getStrAttr H (H.mask t)) ∧
      (H.isIntAttrType (H.mask .ITEM_ATTRIBUTE_DATE) = true → orig.getDate H ≠ 0 →
        result.hasAttribute (H.mask .ITEM_ATTRIBUTE_DATE) = true ∧
        result.getDate H = orig.getDate H) ∧
      (H.isIntAttrType (H.mask .ITEM_ATTRIBUTE_ACTIONID) = true →
        (H.items orig.id).moveable = true → orig.getActionId H ≠ 0 →
        result.hasAttribute (H.mask .ITEM_ATTRIBUTE_ACTIONID) = true ∧
        result.getActionId H = orig.getActionId H) := by
  refine ⟨target.decodeRecords H (orig.emitted H),
    unserialize_serializeAttr hH orig target hfit [], ?_, ?_, ?_, ?_⟩
  · intro t hmem hint hhas
    exact roundtrip_intTag hH orig target ht t hmem hint hhas
  · intro t hmem hstr hne
    obtain ⟨e, he, rfl⟩ := strTag_step t hmem
    exact roundtrip_strTag hH orig target hfit ht e he hstr hne
  · intro hint hne
    exact roundtrip_date hH orig target ht hint hne
  · intro hint hmove hne
    exact roundtrip_actionId hH orig target ht hint hmove hne

theorem codec_roundtrip_witness :
    sampleHeader.WF ∧ sampleItem.Fits sampleHeader ∧ (Item.construct sampleHeader 1 0).WF ∧
    ∃ result : Item,
      Item.unserializeAttr sampleHeader (sampleItem.serializeAttr sampleHeader ++ [0])
        (Item.construct sampleHeader 1 0) = some (true, [], result) ∧
      result.getIntAttr sampleHeader (sampleHeader.mask .ITEM_ATTRIBUTE_DEFENSE)
        = sampleItem.getIntAttr sampleHeader (sampleHeader.mask .ITEM_ATTRIBUTE_DEFENSE) ∧
      result.getStrAttr sampleHeader (sampleHeader.mask .ITEM_ATTRIBUTE_NAME)
        = sampleItem.getStrAttr sampleHeader (sampleHeader.mask .ITEM_ATTRIBUTE_NAME) ∧
      result.getActionId sampleHeader = sampleItem.getActionId sampleHeader := by
  refine ⟨sampleHeader_WF, sampleItem_Fits, construct_WF sampleHeader_WF 1 0, ?_⟩
  obtain ⟨result, hdec, hint, hstr, -, hact⟩ :=
    codec_roundtrip sampleHeader sampleHeader_WF sampleItem (Item.construct sampleHeader 1 0)
      sampleItem_Fits (construct_WF sampleHeader_WF 1 0)
  exact ⟨result, hdec,
    (hint .ITEM_ATTRIBUTE_DEFENSE (by decide) (by decide) (by decide)).2,
    (hstr .ITEM_ATTRIBUTE_NAME (by decide) (by decide) (by decide)).2,
    (hact (by decide) (by decide) (by decide)).2⟩

/-- C1, as stated, fails: the item of the type 3, which is not moveable, has
the action id 1000, but serializeAttr writes nothing for it, so decoding its
bytes and the sentinel into a fresh item of type 3 gives the fresh item, which
has no action id. -/
theorem codec_roundtrip_counterexample :
    sampleImmovable.hasAttribute (sampleHeader.mask .ITEM_ATTRIBUTE_ACTIONID) = true ∧
    sampleImmovable.getActionId sampleHeader = 1000 ∧
    Item.unserializeAttr sampleHeader (sampleImmovable.serializeAttr sampleHeader ++ [0])
        (Item.construct sampleHeader 3 0)
      = some (true, [], Item.construct sampleHeader 3 0) ∧
    (Item.construct sampleHeader 3 0).hasAttribute (sampleHeader.mask .ITEM_ATTRIBUTE_ACTIONID)
      = false := by
  decide

/-- The second slot is written under the record tag of the first slot
(`ATTR_SLOT1`), so it comes back as the first slot: the item whose second slot
is 5 decodes to an item with first slot 5 and no second slot. -/
theorem slot2_written_as_slot1 :
    sampleSlotItem.serializeAttr sampleHeader
      = sampleHeader.attrByte .ATTR_SLOT1 :: [5, 0, 0, 0, 0, 0, 0, 0] ∧
    Item.unserializeAttr sampleHeader (sampleSlotItem.serializeAttr sampleHeader ++ [0])
        (Item.construct sampleHeader 1 0)
      = some (true, [], (Item.construct sampleHeader 1 0).setIntAttr sampleHeader
          (sampleHeader.mask .ITEM_ATTRIBUTE_SLOT1) 5) ∧
    sampleSlotItem.hasAttribute (sampleHeader.mask .ITEM_ATTRIBUTE_SLOT2) = true ∧
    ((Item.construct sampleHeader 1 0).setIntAttr sampleHeader
        (sampleHeader.mask .ITEM_ATTRIBUTE_SLOT1) 5).hasAttribute
        (sampleHeader.mask .ITEM_ATTRIBUTE_SLOT2) = false := by
  decide

theorem slip_tags_not_covered :
    intTagOK .ITEM_ATTRIBUTE_SLOT1 = false ∧ intTagOK .ITEM_ATTRIBUTE_SLOT2 = false ∧
    intTagOK .ITEM_ATTRIBUTE_UPGRADE = false := by
  decide


/-! ### The decoder: the container-contents tag, payload widths, failure -/

/-- C11 (amended): the container-contents tag has a case of its own in
readAttr, but that case only fails: readAttr returns ATTR_READ_ERROR without
consuming a byte or touching the item, and unserializeAttr returns false. -/
theorem container_items_rejected (H : Header) (b : Nat) (p : List Nat) (item : Item)
    (hb : b < 256) (hb0 : b ≠ 0) (ha : H.attrOf b = some .ATTR_CONTAINER_ITEMS) :
    Item.readAttr H b p item = (.ATTR_READ_ERROR, p, item) ∧
    Item.unserializeAttr H (b :: p) item = some (false, p, item) := by
  have hr : Item.readAttr H b p item = (.ATTR_READ_ERROR, p, item) := by
    simp [Item.readAttr, ha, readCase, ReadCase.run]
  refine ⟨hr, ?_⟩
  rw [unserializeAttr_cons H b p item hb hb0, hr]

theorem container_items_rejected_witness :
    sampleHeader.attrOf 67 = some .ATTR_CONTAINER_ITEMS ∧
    Item.readAttr sampleHeader 67 [1, 2, 3, 4] { id := 1 }
      = (.ATTR_READ_ERROR, [1, 2, 3, 4], { id := 1 }) ∧
    Item.unserializeAttr sampleHeader (67 :: [1, 2, 3, 4]) { id := 1 }
      = some (false, [1, 2, 3, 4], { id := 1 }) :=
  ⟨by decide,
   container_items_rejected sampleHeader 67 [1, 2, 3, 4] { id := 1 } (by decide) (by decide)
     (by decide)⟩

/-- C11, as stated, fails: a container-contents record followed by a defense
record and the sentinel is not skipped; decoding stops with false at the
container-contents tag and the defense record is never applied. -/
theorem container_items_counterexample :
    sampleHeader.attrOf 67 = some .ATTR_CONTAINER_ITEMS ∧
    Item.unserializeAttr sampleHeader [67, 0, 0, 0, 0, 17, 7, 0, 0, 0, 0, 0, 0, 0, 0]
        { id := 1 }
      = some (false, [0, 0, 0, 0, 17, 7, 0, 0, 0, 0, 0, 0, 0, 0], { id := 1 }) := by
  decide

theorem decoderWidths_table :
    decoderWidths.all (fun e => (readCase e.1).fixedWidth == some e.2) = true := by decide

theorem run_consumes (H : Header) (c : ReadCase) (w : Nat) (p rest : List Nat)
    (item item2 : Item) (hw : c.fixedWidth = some w)
    (h : c.run H p item = (.ATTR_READ_CONTINUE, rest, item2)) :
    ∃ payload, p = payload ++ rest ∧ payload.length = w := by
  have hread : ∀ f : Nat → Item, readFixed w p item f = (.ATTR_READ_CONTINUE, rest, item2) →
      ∃ payload, p = payload ++ rest ∧ payload.length = w := by
    intro f hf
    unfold readFixed PropStream.read at hf
    by_cases hl : p.length < w
    · simp [hl] at hf
    · simp only [hl, if_false, Prod.mk.injEq, true_and] at hf
      refine ⟨p.take w, ?_, ?_⟩
      · rw [← hf.1, List.take_append_drop]
      · rw [List.length_take]; omega
  cases c <;> simp only [ReadCase.fixedWidth, Option.some.injEq, reduceCtorEq] at hw <;>
    subst hw <;> simp only [ReadCase.run] at h
  case skip n =>
    unfold PropStream.skip at h
    by_cases hl : p.length < n
    · simp [hl] at h
    · simp only [hl, if_false, Prod.mk.injEq, true_and] at h
      refine ⟨p.take n, ?_, ?_⟩
      · rw [← h.1, List.take_append_drop]
      · rw [List.length_take]; omega
  all_goals exact hread _ h

/-- C12 (amended): fixed payload widths of the decoder. For every tag of the
table `decoderWidths` (one byte for count, rune charges and decay state; two
bytes for charges, action id and unique id; four bytes for duration, written
date, attack and weight; eight bytes for every other integer stat), readAttr
returns ATTR_READ_CONTINUE whenever that many payload bytes are there, leaving
the bytes behind them, and whenever it returns ATTR_READ_CONTINUE it has
consumed exactly that many bytes. -/
theorem decoder_widths (H : Header) (b : Nat) (a : AttrTypes_t) (w : Nat) (item : Item)
    (ha : H.attrOf b = some a) (hw : (a, w) ∈ decoderWidths) :
    (∀ payload tail : List Nat, payload.length = w →
      (Item.readAttr H b (payload ++ tail) item).1 = .ATTR_READ_CONTINUE ∧
      (Item.readAttr H b (payload ++ tail) item).2.1 = tail) ∧
    (∀ (p rest : List Nat) (item2 : Item),
      Item.readAttr H b p item = (.ATTR_READ_CONTINUE, rest, item2) →
      ∃ payload, p = payload ++ rest ∧ payload.length = w) := by
  have hfw : (readCase a).fixedWidth = some w := by
    have := List.all_eq_true.mp decoderWidths_table (a, w) hw
    simpa using this
  refine ⟨?_, ?_⟩
  · intro payload tail hlen
    have hok : (readCase a).payloadOK H payload := by
      cases hc : readCase a <;> rw [hc] at hfw <;>
        simp only [ReadCase.fixedWidth, Option.some.injEq, reduceCtorEq] at hfw <;>
        simp [ReadCase.payloadOK, ReadCase.fixedWidth, hfw, hlen]
    have := run_append H (readCase a) payload hok tail item
    simp only [Item.readAttr, ha, this, and_self]
  · intro p rest item2 h
    simp only [Item.readAttr, ha] at h
    exact run_consumes H _ w p rest item item2 hfw h

theorem decoder_widths_witness :
    sampleHeader.attrOf 9 = some .ATTR_CHARGES ∧
    (AttrTypes_t.ATTR_CHARGES, 2) ∈ decoderWidths ∧
    (Item.readAttr sampleHeader 9 ([5, 0] ++ [7]) { id := 4 }).1 = .ATTR_READ_CONTINUE ∧
    (Item.readAttr sampleHeader 9 ([5, 0] ++ [7]) { id := 4 }).2.1 = [7] :=
  ⟨by decide, by decide,
   (decoder_widths sampleHeader 9 .ATTR_CHARGES 2 { id := 4 } (by decide) (by decide)).1
     [5, 0] [7] rfl⟩

/-- C12, as stated, fails at the charges tag: readAttr reads the charges as a
16-bit value. With one payload byte it fails, and on success it has consumed
two bytes, not one. -/
theorem decoder_widths_counterexample :
    sampleHeader.attrOf 9 = some .ATTR_CHARGES ∧
    (Item.readAttr sampleHeader 9 [5] { id := 4 }).1 = .ATTR_READ_ERROR ∧
    (Item.readAttr sampleHeader 9 [5, 0, 7] { id := 4 }).1 = .ATTR_READ_CONTINUE ∧
    (Item.readAttr sampleHeader 9 [5, 0, 7] { id := 4 }).2.1 = [7] := by
  decide

/-! ### The decoder: no rollback -/

theorem unserializeAttr_after_records (H : Header) (records : List AttrRecord) (tail : List Nat)
    (item : Item) (hwf : ∀ r ∈ records, r.WF H) :
    Item.unserializeAttr H ((records.map AttrRecord.bytes).flatten ++ tail) item
      = Item.unserializeAttr H tail (records.foldl (Item.applyRecord H) item) := by
  induction records generalizing item with
  | nil => rfl
  | cons r rest ih =>
    have hr := hwf r (List.mem_cons_self _ _)
    have hrest := ih (item.applyRecord H r) (fun x hx => hwf x (List.mem_cons_of_mem _ hx))
    simp only [List.map_cons, List.flatten_cons, AttrRecord.bytes, List.cons_append,
      List.append_assoc, List.foldl_cons] at hrest ⊢
    rw [unserializeAttr_cons H r.tag _ item hr.byte hr.nonzero, readAttr_append H r hr]
    exact hrest

theorem readCustomAttributes_item (H : Header) (size : Nat) (p : List Nat) (item : Item) :
    ∃ entries : List (List Nat × CustomAttribute),
      (readCustomAttributes H size p item).2.2
        = entries.foldl (fun i e => i.setCustomAttribute H e.1 e.2) item := by
  induction size generalizing p item with
  | zero => exact ⟨[], rfl⟩
  | succ n ih =>
    unfold readCustomAttributes
    cases PropStream.readString H.strLenBytes p with
    | none => exact ⟨[], rfl⟩
    | some r =>
      obtain ⟨key, p1⟩ := r
      dsimp only
      cases CustomAttribute.unserialize H p1 with
      | none => exact ⟨[], rfl⟩
      | some r2 =>
        obtain ⟨val, p2⟩ := r2
        obtain ⟨entries, he⟩ := ih p2 (item.setCustomAttribute H key val)
        exact ⟨(key, val) :: entries, by rw [he]; rfl⟩

theorem run_error_item (H : Header) (c : ReadCase) (p : List Nat) (item : Item)
    (hc : c ≠ .customAttributes) (h : (c.run H p item).1 = .ATTR_READ_ERROR) :
    (c.run H p item).2.2 = item := by
  have hfixed : ∀ (w : Nat) (f : Nat → Item), (readFixed w p item f).1 = .ATTR_READ_ERROR →
      (readFixed w p item f).2.2 = item := by
    intro w f hf
    unfold readFixed at hf ⊢
    cases hr : PropStream.read w p with
    | none => rfl
    | some r => simp [hr] at hf
  have htext : ∀ f : List Nat → Item, (readText H p item f).1 = .ATTR_READ_ERROR →
      (readText H p item f).2.2 = item := by
    intro f hf
    unfold readText at hf ⊢
    cases hr : PropStream.readString H.strLenBytes p with
    | none => rfl
    | some r => simp [hr] at hf
  cases c <;> simp only [ReadCase.run] at h ⊢
  case customAttributes => exact absurd rfl hc
  case skip n =>
    cases hs : PropStream.skip n p with
    | none => rfl
    | some rest => simp [hs] at h
  all_goals first | exact hfixed _ _ h | exact htext _ h

theorem readCustomAttributes_error (H : Header) (size : Nat) (p : List Nat) (item : Item)
    (h : (readCustomAttributes H size p item).1 = .ATTR_READ_ERROR) :
    ∃ (entries : List (List Nat × CustomAttribute)) (rest : List Nat),
      entries.length < size ∧ readsCustomEntries H entries p = some rest ∧
      customEntryFails H rest = true ∧
      (readCustomAttributes H size p item).2.2
        = entries.foldl (fun i e => i.setCustomAttribute H e.1 e.2) item := by
  induction size generalizing p item with
  | zero => simp [readCustomAttributes] at h
  | succ n ih =>
    unfold readCustomAttributes at h ⊢
    cases hr : PropStream.readString H.strLenBytes p with
    | none =>
      exact ⟨[], p, Nat.succ_pos n, rfl, by simp [customEntryFails, hr], rfl⟩
    | some r =>
      obtain ⟨key, p1⟩ := r
      rw [hr] at h
      dsimp only at h ⊢
      cases hu : CustomAttribute.unserialize H p1 with
      | none =>
        exact ⟨[], p, Nat.succ_pos n, rfl, by simp [customEntryFails, hr, hu], rfl⟩
      | some r2 =>
        obtain ⟨val, p2⟩ := r2
        rw [hu] at h
        dsimp only at h ⊢
        obtain ⟨entries, rest, hlen, hreads, hfails, hitem⟩ :=
          ih p2 (item.setCustomAttribute H key val) h
        refine ⟨(key, val) :: entries, rest, by simp; omega, ?_, hfails, ?_⟩
        · simp [readsCustomEntries, hr, hu, hreads]
        · rw [hitem]; rfl

theorem readsCustomEntries_unique (H : Header) (e1 e2 : List (List Nat × CustomAttribute))
    (p r1 r2 : List Nat)
    (h1 : readsCustomEntries H e1 p = some r1) (f1 : customEntryFails H r1 = true)
    (h2 : readsCustomEntries H e2 p = some r2) (f2 : customEntryFails H r2 = true) :
    e1 = e2 := by
  induction e1 generalizing e2 p with
  | nil =>
    cases e2 with
    | nil => rfl
    | cons x t =>
      obtain ⟨k, v⟩ := x
      simp only [readsCustomEntries, Option.some.injEq] at h1
      subst h1
      unfold readsCustomEntries at h2
      unfold customEntryFails at f1
      cases hr : PropStream.readString H.strLenBytes p with
      | none => rw [hr] at h2; cases h2
      | some r =>
        obtain ⟨k2, p1⟩ := r
        rw [hr] at h2 f1
        dsimp only at h2 f1
        cases hu : CustomAttribute.unserialize H p1 with
        | none => rw [hu] at h2; cases h2
        | some r3 => rw [hu] at f1; simp at f1
  | cons x t ih =>
    obtain ⟨k, v⟩ := x
    unfold readsCustomEntries at h1
    cases hr : PropStream.readString H.strLenBytes p with
    | none => rw [hr] at h1; cases h1
    | some r =>
      obtain ⟨k1, p1⟩ := r
      rw [hr] at h1
      dsimp only at h1
      cases hu : CustomAttribute.unserialize H p1 with
      | none => rw [hu] at h1; cases h1
      | some r3 =>
        obtain ⟨v1, p2⟩ := r3
        rw [hu] at h1
        dsimp only at h1
        by_cases hkv : k1 = k ∧ v1 = v
        · rw [if_pos hkv] at h1
          cases e2 with
          | nil =>
            simp only [readsCustomEntries, Option.some.injEq] at h2
            subst h2
            unfold customEntryFails at f2
            rw [hr] at f2
            dsimp only at f2
            rw [hu] at f2
            simp at f2
          | cons y t2 =>
            obtain ⟨k2, v2⟩ := y
            unfold readsCustomEntries at h2
            rw [hr] at h2
            dsimp only at h2
            rw [hu] at h2
            dsimp only at h2
            by_cases hkv2 : k1 = k2 ∧ v1 = v2
            · rw [if_pos hkv2] at h2
              have := ih t2 p2 h1 h2
              rw [this, ← hkv.1, ← hkv.2, ← hkv2.1, ← hkv2.2]
            · rw [if_neg hkv2] at h2
              cases h2
        · rw [if_neg hkv] at h1
          cases h1

/-- C13 (amended): no rollback on failure. When unserializeAttr has read the
well-formed records r1 ... rk and readAttr then fails on the next record, it
returns false, and the item is the one that the failing readAttr call left
behind, starting from the item after r1 ... rk. For every tag but the
custom-attribute tag that is exactly the item after r1 ... rk. For the
custom-attribute tag it is that item when the entry count cannot be read,
and otherwise that item with the custom entries decoded before the failure
set on top, in order: these are fewer entries than the count read, the
payload behind the count begins with exactly them, and no further entry can be
read behind them. -/
theorem no_rollback (H : Header) (records : List AttrRecord) (b : Nat) (p : List Nat)
    (item : Item) (hwf : ∀ r ∈ records, r.WF H) (hb : b < 256) (hb0 : b ≠ 0)
    (hfail : (Item.readAttr H b p (records.foldl (Item.applyRecord H) item)).1
      = .ATTR_READ_ERROR) :
    ∃ (p2 : List Nat) (item2 : Item),
      Item.unserializeAttr H ((records.map AttrRecord.bytes).flatten ++ b :: p) item
        = some (false, p2, item2) ∧
      (H.attrOf b ≠ some .ATTR_CUSTOM_ATTRIBUTES →
        item2 = records.foldl (Item.applyRecord H) item) ∧
      (H.attrOf b = some .ATTR_CUSTOM_ATTRIBUTES →
        (p.length < 8 ∧ item2 = records.foldl (Item.applyRecord H) item) ∨
        (8 ≤ p.length ∧
          ∃ (entries : List (List Nat × CustomAttribute)) (rest : List Nat),
            entries.length < leValue (p.take 8) ∧
            readsCustomEntries H entries (p.drop 8) = some rest ∧
            customEntryFails H rest = true ∧
            item2 = entries.foldl (fun i e => i.setCustomAttribute H e.1 e.2)
              (records.foldl (Item.applyRecord H) item))) := by
  rw [unserializeAttr_after_records H records _ item hwf,
    unserializeAttr_cons H b p _ hb hb0]
  rcases hres : Item.readAttr H b p (records.foldl (Item.applyRecord H) item)
    with ⟨res, p2, item2⟩
  rw [hres] at hfail
  simp only at hfail
  subst hfail
  have h2 : (Item.readAttr H b p (records.foldl (Item.applyRecord H) item)).2.2 = item2 := by
    rw [hres]
  have h1 : (Item.readAttr H b p (records.foldl (Item.applyRecord H) item)).1
      = .ATTR_READ_ERROR := by
    rw [hres]
  refine ⟨p2, item2, rfl, ?_, ?_⟩
  · intro hne
    rw [← h2]
    unfold Item.readAttr at hres ⊢
    cases ha : H.attrOf b with
    | none => rfl
    | some a =>
      rw [ha] at hres
      simp only at hres ⊢
      apply run_error_item
      · intro hc
        apply hne
        rw [ha]
        cases a <;> simp [readCase] at hc
        rfl
      · rw [hres]
  · intro ha
    rw [← h2]
    unfold Item.readAttr at h1 ⊢
    rw [ha] at h1 ⊢
    simp only [readCase, ReadCase.run] at h1 ⊢
    unfold PropStream.read at h1 ⊢
    by_cases hlen : p.length < 8
    · rw [if_pos hlen]
      exact Or.inl ⟨hlen, rfl⟩
    · rw [if_neg hlen] at h1 ⊢
      simp only at h1 ⊢
      obtain ⟨entries, rest, hl, hreads, hfails, hitem⟩ :=
        readCustomAttributes_error H _ _ _ h1
      exact Or.inr ⟨by omega, entries, rest, hl, hreads, hfails, hitem⟩

theorem no_rollback_witness :
    (∀ r ∈ sampleRecords, r.WF sampleHeader) ∧
    (∃ (p2 : List Nat) (item2 : Item),
      Item.unserializeAttr sampleHeader
          ((sampleRecords.map AttrRecord.bytes).flatten ++ 17 :: [1, 2, 3]) { id := 1 }
        = some (false, p2, item2) ∧
      item2 = sampleRecords.foldl (Item.applyRecord sampleHeader) { id := 1 }) ∧
    (∃ (p2 : List Nat) (item2 : Item),
      Item.unserializeAttr sampleHeader [68, 2, 0, 0, 0, 0, 0, 0, 0, 1, 0, 97, 4, 1] { id := 1 }
        = some (false, p2, item2) ∧
      item2 = Item.setCustomAttribute sampleHeader { id := 1 } [97]
        (CustomAttribute.boolean true)) := by
  refine ⟨sampleRecords_WF, ?_, ?_⟩
  · obtain ⟨p2, item2, h1, h2, -⟩ :=
      no_rollback sampleHeader sampleRecords 17 [1, 2, 3] { id := 1 } sampleRecords_WF
        (by decide) (by decide) (by decide)
    exact ⟨p2, item2, h1, h2 (by decide)⟩
  · obtain ⟨p2, item2, h1, -, h3⟩ :=
      no_rollback sampleHeader [] 68 [2, 0, 0, 0, 0, 0, 0, 0, 1, 0, 97, 4, 1] { id := 1 }
        (fun r hr => by cases hr) (by decide) (by decide) (by decide)
    rcases h3 (by decide) with ⟨hlt, -⟩ | ⟨-, entries, rest, -, hreads, hfails, hitem⟩
    · exact absurd hlt (by decide)
    · have he := readsCustomEntries_unique sampleHeader entries
        [([97], CustomAttribute.boolean true)] [1, 0, 97, 4, 1] rest [] hreads hfails
        (by decide) (by decide)
      subst he
      exact ⟨p2, item2, h1, hitem⟩

/-- C13, as stated, fails for a custom-attribute record that breaks off after
its first entry: unserializeAttr returns false, but the item keeps the custom
attribute of that first entry, so it is not the item after the records read
before (here none, the item as it was). -/
theorem no_rollback_counterexample :
    sampleHeader.attrOf 68 = some .ATTR_CUSTOM_ATTRIBUTES ∧
    Item.unserializeAttr sampleHeader [68, 2, 0, 0, 0, 0, 0, 0, 0, 1, 0, 97, 4, 1] { id := 1 }
      = some (false, [], Item.setCustomAttribute sampleHeader { id := 1 } [97]
          (CustomAttribute.boolean true)) ∧
    Item.setCustomAttribute sampleHeader { id := 1 } [97] (CustomAttribute.boolean true)
      ≠ { id := 1 } := by
  decide

/-- On the payload of the counterexample the entries decoded before the
failure are pinned: the first entry is read, nothing can be read behind it,
and the empty list of entries is ruled out because an entry can be read at the
start of the payload. -/
theorem partial_entries_pinned :
    readsCustomEntries sampleHeader [([97], CustomAttribute.boolean true)] [1, 0, 97, 4, 1]
      = some [] ∧
    customEntryFails sampleHeader [] = true ∧
    readsCustomEntries sampleHeader [] [1, 0, 97, 4, 1] = some [1, 0, 97, 4, 1] ∧
    customEntryFails sampleHeader [1, 0, 97, 4, 1] = false := by
  decide

/-! ### The encoder: what is written, and when -/

theorem Item.getIntAttr_of_not_has (H : Header) (item : Item) (type : Nat)
    (h : item.hasAttribute type = false) : item.getIntAttr H type = 0 := by
  unfold Item.getIntAttr
  unfold Item.hasAttribute at h
  cases hs : item.attributes with
  | none => rfl
  | some s =>
    rw [hs] at h
    simp only at h ⊢
    unfold ItemAttributes.getIntAttr ItemAttributes.getExistingAttr
    rw [h]
    simp

theorem Item.getStrAttr_of_not_has (H : Header) (item : Item) (type : Nat)
    (h : item.hasAttribute type = false) : item.getStrAttr H type = [] := by
  unfold Item.getStrAttr
  unfold Item.hasAttribute at h
  cases hs : item.attributes with
  | none => rfl
  | some s =>
    rw [hs] at h
    simp only at h ⊢
    unfold ItemAttributes.getStrAttr ItemAttributes.getExistingAttr
    rw [h]
    simp

theorem payload_of_no_attribute (H : Header) (item : Item) (step : WriteStep)
    (hT : H.DECAYING_TRUE ≠ 0) (hP : H.DECAYING_PENDING ≠ 0)
    (hnone : ∀ t, item.hasAttribute (H.mask t) = false) (hstep : step ≠ .count) :
    step.payload H item = none := by
  cases step with
  | count => exact absurd rfl hstep
  | charges =>
    simp [WriteStep.payload, Item.getCharges, Item.getIntAttr_of_not_has H item _ (hnone _)]
  | actionId =>
    simp [WriteStep.payload, Item.getActionId, Item.getIntAttr_of_not_has H item _ (hnone _)]
  | text =>
    simp [WriteStep.payload, Item.getText, Item.getStrAttr_of_not_has H item _ (hnone _)]
  | writtenDate =>
    simp [WriteStep.payload, Item.getDate, Item.getIntAttr_of_not_has H item _ (hnone _)]
  | writtenBy =>
    simp [WriteStep.payload, Item.getWriter, Item.getStrAttr_of_not_has H item _ (hnone _)]
  | desc =>
    simp [WriteStep.payload, Item.getSpecialDescription,
      Item.getStrAttr_of_not_has H item _ (hnone _)]
  | decayingState =>
    simp [WriteStep.payload, Item.getDecaying, Item.getIntAttr_of_not_has H item _ (hnone _),
      Ne.symm hT, Ne.symm hP]
  | strAttr type attr => simp [WriteStep.payload, hnone type]
  | intAttr type attr width => simp [WriteStep.payload, hnone type]
  | customAttributes => simp [WriteStep.payload, hnone _]

/-- C14 (amended): default suppression. For an item on which no attribute is
set, serializeAttr writes exactly the count record (the tag ATTR_COUNT and one
byte holding getSubType) when the type is stackable, a fluid container or a
splash, and no byte at all for every other type. -/
theorem default_suppression (H : Header) (item : Item)
    (hT : H.DECAYING_TRUE ≠ 0) (hP : H.DECAYING_PENDING ≠ 0)
    (hnone : ∀ t, item.hasAttribute (H.mask t) = false) :
    item.serializeAttr H =
      if (H.items item.id).stackable || (H.items item.id).isFluidContainer
          || (H.items item.id).isSplash then
        PropWriteStream.write 1 (H.attrByte .ATTR_COUNT)
          ++ PropWriteStream.write 1 (item.getSubType H)
      else [] := by
  have hrest : ∀ steps : List WriteStep, (∀ s ∈ steps, s ≠ WriteStep.count) →
      (steps.map (WriteStep.bytes H item)).flatten = [] := by
    intro steps hs
    induction steps with
    | nil => rfl
    | cons s rest ih =>
      have h1 := payload_of_no_attribute H item s hT hP hnone (hs s (List.mem_cons_self _ _))
      simp only [List.map_cons, List.flatten_cons, WriteStep.bytes, h1, List.nil_append]
      exact ih (fun x hx => hs x (List.mem_cons_of_mem _ hx))
  have hsteps : serializeSteps = WriteStep.count :: serializeSteps.tail := rfl
  have htail : ∀ s ∈ serializeSteps.tail, s ≠ WriteStep.count := by decide
  unfold Item.serializeAttr
  rw [hsteps, List.map_cons, List.flatten_cons, hrest _ htail, List.append_nil]
  unfold WriteStep.bytes
  simp only [WriteStep.payload, WriteStep.attr]
  by_cases hc : ((H.items item.id).stackable || (H.items item.id).isFluidContainer
      || (H.items item.id).isSplash) = true
  · rw [if_pos hc, if_pos hc]
  · rw [if_neg hc, if_neg hc]

theorem default_suppression_witness :
    Item.serializeAttr sampleHeader { id := 1 } = [] ∧
    Item.serializeAttr sampleHeader { id := 2 } = [1, 1] := by
  have h1 := default_suppression sampleHeader { id := 1 } (by decide) (by decide)
    (fun t => rfl)
  have h2 := default_suppression sampleHeader { id := 2 } (by decide) (by decide)
    (fun t => rfl)
  exact ⟨h1, h2⟩

/-- C14, as stated, fails for a stackable type: an item of such a type with no
attribute set and the count at its default of 1 is written as the count
record, two bytes. -/
theorem default_suppression_counterexample :
    (sampleHeader.items 2).stackable = true ∧
    ({ id := 2 } : Item).attributes = none ∧ ({ id := 2 } : Item).count = 1 ∧
    Item.construct sampleHeader 2 0 = { id := 2 } ∧
    Item.serializeAttr sampleHeader { id := 2 } = [1, 1] := by
  decide

theorem actionId_step : ∀ s ∈ serializeSteps, s.attr = .ATTR_ACTION_ID → s = .actionId := by
  decide

theorem text_step : ∀ s ∈ serializeSteps, s.attr = .ATTR_TEXT → s = .text := by
  decide

theorem mem_emitted (H : Header) (item : Item) (a : AttrTypes_t) (p : List Nat) :
    (a, p) ∈ item.emitted H ↔ ∃ s ∈ serializeSteps, s.attr = a ∧ s.payload H item = some p := by
  unfold Item.emitted
  rw [List.mem_filterMap]
  constructor
  · rintro ⟨s, hs, hsp⟩
    obtain ⟨q, hq, he⟩ := Option.map_eq_some'.mp hsp
    simp only [Prod.mk.injEq] at he
    exact ⟨s, hs, he.1, by rw [hq, he.2]⟩
  · rintro ⟨s, hs, ha, hp⟩
    exact ⟨s, hs, by rw [hp, ← ha]; rfl⟩

/-- C15 (amended): presence-driven emission. The bytes serializeAttr writes
are its emitted records, one after another. Among them there is an action-id
record if and only if the type of the item is moveable and the action id of
the item is not 0, and that record carries the action id in two bytes; there is
a text record if and only if the text of the item is not empty, and that record
carries the text as a string. So a zero action id or an empty text is never
written, and a non-zero action id is written for moveable types only. -/
theorem presence_driven_emission (H : Header) (item : Item) (hH : H.WF) :
    item.serializeAttr H
      = ((item.emitted H).map (fun e => H.attrByte e.1 :: e.2)).flatten ∧
    (∀ p, (AttrTypes_t.ATTR_ACTION_ID, p) ∈ item.emitted H ↔
      ((H.items item.id).moveable = true ∧ item.getActionId H ≠ 0 ∧
        p = PropWriteStream.write 2 (item.getActionId H))) ∧
    (∀ p, (AttrTypes_t.ATTR_TEXT, p) ∈ item.emitted H ↔
      (item.getText H ≠ [] ∧
        p = PropWriteStream.writeString H.strLenBytes (item.getText H))) := by
  refine ⟨?_, ?_, ?_⟩
  · rw [serializeAttr_eq hH, List.map_map]
    rfl
  · intro p
    rw [mem_emitted]
    constructor
    · rintro ⟨s, hs, ha, hp⟩
      have := actionId_step s hs ha
      subst this
      simp only [WriteStep.payload] at hp
      by_cases hm : (H.items item.id).moveable = true
      · rw [if_pos hm] at hp
        by_cases h0 : item.getActionId H = 0
        · simp [h0] at hp
        · simp [h0] at hp
          exact ⟨hm, h0, hp.symm⟩
      · rw [if_neg hm] at hp
        cases hp
    · rintro ⟨hm, h0, rfl⟩
      exact ⟨.actionId, by decide, rfl, by simp [WriteStep.payload, hm, h0]⟩
  · intro p
    rw [mem_emitted]
    constructor
    · rintro ⟨s, hs, ha, hp⟩
      have := text_step s hs ha
      subst this
      simp only [WriteStep.payload] at hp
      by_cases h0 : item.getText H = []
      · simp [h0] at hp
      · simp [h0] at hp
        exact ⟨h0, hp.symm⟩
    · rintro ⟨h0, rfl⟩
      exact ⟨.text, by decide, rfl, by simp [WriteStep.payload, h0]⟩

theorem presence_driven_emission_witness :
    sampleHeader.WF ∧
    (AttrTypes_t.ATTR_ACTION_ID, [232, 3]) ∈ sampleItem.emitted sampleHeader :=
  ⟨sampleHeader_WF,
    ((presence_driven_emission sampleHeader sampleItem sampleHeader_WF).2.1 [232, 3]).mpr
      (by decide)⟩

/-- C15, as stated, fails for a type that is not moveable: the item of the
immovable type 3 with the action id 1000 is written without an action-id
record (here, without any byte). -/
theorem presence_driven_emission_counterexample :
    (sampleHeader.items 3).moveable = false ∧
    sampleImmovable.getActionId sampleHeader = 1000 ∧
    sampleImmovable.emitted sampleHeader = [] ∧
    sampleImmovable.serializeAttr sampleHeader = [] := by
  decide

/-! ### The encoder: insertion order -/

theorem find_type_perm {l1 l2 : List Attribute} (hp : l1.Perm l2)
    (hn : (l1.map (fun a => a.type)).Nodup) (type : Nat) :
    l1.find? (fun b => b.type == type) = l2.find? (fun b => b.type == type) := by
  have hn2 : (l2.map (fun a => a.type)).Nodup := (hp.map _).nodup_iff.mp hn
  by_cases h : ∃ a ∈ l1, a.type = type
  · obtain ⟨a, ha, rfl⟩ := h
    rw [find_type_of_nodup hn ha, find_type_of_nodup hn2 (hp.mem_iff.mp ha)]
  · have h1 : ∀ a ∈ l1, a.type ≠ type := fun a ha hat => h ⟨a, ha, hat⟩
    have h2 : ∀ a ∈ l2, a.type ≠ type := fun a ha => h1 a (hp.mem_iff.mpr ha)
    rw [find_type_none h1, find_type_none h2]

theorem bits_of_perm {s t : ItemAttributes} (hs : s.WF) (ht : t.WF)
    (hp : s.attributes.Perm t.attributes) : s.attributeBits = t.attributeBits := by
  apply Nat.eq_of_testBit_eq
  intro k
  have h1 := hs.bits k
  have h2 := ht.bits k
  have h3 : (∃ a ∈ s.attributes, a.type = 2 ^ k) ↔ (∃ a ∈ t.attributes, a.type = 2 ^ k) :=
    ⟨fun ⟨a, ha, hat⟩ => ⟨a, hp.mem_iff.mp ha, hat⟩,
     fun ⟨a, ha, hat⟩ => ⟨a, hp.mem_iff.mpr ha, hat⟩⟩
  cases hb1 : s.attributeBits.testBit k <;> cases hb2 : t.attributeBits.testBit k
  · rfl
  · exact absurd (h1.mpr (h3.mpr (h2.mp hb2))) (by simp [hb1])
  · exact absurd (h2.mpr (h3.mp (h1.mp hb1))) (by simp [hb2])
  · rfl

theorem getExistingAttr_perm {s t : ItemAttributes} (hs : s.WF) (ht : t.WF)
    (hp : s.attributes.Perm t.attributes) (type : Nat) :
    s.getExistingAttr type = t.getExistingAttr type := by
  unfold ItemAttributes.getExistingAttr ItemAttributes.hasAttribute
  rw [bits_of_perm hs ht hp, find_type_perm hp hs.nodup type]

theorem payload_congr (H : Header) (x y : Item) (hid : x.id = y.id) (hcount : x.count = y.count)
    (hhas : ∀ type, x.hasAttribute type = y.hasAttribute type)
    (hint : ∀ type, x.getIntAttr H type = y.getIntAttr H type)
    (hstr : ∀ type, x.getStrAttr H type = y.getStrAttr H type)
    (hcustom : x.getAttributes.customAttributes = y.getAttributes.customAttributes)
    (step : WriteStep) : step.payload H x = step.payload H y := by
  cases step <;>
    simp only [WriteStep.payload, Item.getSubType, Item.getFluidType, Item.getCharges,
      Item.getActionId, Item.getText, Item.getDate, Item.getWriter,
      Item.getSpecialDescription, Item.getDecaying, hid, hcount, hhas, hint, hstr, hcustom]

/-- C16: the encoding does not depend on the insertion order. Two items of
the same type and count, with well-formed stores whose entry lists are
permutations of each other and with no custom attributes, are written by
serializeAttr as the same bytes. -/
theorem encoding_order_independent (H : Header) (x y : Item) (hx : x.WF) (hy : y.WF)
    (hid : x.id = y.id) (hcount : x.count = y.count)
    (hperm : x.getAttributes.attributes.Perm y.getAttributes.attributes)
    (hcx : x.getAttributes.customAttributes = [])
    (hcy : y.getAttributes.customAttributes = []) :
    x.serializeAttr H = y.serializeAttr H := by
  have hbits := bits_of_perm hx hy hperm
  have hlook := getExistingAttr_perm hx hy hperm
  have hhas : ∀ type, x.hasAttribute type = y.hasAttribute type := by
    intro type
    rw [Item.hasAttribute_eq, Item.hasAttribute_eq]
    unfold ItemAttributes.hasAttribute
    rw [hbits]
  have hint : ∀ type, x.getIntAttr H type = y.getIntAttr H type := by
    intro type
    rw [Item.getIntAttr_eq, Item.getIntAttr_eq]
    unfold ItemAttributes.getIntAttr
    rw [hlook]
  have hstr : ∀ type, x.getStrAttr H type = y.getStrAttr H type := by
    intro type
    rw [Item.getStrAttr_eq, Item.getStrAttr_eq]
    unfold ItemAttributes.getStrAttr
    rw [hlook]
  have hpay := payload_congr H x y hid hcount hhas hint hstr (hcx.trans hcy.symm)
  unfold Item.serializeAttr
  congr 1
  apply List.map_congr_left
  intro step _
  unfold WriteStep.bytes
  rw [hpay step]

theorem sampleOrderA_WF : sampleOrderA.WF :=
  (Frame_setStrAttr sampleHeader_WF (List.mem_singleton.mpr rfl) _ _
    ((Frame_setIntAttr sampleHeader_WF (List.mem_singleton.mpr rfl) _ _
      (construct_WF sampleHeader_WF 2 5)).1)).1

theorem sampleOrderB_WF : sampleOrderB.WF :=
  (Frame_setIntAttr sampleHeader_WF (List.mem_singleton.mpr rfl) _ _
    ((Frame_setStrAttr sampleHeader_WF (List.mem_singleton.mpr rfl) _ _
      (construct_WF sampleHeader_WF 2 5)).1)).1

theorem sampleOrder_perm :
    sampleOrderA.getAttributes.attributes.Perm sampleOrderB.getAttributes.attributes :=
  List.Perm.swap _ _ []

theorem encoding_order_independent_witness :
    sampleOrderA.getAttributes.attributes ≠ sampleOrderB.getAttributes.attributes ∧
    sampleOrderA.serializeAttr sampleHeader = sampleOrderB.serializeAttr sampleHeader :=
  ⟨by decide,
    encoding_order_independent sampleHeader sampleOrderA sampleOrderB sampleOrderA_WF
      sampleOrderB_WF rfl rfl sampleOrder_perm rfl rfl⟩

/-! ### Equality of items -/

theorem attributesMatch_iff (K : AttrKinds) (l1 l2 : List Attribute) :
    attributesMatch K l1 l2 = true ↔
      ∀ a ∈ l1, ∀ b ∈ l2, a.type = b.type →
        if K.isStrAttrType a.type = true then a.value.asString = b.value.asString
        else a.value.asInteger = b.value.asInteger := by
  unfold attributesMatch
  rw [List.all_eq_true]
  constructor
  · intro h a ha b hb hab
    have h1 := h a ha
    by_cases hs : K.isStrAttrType a.type = true
    · rw [if_pos hs] at h1 ⊢
      have h2 := List.all_eq_true.mp h1 b hb
      simpa [hab] using h2
    · rw [if_neg hs] at h1 ⊢
      have h2 := List.all_eq_true.mp h1 b hb
      simpa [hab] using h2
  · intro h a ha
    by_cases hs : K.isStrAttrType a.type = true
    · rw [if_pos hs, List.all_eq_true]
      intro b hb
      have h1 := h a ha b hb
      by_cases hab : a.type = b.type
      · have h2 := h1 hab
        rw [if_pos hs] at h2
        simp [h2]
      · simp [hab]
    · rw [if_neg hs, List.all_eq_true]
      intro b hb
      have h1 := h a ha b hb
      by_cases hab : a.type = b.type
      · have h2 := h1 hab
        rw [if_neg hs] at h2
        simp [h2]
      · simp [hab]

theorem equals_iff (H : Header) (x y : Item) :
    x.equals H (some y) = true ↔
      x.id = y.id ∧ x.getAttributes.attributeBits = y.getAttributes.attributeBits ∧
        attributesMatch H.toAttrKinds x.getAttributes.attributes y.getAttributes.attributes
          = true := by
  have hnil : ∀ l : List Attribute, attributesMatch H.toAttrKinds l [] = true := by
    intro l
    rw [attributesMatch_iff]
    intro a _ b hb
    cases hb
  rcases x with ⟨xid, xcount, xa, xl, xr, xk⟩
  rcases y with ⟨yid, ycount, ya, yl, yr, yk⟩
  unfold Item.equals Item.getAttributes
  by_cases hid : xid = yid
  · subst hid
    cases xa <;> cases ya
    · simp [attributesMatch]
    · rename_i s
      simp only [bne_self_eq_false, Bool.false_eq_true, if_false, Option.getD_none,
        Option.getD_some, true_and, beq_iff_eq]
      constructor
      · intro h
        exact ⟨h.symm, rfl⟩
      · intro h
        exact h.1.symm
    · rename_i s
      simp only [bne_self_eq_false, Bool.false_eq_true, if_false, Option.getD_none,
        Option.getD_some, true_and, beq_iff_eq, hnil]
      constructor
      · intro h
        exact ⟨h, trivial⟩
      · intro h
        exact h.1
    · rename_i s t
      simp only [bne_self_eq_false, Bool.false_eq_true, if_false, Option.getD_some,
        true_and]
      by_cases hb : s.attributeBits = t.attributeBits
      · simp [hb]
      · simp [hb]
  · simp [hid]

theorem value_eq_of_typed {K : AttrKinds} {a b : Attribute} (hab : a.type = b.type)
    (ha : a.value.isString = K.isStrAttrType a.type)
    (hb : b.value.isString = K.isStrAttrType b.type)
    (h : if K.isStrAttrType a.type = true then a.value.asString = b.value.asString
         else a.value.asInteger = b.value.asInteger) : a = b := by
  obtain ⟨ta, va⟩ := a
  obtain ⟨tb, vb⟩ := b
  simp only at hab ha hb h
  subst hab
  by_cases hs : K.isStrAttrType ta = true
  · rw [if_pos hs] at h
    rw [hs] at ha hb
    cases va <;> cases vb <;> simp_all [AttrValue.isString, AttrValue.asString]
  · rw [if_neg hs] at h
    rw [Bool.not_eq_true] at hs
    rw [hs] at ha hb
    cases va <;> cases vb <;> simp_all [AttrValue.isString, AttrValue.asInteger]

theorem store_eq_iff (K : AttrKinds) (s t : ItemAttributes) (hs : s.WF) (ht : t.WF)
    (hts : s.Typed K) (htt : t.Typed K) :
    (s.attributeBits = t.attributeBits ∧ attributesMatch K s.attributes t.attributes = true) ↔
      ∀ k, s.getExistingAttr (2 ^ k) = t.getExistingAttr (2 ^ k) := by
  rw [attributesMatch_iff]
  constructor
  · rintro ⟨hbits, hmatch⟩ k
    cases hb : s.attributeBits.testBit k with
    | false =>
      rw [getExistingAttr_eq_none (Or.inl (by rw [hasAttribute_two_pow, hb])),
        getExistingAttr_eq_none (Or.inl (by rw [hasAttribute_two_pow, ← hbits, hb]))]
    | true =>
      obtain ⟨a, ha, hta⟩ := (hs.bits k).mp hb
      obtain ⟨b, hb2, htb⟩ := (ht.bits k).mp (by rw [← hbits]; exact hb)
      have hab : a.type = b.type := hta.trans htb.symm
      have heq : a = b := value_eq_of_typed hab (hts a ha) (htt b hb2) (hmatch a ha b hb2 hab)
      rw [getExistingAttr_eq_some hs ha hta, getExistingAttr_eq_some ht hb2 htb, heq]
  · intro h
    constructor
    · apply Nat.eq_of_testBit_eq
      intro k
      have hk := h k
      cases hb1 : s.attributeBits.testBit k <;> cases hb2 : t.attributeBits.testBit k
      · rfl
      · obtain ⟨b, hb, htb⟩ := (ht.bits k).mp hb2
        rw [getExistingAttr_eq_some ht hb htb,
          getExistingAttr_eq_none (Or.inl (by rw [hasAttribute_two_pow, hb1]))] at hk
        cases hk
      · obtain ⟨a, ha, hta⟩ := (hs.bits k).mp hb1
        rw [getExistingAttr_eq_some hs ha hta,
          getExistingAttr_eq_none (Or.inl (by rw [hasAttribute_two_pow, hb2]))] at hk
        cases hk
      · rfl
    · intro a ha b hb hab
      obtain ⟨k, hk⟩ := hs.tags a ha
      have hk2 := h k
      rw [getExistingAttr_eq_some hs ha hk, getExistingAttr_eq_some ht hb (hab ▸ hk)] at hk2
      have heq : a = b := Option.some.inj hk2
      subst heq
      split <;> rfl

/-- C17: the characterisation of Item::equals. For two items whose stores are
well-formed and hold, under each tag, a value of the kind of the tag, equals
is true if and only if the type ids are the same and, for every tag, the two
stores hold the same entry (both none, or both the same integer or string
value); a missing store counts as an empty one and the order of the entries
plays no part. equals of the null pointer is false. -/
theorem equals_characterisation (H : Header) (x y : Item) (hx : x.WF) (hy : y.WF)
    (htx : x.getAttributes.Typed H.toAttrKinds) (hty : y.getAttributes.Typed H.toAttrKinds) :
    (x.equals H (some y) = true ↔
      x.id = y.id ∧ ∀ k, x.look (2 ^ k) = y.look (2 ^ k)) ∧
    x.equals H none = false := by
  refine ⟨?_, rfl⟩
  rw [equals_iff, store_eq_iff H.toAttrKinds _ _ hx hy htx hty]
  rfl

theorem equals_characterisation_witness :
    sampleOrderA.equals sampleHeader (some sampleOrderB) = true ∧
    ∀ k, sampleOrderA.look (2 ^ k) = sampleOrderB.look (2 ^ k) :=
  ⟨by decide,
    ((equals_characterisation sampleHeader sampleOrderA sampleOrderB sampleOrderA_WF
      sampleOrderB_WF (by unfold ItemAttributes.Typed; decide)
      (by unfold ItemAttributes.Typed; decide)).1.mp (by decide)).2⟩

/-! ### Cloning -/

theorem attributesMatch_self (K : AttrKinds) (s : ItemAttributes) (hs : s.WF) :
    attributesMatch K s.attributes s.attributes = true := by
  unfold attributesMatch
  rw [List.all_eq_true]
  intro a ha
  have key : ∀ b ∈ s.attributes, a.type = b.type → a = b := by
    intro b hb hab
    have h1 := find_type_of_nodup hs.nodup ha
    have h2 := find_type_of_nodup hs.nodup hb
    rw [← hab, h1] at h2
    exact Option.some.inj h2
  split
  · rw [List.all_eq_true]
    intro b hb
    by_cases hab : a.type = b.type
    · rw [← key b hb hab]; simp
    · simp [hab]
  · rw [List.all_eq_true]
    intro b hb
    by_cases hab : a.type = b.type
    · rw [← key b hb hab]; simp
    · simp [hab]

theorem equals_same_store (H : Header) (x y : Item) (hx : x.WF) (hid : x.id = y.id)
    (hs : y.attributes = x.attributes) :
    x.equals H (some y) = true ∧ y.equals H (some x) = true := by
  have hy : y.getAttributes = x.getAttributes := by unfold Item.getAttributes; rw [hs]
  rw [equals_iff, equals_iff, hy]
  exact ⟨⟨hid, rfl, attributesMatch_self _ _ hx⟩, ⟨hid.symm, rfl, attributesMatch_self _ _ hx⟩⟩

theorem customAttributes_writeThrough (s : ItemAttributes) (type : Nat)
    (f : AttrValue → AttrValue) :
    (s.writeThrough type f).customAttributes = s.customAttributes := by
  unfold ItemAttributes.writeThrough ItemAttributes.getAttr
  dsimp only
  split
  · split <;> rfl
  · rfl

/-- C18 (amended): clone fidelity. When CreateItem(x.id, x.count) returns an
item c, the clone of x is c with the store of x copied in place of its own (c
itself when x has no store): it has the type id and the count of c, the custom
map of x and, for every tag but the decay state, the entry x has. When the
copied duration is 0, the store is that of x, nothing is queued, and if c has
the type id of x then x.equals(clone) and clone.equals(x) are both true. When
the copied duration is positive, the decay state of the clone is set to
DECAYING_TRUE, the clone is pushed on the decay queue and its reference
counter is raised once more. -/
theorem clone_fidelity (H : Header) (hH : H.WF) (x c : Item) (queue : List Item) (hx : x.WF)
    (hint : H.isIntAttrType (H.mask .ITEM_ATTRIBUTE_DECAYSTATE) = true)
    (hc : Item.CreateItem H x.id x.count = some c) :
    ∃ cl queue2, Item.clone H x queue = some (cl, queue2) ∧
      cl.id = c.id ∧ cl.count = c.count ∧
      (x.attributes = none → cl = c ∧ queue2 = queue) ∧
      (x.attributes ≠ none →
        cl.getAttributes.customAttributes = x.getAttributes.customAttributes ∧
        (∀ t, t ≠ itemAttrTypes.ITEM_ATTRIBUTE_DECAYSTATE →
          cl.look (H.mask t) = x.look (H.mask t)) ∧
        (x.getDuration H = 0 →
          cl.attributes = x.attributes ∧ queue2 = queue ∧
          cl.referenceCounter = c.referenceCounter ∧
          (c.id = x.id → x.equals H (some cl) = true ∧ cl.equals H (some x) = true)) ∧
        (0 < x.getDuration H →
          cl.look (H.mask .ITEM_ATTRIBUTE_DECAYSTATE)
            = some ⟨H.mask .ITEM_ATTRIBUTE_DECAYSTATE,
                AttrValue.integer (H.DECAYING_TRUE % 2 ^ 64)⟩ ∧
          queue2 = cl :: queue ∧ cl.referenceCounter = c.referenceCounter + 1)) := by
  unfold Item.clone
  rw [hc]
  rcases hxa : x.attributes with _ | s
  · exact ⟨c, queue, rfl, rfl, rfl, fun _ => ⟨rfl, rfl⟩, fun h => absurd rfl h⟩
  ·
    have hdur : Item.getDuration H { c with attributes := some s } = x.getDuration H := by
      simp [Item.getDuration, Item.getIntAttr, hxa]
    have hga : x.getAttributes = s := by simp [Item.getAttributes, hxa]
    simp only [hdur]
    by_cases hd : 0 < x.getDuration H
    · rw [if_pos hd]
      refine ⟨_, _, rfl, rfl, rfl, (fun h => by cases h), fun _ => ⟨?_, ?_, ?_, ?_⟩⟩
      · simp only [Item.setDecaying, getAttributes_setIntAttr]
        rw [setIntAttr_eq_writeThrough _ _ _ _ hint, customAttributes_writeThrough, hga]
        rfl
      · intro t ht
        have hwf1 : Item.WF
            (Item.incrementReferenceCounter { c with attributes := some s }) := by
          unfold Item.WF Item.getAttributes Item.incrementReferenceCounter
          rw [← hga]
          exact hx
        have hf := Frame_setIntAttr hH
          (List.mem_singleton.mpr (rfl : itemAttrTypes.ITEM_ATTRIBUTE_DECAYSTATE = _))
          (Item.incrementReferenceCounter { c with attributes := some s }) H.DECAYING_TRUE hwf1
        have h2 := hf.2 t (by simpa using ht)
        unfold Item.setDecaying
        rw [h2]
        unfold Item.look
        rw [hga]
        rfl
      · intro h0
        omega
      · intro _
        refine ⟨?_, rfl, rfl⟩
        have hwf1 : Item.WF
            (Item.incrementReferenceCounter { c with attributes := some s }) := by
          unfold Item.WF Item.getAttributes Item.incrementReferenceCounter
          rw [← hga]
          exact hx
        exact look_setIntAttr hH _ hwf1 .ITEM_ATTRIBUTE_DECAYSTATE H.DECAYING_TRUE hint
    · rw [if_neg hd]
      refine ⟨_, _, rfl, rfl, rfl, (fun h => by cases h), fun _ => ⟨?_, ?_, ?_, ?_⟩⟩
      · rw [hga]; rfl
      · intro t _
        unfold Item.look
        rw [hga]
        rfl
      · intro _
        refine ⟨rfl, rfl, rfl, ?_⟩
        intro hid
        exact equals_same_store H x { c with attributes := some s } hx hid.symm
          (by simp [hxa])
      · intro h
        exact absurd h hd

theorem clone_fidelity_witness :
    ∃ cl queue2, Item.clone sampleHeader sampleOrderA [] = some (cl, queue2) ∧
      sampleOrderA.equals sampleHeader (some cl) = true ∧
      cl.equals sampleHeader (some sampleOrderA) = true := by
  obtain ⟨cl, queue2, h1, -, -, -, h5⟩ :=
    clone_fidelity sampleHeader sampleHeader_WF sampleOrderA
      (Item.construct sampleHeader 2 5).incrementReferenceCounter [] sampleOrderA_WF
      (by decide) (by decide)
  exact ⟨cl, queue2, h1, ((h5 (by decide)).2.2.1 (by decide)).2.2.2 (by decide)⟩

/-- C18, as stated, fails for an item with a positive duration: its clone is
given the decay state DECAYING_TRUE, which the item does not have, so equals
is false in both directions. It also fails for a type id that CreateItem
replaces: the clone of an item of type 2210 has the type id 2207. -/
theorem clone_fidelity_counterexample :
    sampleDecaying.getDuration sampleHeader = 5000 ∧
    sampleDecaying.hasAttribute (sampleHeader.mask .ITEM_ATTRIBUTE_DECAYSTATE) = false ∧
    (Item.clone sampleHeader sampleDecaying []).map
        (fun r => (r.1.getDecaying sampleHeader,
          sampleDecaying.equals sampleHeader (some r.1),
          r.1.equals sampleHeader (some sampleDecaying)))
      = some (1, false, false) ∧
    (Item.clone sampleHeader { id := 2210 } []).map
        (fun r => (r.1.id, Item.equals sampleHeader { id := 2210 } (some r.1)))
      = some (2207, false) := by
  decide

/-! ### The subtype -/

theorem setSubType_id (H : Header) (item : Item) (n : Nat) :
    (item.setSubType H n).id = item.id := by
  unfold Item.setSubType
  dsimp only
  split
  · rfl
  · split
    · rfl
    · split <;> rfl

theorem getIntAttr_setIntAttr {H : Header} (hH : H.WF) (item : Item) (hwf : item.WF)
    (t : itemAttrTypes) (n : Nat) (hint : H.isIntAttrType (H.mask t) = true) :
    (item.setIntAttr H (H.mask t) n).getIntAttr H (H.mask t) = n % 2 ^ 64 % 2 ^ 32 := by
  rw [Item.getIntAttr_of_look H (look_setIntAttr hH item hwf t n hint) hint]
  rfl

theorem customAttributes_setIntAttr (H : Header) (item : Item) (type n : Nat) :
    (item.setIntAttr H type n).getAttributes.customAttributes
      = item.getAttributes.customAttributes := by
  rw [getAttributes_setIntAttr]
  by_cases h : H.isIntAttrType type = true
  · rw [setIntAttr_eq_writeThrough _ _ _ _ h, customAttributes_writeThrough]
  · unfold ItemAttributes.setIntAttr
    simp [h]

/-- C19 (amended): the subtype round trip. For a 16-bit value n and an item
with a well-formed store, getSubType after setSubType(n) returns n when the
type keeps its subtype in the store (fluid containers, splashes, and types
with default charges that are not stackable). For every other type the
subtype is the count field, and the call returns n cut to the width of that
field, which is n exactly when n fits the field. -/
theorem subtype_roundtrip (H : Header) (hH : H.WF) (item : Item) (hwf : item.WF) (n : Nat)
    (hn : n < 2 ^ 16)
    (hF : H.isIntAttrType (H.mask .ITEM_ATTRIBUTE_FLUIDTYPE) = true)
    (hC : H.isIntAttrType (H.mask .ITEM_ATTRIBUTE_CHARGES) = true) :
    ((H.items item.id).subTypeInStore = true → (item.setSubType H n).getSubType H = n) ∧
    ((H.items item.id).subTypeInStore = false →
      (item.setSubType H n).getSubType H = n % 2 ^ H.countBits % 2 ^ 16) ∧
    ((H.items item.id).subTypeInStore = false → n < 2 ^ H.countBits →
      (item.setSubType H n).getSubType H = n) := by
  have hid := setSubType_id H item n
  have hmod : n % 2 ^ 64 % 2 ^ 32 % 2 ^ 16 = n := by omega
  have hget : (item.setSubType H n).getSubType H =
      if ((H.items item.id).isFluidContainer || (H.items item.id).isSplash) = true then n
      else if (H.items item.id).stackable = true then n % 2 ^ H.countBits % 2 ^ 16
      else if ((H.items item.id).charges != 0) = true then n
      else n % 2 ^ H.countBits % 2 ^ 16 := by
    unfold Item.getSubType
    rw [hid]
    unfold Item.setSubType
    dsimp only
    by_cases h1 : ((H.items item.id).isFluidContainer || (H.items item.id).isSplash) = true
    · rw [if_pos h1, if_pos h1, if_pos h1]
      unfold Item.getFluidType Item.setFluidType
      rw [getIntAttr_setIntAttr hH item hwf _ n hF, hmod]
    · rw [if_neg h1, if_neg h1, if_neg h1]
      by_cases h2 : (H.items item.id).stackable = true
      · rw [if_pos h2, if_pos h2, if_pos h2]
        rfl
      · rw [if_neg h2, if_neg h2, if_neg h2]
        by_cases h3 : ((H.items item.id).charges != 0) = true
        · rw [if_pos h3, if_pos h3, if_pos h3]
          unfold Item.getCharges Item.setCharges
          rw [getIntAttr_setIntAttr hH item hwf _ n hC, hmod]
        · rw [if_neg h3, if_neg h3, if_neg h3]
          rfl
  rw [hget]
  unfold ItemType.subTypeInStore
  refine ⟨?_, ?_, ?_⟩
  · intro h
    by_cases h1 : ((H.items item.id).isFluidContainer || (H.items item.id).isSplash) = true
    · rw [if_pos h1]
    · rw [if_neg h1]
      rw [Bool.not_eq_true] at h1
      rw [h1] at h
      simp only [Bool.false_or, Bool.and_eq_true, Bool.not_eq_true'] at h
      rw [if_neg (by rw [h.1]; decide), if_pos h.2]
  · intro h
    simp only [Bool.or_eq_false_iff, Bool.and_eq_false_imp, Bool.not_eq_true'] at h
    by_cases h2 : (H.items item.id).stackable = true
    · rw [if_neg (by simp [h.1.1, h.1.2]), if_pos h2]
    · rw [Bool.not_eq_true] at h2
      rw [if_neg (by simp [h.1.1, h.1.2]), if_neg (by simp [h2]), if_neg (by simp [h.2 h2])]
  · intro h hlt
    simp only [Bool.or_eq_false_iff, Bool.and_eq_false_imp, Bool.not_eq_true'] at h
    have hm : n % 2 ^ H.countBits % 2 ^ 16 = n := by
      rw [Nat.mod_eq_of_lt hlt, Nat.mod_eq_of_lt hn]
    by_cases h2 : (H.items item.id).stackable = true
    · rw [if_neg (by simp [h.1.1, h.1.2]), if_pos h2, hm]
    · rw [Bool.not_eq_true] at h2
      rw [if_neg (by simp [h.1.1, h.1.2]), if_neg (by simp [h2]), if_neg (by simp [h.2 h2]), hm]

theorem subtype_roundtrip_witness :
    Item.getSubType sampleHeader (Item.setSubType sampleHeader { id := 4 } 300) = 300 ∧
    Item.getSubType sampleHeader (Item.setSubType sampleHeader { id := 2 } 200) = 200 := by
  have h4 := subtype_roundtrip sampleHeader sampleHeader_WF { id := 4 } WF_empty 300 (by decide)
    (by decide) (by decide)
  have h2 := subtype_roundtrip sampleHeader sampleHeader_WF { id := 2 } WF_empty 200 (by decide)
    (by decide) (by decide)
  exact ⟨h4.1 (by decide), h2.2.2 (by decide) (by decide)⟩

/-- C19, as stated, fails for a type whose subtype is the count field, when
that field is a byte: on an item of the stackable type 2, getSubType after
setSubType(300) returns 44. -/
theorem subtype_roundtrip_counterexample :
    (sampleHeader.items 2).stackable = true ∧ sampleHeader.countBits = 8 ∧
    Item.getSubType sampleHeader (Item.setSubType sampleHeader { id := 2 } 300) = 44 ∧
    Item.getSubType sampleHeader (Item.setSubType sampleHeader { id := 1 } 300) = 44 := by
  decide

theorem sampleChargeable_WF : sampleChargeable.WF :=
  (Frame_setIntAttr sampleHeader_WF (List.mem_singleton.mpr rfl) _ _
    (construct_WF sampleHeader_WF 4 0)).1

/-- C20: subtype exclusivity. setSubType(n), for a 16-bit n on an item with a
well-formed store, writes one storage location, chosen by the type flags in
the order of getSubType. For a fluid container or splash it is the fluid-type
attribute, which then holds n; otherwise for a stackable type it is the count
field; otherwise for a type with non-zero default charges it is the charges
attribute, which then holds n; otherwise it is the count field. When an
attribute is written, the count field and the entry of every other tag are
unchanged; when the count field is written, the store is unchanged. The type
id and the custom map are unchanged in every case. -/
theorem subtype_exclusivity (H : Header) (hH : H.WF) (item : Item) (hwf : item.WF) (n : Nat)
    (hn : n < 2 ^ 16)
    (hF : H.isIntAttrType (H.mask .ITEM_ATTRIBUTE_FLUIDTYPE) = true)
    (hC : H.isIntAttrType (H.mask .ITEM_ATTRIBUTE_CHARGES) = true) :
    (item.setSubType H n).id = item.id ∧
    (item.setSubType H n).getAttributes.customAttributes
      = item.getAttributes.customAttributes ∧
    (((H.items item.id).isFluidContainer || (H.items item.id).isSplash) = true →
      (item.setSubType H n).look (H.mask .ITEM_ATTRIBUTE_FLUIDTYPE)
        = some ⟨H.mask .ITEM_ATTRIBUTE_FLUIDTYPE, AttrValue.integer n⟩ ∧
      (item.setSubType H n).count = item.count ∧
      ∀ t, t ≠ itemAttrTypes.ITEM_ATTRIBUTE_FLUIDTYPE →
        (item.setSubType H n).look (H.mask t) = item.look (H.mask t)) ∧
    (((H.items item.id).isFluidContainer || (H.items item.id).isSplash) = false →
      (H.items item.id).stackable = true →
      (item.setSubType H n).count = n % 2 ^ H.countBits ∧
      (item.setSubType H n).attributes = item.attributes) ∧
    (((H.items item.id).isFluidContainer || (H.items item.id).isSplash) = false →
      (H.items item.id).stackable = false → (H.items item.id).charges ≠ 0 →
      (item.setSubType H n).look (H.mask .ITEM_ATTRIBUTE_CHARGES)
        = some ⟨H.mask .ITEM_ATTRIBUTE_CHARGES, AttrValue.integer n⟩ ∧
      (item.setSubType H n).count = item.count ∧
      ∀ t, t ≠ itemAttrTypes.ITEM_ATTRIBUTE_CHARGES →
        (item.setSubType H n).look (H.mask t) = item.look (H.mask t)) ∧
    (((H.items item.id).isFluidContainer || (H.items item.id).isSplash) = false →
      (H.items item.id).stackable = false → (H.items item.id).charges = 0 →
      (item.setSubType H n).count = n % 2 ^ H.countBits ∧
      (item.setSubType H n).attributes = item.attributes) := by
  have hmod : n % 2 ^ 64 = n := by omega
  have hattr : ∀ t : itemAttrTypes, H.isIntAttrType (H.mask t) = true →
      (item.setIntAttr H (H.mask t) n).look (H.mask t)
          = some ⟨H.mask t, AttrValue.integer n⟩ ∧
        (item.setIntAttr H (H.mask t) n).count = item.count ∧
        ∀ u, u ≠ t → (item.setIntAttr H (H.mask t) n).look (H.mask u)
          = item.look (H.mask u) := by
    intro t ht
    refine ⟨?_, rfl, ?_⟩
    · rw [look_setIntAttr hH item hwf t n ht, hmod]
    · intro u hu
      exact (Frame_setIntAttr hH (List.mem_singleton.mpr rfl) item n hwf).2 u
        (by simpa using hu)
  refine ⟨setSubType_id H item n, ?_, ?_, ?_, ?_, ?_⟩
  · unfold Item.setSubType
    dsimp only
    split
    · exact customAttributes_setIntAttr H item _ n
    · split
      · rfl
      · split
        · exact customAttributes_setIntAttr H item _ n
        · rfl
  · intro h1
    have hs : item.setSubType H n = item.setIntAttr H (H.mask .ITEM_ATTRIBUTE_FLUIDTYPE) n := by
      unfold Item.setSubType
      dsimp only
      rw [if_pos h1]
      rfl
    rw [hs]
    exact hattr _ hF
  · intro h1 h2
    have hs : item.setSubType H n = item.setItemCount H n := by
      unfold Item.setSubType
      dsimp only
      rw [if_neg (by rw [h1]; decide), if_pos h2]
    rw [hs]
    exact ⟨rfl, rfl⟩
  · intro h1 h2 h3
    have hs : item.setSubType H n = item.setIntAttr H (H.mask .ITEM_ATTRIBUTE_CHARGES) n := by
      unfold Item.setSubType
      dsimp only
      rw [if_neg (by rw [h1]; decide), if_neg (by rw [h2]; decide),
        if_pos (by simpa using h3)]
      rfl
    rw [hs]
    exact hattr _ hC
  · intro h1 h2 h3
    have hs : item.setSubType H n = item.setItemCount H n := by
      unfold Item.setSubType
      dsimp only
      rw [if_neg (by rw [h1]; decide), if_neg (by rw [h2]; decide),
        if_neg (by simp [h3])]
    rw [hs]
    exact ⟨rfl, rfl⟩

theorem subtype_exclusivity_witness :
    (Item.setSubType sampleHeader sampleChargeable 5).look
        (sampleHeader.mask .ITEM_ATTRIBUTE_CHARGES)
      = some ⟨sampleHeader.mask .ITEM_ATTRIBUTE_CHARGES, AttrValue.integer 5⟩ ∧
    (Item.setSubType sampleHeader sampleChargeable 5).count = sampleChargeable.count ∧
    (Item.setSubType sampleHeader sampleChargeable 5).look
        (sampleHeader.mask .ITEM_ATTRIBUTE_DEFENSE)
      = sampleChargeable.look (sampleHeader.mask .ITEM_ATTRIBUTE_DEFENSE) ∧
    (Item.setSubType sampleHeader sampleOrderA 9).count = 9 ∧
    (Item.setSubType sampleHeader sampleOrderA 9).attributes = sampleOrderA.attributes := by
  have h4 := (subtype_exclusivity sampleHeader sampleHeader_WF sampleChargeable
    sampleChargeable_WF 5 (by decide) (by decide) (by decide)).2.2.2.2.1
    (by decide) (by decide) (by decide)
  have h2 := (subtype_exclusivity sampleHeader sampleHeader_WF sampleOrderA
    sampleOrderA_WF 9 (by decide) (by decide) (by decide)).2.2.2.1 (by decide) (by decide)
  exact ⟨h4.1, h4.2.1, h4.2.2 _ (by decide), h2⟩

/-! ### The factory -/

theorem construct_fields (H : Header) (type count : Nat) :
    (Item.construct H type count).id = type ∧
    (Item.construct H type count).referenceCounter = 0 ∧
    (Item.construct H type count).kind = ItemKind.plain := by
  unfold Item.construct Item.setDefaultDuration
  dsimp only
  split_ifs <;> exact ⟨rfl, rfl, rfl⟩

theorem setDefaultDuration_count (H : Header) (i : Item) :
    (i.setDefaultDuration H).count = i.count := by
  unfold Item.setDefaultDuration
  dsimp only
  split_ifs <;> rfl

theorem construct_count (H : Header) (type count : Nat)
    (hfl : ((H.items type).isFluidContainer || (H.items type).isSplash) = false)
    (hst : (H.items type).stackable = true) :
    (Item.construct H type count).count =
      if count ≠ 0 then count % 2 ^ H.countBits
      else if (H.items type).charges ≠ 0 then (H.items type).charges % 2 ^ H.countBits
      else 1 := by
  unfold Item.construct
  dsimp only
  rw [setDefaultDuration_count]
  simp only [hfl, hst, Bool.false_eq_true, if_false, if_true]
  by_cases hc : count = 0
  · subst hc
    by_cases hch : (H.items type).charges = 0
    · simp [hch]
    · simp [hch, Item.setItemCount]
  · simp [hc, Item.setItemCount]

theorem CreateItem_none_iff (H : Header) (type count : Nat) :
    Item.CreateItem H type count = none ↔
      (H.items type).deprecated = true ∨ (H.items type).id = 0 := by
  unfold Item.CreateItem
  dsimp only
  by_cases hd : (H.items type).deprecated = true
  · simp [hd]
  · by_cases hid : (H.items type).id = 0
    · simp [hd, hid]
    · simp [hd, hid]

theorem CreateItem_plain (H : Header) (type count : Nat)
    (hdep : (H.items type).deprecated = false) (hid : (H.items type).id = type)
    (h0 : type ≠ 0) (hs : (H.items type).isStructural = false) (ht : type < 2 ^ 16) :
    Item.CreateItem H type count
      = some (Item.construct H (historicalAlias type)
          (if (H.items type).stackable && count == 0 then 1 else count)).incrementReferenceCounter := by
  unfold ItemType.isStructural at hs
  simp only [Bool.or_eq_false_iff] at hs
  obtain ⟨⟨⟨⟨⟨⟨⟨h1, h2⟩, h3⟩, h4⟩, h5⟩, h6⟩, h7⟩, h8⟩ := hs
  have hne : ((H.items type).id != 0) = true := by rw [hid]; simpa using h0
  unfold Item.CreateItem
  simp only [hdep, hne, h1, h2, h3, h4, h5, h6, h7, h8, Bool.false_eq_true, if_false, if_true]
  rw [hid]
  unfold historicalAlias
  norm_num at ht
  have e3 : 2210 ≤ type → (type + 2 ^ 16 - 3) % 2 ^ 16 = type - 3 := by intro h; omega
  have e2 : 2210 ≤ type → (type + 2 ^ 16 - 2) % 2 ^ 16 = type - 2 := by intro h; omega
  have e37 : 2202 ≤ type → (type + 2 ^ 16 - 37) % 2 ^ 16 = type - 37 := by intro h; omega
  by_cases a1 : 2210 ≤ type ∧ type ≤ 2212
  · rw [if_pos (by simpa using a1), if_pos a1, e3 a1.1]
  · rw [if_neg (by simpa using a1), if_neg a1]
    by_cases a2 : type = 2215 ∨ type = 2216
    · rw [if_pos (by simpa using a2), if_pos a2, e2 (by omega)]
    · rw [if_neg (by simpa using a2), if_neg a2]
      by_cases a3 : 2202 ≤ type ∧ type ≤ 2206
      · rw [if_pos (by simpa using a3), if_pos a3, e37 a3.1]
      · rw [if_neg (by simpa using a3), if_neg a3]
        by_cases a4 : type = 2640
        · rw [if_pos (by simpa using a4), if_pos a4]
        · rw [if_neg (by simpa using a4), if_neg a4]
          by_cases a5 : type = 6301
          · rw [if_pos (by simpa using a5), if_pos a5]
          · rw [if_neg (by simpa using a5), if_neg a5]
            by_cases a6 : type = 18528
            · rw [if_pos (by simpa using a6), if_pos a6]
            · rw [if_neg (by simpa using a6), if_neg a6]

theorem constructAs_fields (H : Header) (kind : ItemKind) (type : Nat) :
    (Item.constructAs H kind type).id = type ∧
    (Item.constructAs H kind type).referenceCounter = 0 ∧
    (Item.constructAs H kind type).kind = kind :=
  ⟨(construct_fields H type 0).1, (construct_fields H type 0).2.1, rfl⟩

theorem CreateItem_valid (H : Header) (type count : Nat)
    (hdep : (H.items type).deprecated = false) (hid : (H.items type).id ≠ 0) :
    ∃ x, Item.CreateItem H type count = some (Item.incrementReferenceCounter x) ∧
      ((H.items type).isStructural = true →
        x = Item.constructAs H (selectVariant factoryPriority (H.items type)) type) ∧
      ((H.items type).isStructural = false →
        selectVariant factoryPriority (H.items type) = ItemKind.plain ∧
        ∃ t c, x = Item.construct H t c) := by
  have hne : ((H.items type).id != 0) = true := by simpa using hid
  unfold Item.CreateItem ItemType.isStructural
  simp only [hdep, hne, Bool.false_eq_true, if_false, if_true]
  by_cases h1 : (H.items type).isDepot = true
  · exact ⟨_, by rw [if_pos h1],
      fun _ => by simp [selectVariant, factoryPriority, List.find?, h1],
      fun hs => by simp [h1] at hs⟩
  rw [if_neg h1]
  by_cases h2 : (H.items type).isContainer = true
  · exact ⟨_, by rw [if_pos h2],
      fun _ => by simp [selectVariant, factoryPriority, List.find?, h1, h2],
      fun hs => by simp [h2] at hs⟩
  rw [if_neg h2]
  by_cases h3 : (H.items type).isTeleport = true
  · exact ⟨_, by rw [if_pos h3],
      fun _ => by simp [selectVariant, factoryPriority, List.find?, h1, h2, h3],
      fun hs => by simp [h3] at hs⟩
  rw [if_neg h3]
  by_cases h4 : (H.items type).isMagicField = true
  · exact ⟨_, by rw [if_pos h4],
      fun _ => by simp [selectVariant, factoryPriority, List.find?, h1, h2, h3, h4],
      fun hs => by simp [h4] at hs⟩
  rw [if_neg h4]
  by_cases h5 : (H.items type).isDoor = true
  · exact ⟨_, by rw [if_pos h5],
      fun _ => by simp [selectVariant, factoryPriority, List.find?, h1, h2, h3, h4, h5],
      fun hs => by simp [h5] at hs⟩
  rw [if_neg h5]
  by_cases h6 : (H.items type).isTrashHolder = true
  · exact ⟨_, by rw [if_pos h6],
      fun _ => by simp [selectVariant, factoryPriority, List.find?, h1, h2, h3, h4, h5, h6],
      fun hs => by simp [h6] at hs⟩
  rw [if_neg h6]
  by_cases h7 : (H.items type).isMailbox = true
  · exact ⟨_, by rw [if_pos h7],
      fun _ => by simp [selectVariant, factoryPriority, List.find?, h1, h2, h3, h4, h5, h6, h7],
      fun hs => by simp [h7] at hs⟩
  rw [if_neg h7]
  by_cases h8 : (H.items type).isBed = true
  · exact ⟨_, by rw [if_pos h8],
      fun _ => by
        simp [selectVariant, factoryPriority, List.find?, h1, h2, h3, h4, h5, h6, h7, h8],
      fun hs => by simp [h8] at hs⟩
  rw [if_neg h8]
  refine ⟨_, rfl, fun hs => by simp [h1, h2, h3, h4, h5, h6, h7, h8] at hs, fun _ => ⟨?_, ?_⟩⟩
  · simp [selectVariant, factoryPriority, List.find?, h1, h2, h3, h4, h5, h6, h7, h8]
  · split_ifs <;> exact ⟨_, _, rfl⟩

theorem CreateItem_some (H : Header) (type count : Nat) (c : Item)
    (h : Item.CreateItem H type count = some c) :
    (H.items type).deprecated = false ∧ (H.items type).id ≠ 0 := by
  have hv := (CreateItem_none_iff H type count).not.mp (by rw [h]; simp)
  rw [not_or] at hv
  exact ⟨by simpa using hv.1, hv.2⟩

theorem CreateItem_referenceCounter (H : Header) (type count : Nat) (c : Item)
    (h : Item.CreateItem H type count = some c) : c.referenceCounter = 1 := by
  obtain ⟨hdep, hid⟩ := CreateItem_some H type count c h
  obtain ⟨x, hx, hs, hp⟩ := CreateItem_valid H type count hdep hid
  rw [hx] at h
  cases h
  show x.referenceCounter + 1 = 1
  cases hb : (H.items type).isStructural with
  | true => rw [hs hb, (constructAs_fields H _ type).2.1]
  | false =>
    obtain ⟨t, c, rfl⟩ := (hp hb).2
    rw [(construct_fields H t c).2.1]

theorem CreateItem_kind (H : Header) (type count : Nat) (c : Item)
    (h : Item.CreateItem H type count = some c) :
    c.kind = selectVariant factoryPriority (H.items type) := by
  obtain ⟨hdep, hid⟩ := CreateItem_some H type count c h
  obtain ⟨x, hx, hs, hp⟩ := CreateItem_valid H type count hdep hid
  rw [hx] at h
  cases h
  show x.kind = _
  cases hb : (H.items type).isStructural with
  | true => rw [hs hb]; rfl
  | false =>
    obtain ⟨hk, t, c, rfl⟩ := hp hb
    rw [(construct_fields H t c).2.2, hk]

theorem CreateItem_id (H : Header) (type count : Nat) (c : Item)
    (hid : (H.items type).id = type) (ht : type < 2 ^ 16) (ha : historicalAlias type = type)
    (h : Item.CreateItem H type count = some c) : c.id = type := by
  obtain ⟨hdep, hid0⟩ := CreateItem_some H type count c h
  cases hb : (H.items type).isStructural with
  | true =>
    obtain ⟨x, hx, hs, -⟩ := CreateItem_valid H type count hdep hid0
    rw [hx] at h
    cases h
    show x.id = type
    rw [hs hb, (constructAs_fields H _ type).1]
  | false =>
    have h0 : type ≠ 0 := by rw [← hid]; exact hid0
    rw [CreateItem_plain H type count hdep hid h0 hb ht] at h
    cases h
    show (Item.construct H (historicalAlias type) _).id = type
    rw [(construct_fields H _ _).1, ha]

/-- C21 (amended): the stack count at construction, for a stackable type that
is neither a fluid container nor a splash. The constructor Item(type, c) sets
the count to c when c is not 0, to the default charges of the type when c is
0 and they are not 0, and leaves the initial count of 1 otherwise (a value
that is set is cut to the width of the count field). CreateItem(type, c)
replaces a count of 0 by 1 before it calls the constructor, so on a valid
type with no structural classification and no alias the item it returns has
the count c when c is not 0 and 1 when c is 0, whatever the default charges
of the type are. -/
theorem default_stack_count (H : Header) (type c : Nat)
    (hst : (H.items type).stackable = true)
    (hfl : (H.items type).isFluidContainer = false) (hsp : (H.items type).isSplash = false) :
    (Item.construct H type c).count =
      (if c ≠ 0 then c % 2 ^ H.countBits
       else if (H.items type).charges ≠ 0 then (H.items type).charges % 2 ^ H.countBits
       else 1) ∧
    ((H.items type).deprecated = false → (H.items type).id = type → type ≠ 0 →
      (H.items type).isStructural = false → type < 2 ^ 16 → historicalAlias type = type →
      (Item.CreateItem H type c).map (fun i => i.count)
        = some ((if c = 0 then 1 else c) % 2 ^ H.countBits)) := by
  have hf : ((H.items type).isFluidContainer || (H.items type).isSplash) = false := by
    rw [hfl, hsp]; rfl
  refine ⟨construct_count H type c hf hst, ?_⟩
  intro hdep hid h0 hs ht ha
  rw [CreateItem_plain H type c hdep hid h0 hs ht, ha]
  simp only [Option.map_some', Item.incrementReferenceCounter, hst, Bool.true_and]
  rw [construct_count H type _ hf hst]
  by_cases hc : c = 0
  · simp [hc]
  · simp [hc]

theorem default_stack_count_witness :
    (Item.construct factoryHeader 5 0).count = 7 ∧
    (Item.CreateItem factoryHeader 5 0).map (fun i => i.count) = some 1 ∧
    (Item.CreateItem factoryHeader 5 3).map (fun i => i.count) = some 3 := by
  have h0 := default_stack_count factoryHeader 5 0 (by decide) (by decide) (by decide)
  have h3 := default_stack_count factoryHeader 5 3 (by decide) (by decide) (by decide)
  exact ⟨h0.1, h0.2 (by decide) (by decide) (by decide) (by decide) (by decide) (by decide),
    h3.2 (by decide) (by decide) (by decide) (by decide) (by decide) (by decide)⟩

/-- C21, as stated, fails when the requested count is 0 and the type has
default charges: CreateItem replaces the 0 by 1 before the constructor runs,
so the item of the stackable type 5, whose default charges are 7, is created
with the count 1. -/
theorem default_stack_count_counterexample :
    (factoryHeader.items 5).stackable = true ∧ (factoryHeader.items 5).charges = 7 ∧
    (factoryHeader.items 5).isFluidContainer = false ∧
    (factoryHeader.items 5).isSplash = false ∧
    (Item.CreateItem factoryHeader 5 0).map (fun i => i.count) = some 1 := by
  decide

/-- C22: invalid construction yields null. CreateItem(type, count) returns no
item exactly when the type is deprecated or unknown (its catalogue id is 0),
and the item it returns otherwise has the reference count 1. The factory that
reads from a stream returns no item, and leaves the stream as it is, when the
stream holds fewer than 2 bytes; otherwise it consumes two bytes and returns
what CreateItem returns for the id read, after the switch, with count 0. -/
theorem invalid_construction_null (H : Header) (L : LegacyIds) (type count : Nat)
    (p : List Nat) :
    (Item.CreateItem H type count = none ↔
      (H.items type).deprecated = true ∨ (H.items type).id = 0) ∧
    (∀ c, Item.CreateItem H type count = some c → c.referenceCounter = 1) ∧
    (p.length < 2 → Item.CreateItemFromStream H L p = (none, p)) ∧
    (2 ≤ p.length →
      Item.CreateItemFromStream H L p
        = (Item.CreateItem H (L.switchId (leValue (p.take 2))) 0, p.drop 2)) := by
  refine ⟨CreateItem_none_iff H type count, CreateItem_referenceCounter H type count, ?_, ?_⟩
  · intro h
    unfold Item.CreateItemFromStream PropStream.read
    rw [if_pos h]
  · intro h
    unfold Item.CreateItemFromStream PropStream.read
    rw [if_neg (by omega)]

theorem invalid_construction_null_witness :
    Item.CreateItem factoryHeader 7 1 = none ∧ Item.CreateItem factoryHeader 8 1 = none ∧
    (Item.CreateItem factoryHeader 1 1).map (fun c => c.referenceCounter) = some 1 ∧
    Item.CreateItemFromStream factoryHeader sampleLegacyIds [1] = (none, [1]) ∧
    Item.CreateItemFromStream factoryHeader sampleLegacyIds [7, 0, 9]
      = (none, [9]) := by
  have h7 := invalid_construction_null factoryHeader sampleLegacyIds 7 1 [1]
  have h8 := invalid_construction_null factoryHeader sampleLegacyIds 8 1 [7, 0, 9]
  refine ⟨h7.1.mpr (Or.inl (by decide)), h8.1.mpr (Or.inr (by decide)), by decide,
    h7.2.2.1 (by decide), ?_⟩
  rw [h8.2.2.2 (by decide)]
  decide

/-- C23 (amended): the priority of the factory variants. For every valid
type, CreateItem selects the class of the item by testing the structural
classifications of the type in the order depot, container, teleport, magic
field, door, trash holder, mailbox, bed; the first that holds decides, and a
type for which none holds yields a plain item. -/
theorem factory_variant_priority (H : Header) (type count : Nat)
    (hdep : (H.items type).deprecated = false) (hid : (H.items type).id ≠ 0) :
    ∃ c, Item.CreateItem H type count = some c ∧
      c.kind = selectVariant factoryPriority (H.items type) := by
  cases hc : Item.CreateItem H type count with
  | none =>
    rcases (CreateItem_none_iff H type count).mp hc with h | h
    · rw [hdep] at h; cases h
    · exact absurd h hid
  | some c => exact ⟨c, rfl, CreateItem_kind H type count c hc⟩

theorem factory_variant_priority_witness :
    ∃ c, Item.CreateItem factoryHeader 12 0 = some c ∧ c.kind = ItemKind.depotLocker := by
  obtain ⟨c, h1, h2⟩ := factory_variant_priority factoryHeader 12 0 (by decide) (by decide)
  exact ⟨c, h1, h2.trans (by decide)⟩

/-- C23, as stated, fails for a type that is both a door and a teleport:
CreateItem tests the teleport before the door and makes a teleport, where the
stated order gives a door. It also fails for a depot that is a container: the
depot test comes first and is not in the stated order. -/
theorem factory_variant_priority_counterexample :
    (factoryHeader.items 6).isDoor = true ∧ (factoryHeader.items 6).isTeleport = true ∧
    (Item.CreateItem factoryHeader 6 0).map (fun c => c.kind) = some ItemKind.teleport ∧
    selectVariant statedPriority (factoryHeader.items 6) = ItemKind.door ∧
    (Item.CreateItem factoryHeader 12 0).map (fun c => c.kind) = some ItemKind.depotLocker ∧
    selectVariant statedPriority (factoryHeader.items 12) = ItemKind.container := by
  decide

theorem switchId_other (L : LegacyIds) (id : Nat) (h : id ∉ L.labels) : L.switchId id = id := by
  unfold LegacyIds.labels at h
  simp only [List.mem_cons, List.mem_singleton, List.not_mem_nil, or_false, not_or] at h
  obtain ⟨h1, h2, h3, h4, h5, h6, h7⟩ := h
  unfold LegacyIds.switchId
  rw [if_neg h1, if_neg h2, if_neg h3, if_neg h4, if_neg h5, if_neg h6, if_neg h7]

theorem switchId_labels (L : LegacyIds) (hL : L.labels.Nodup) :
    L.switchId L.ITEM_FIREFIELD_PVP_FULL = L.ITEM_FIREFIELD_PERSISTENT_FULL ∧
    L.switchId L.ITEM_FIREFIELD_PVP_MEDIUM = L.ITEM_FIREFIELD_PERSISTENT_MEDIUM ∧
    L.switchId L.ITEM_FIREFIELD_PVP_SMALL = L.ITEM_FIREFIELD_PERSISTENT_SMALL ∧
    L.switchId L.ITEM_ENERGYFIELD_PVP = L.ITEM_ENERGYFIELD_PERSISTENT ∧
    L.switchId L.ITEM_POISONFIELD_PVP = L.ITEM_POISONFIELD_PERSISTENT ∧
    L.switchId L.ITEM_MAGICWALL = L.ITEM_MAGICWALL_PERSISTENT ∧
    L.switchId L.ITEM_WILDGROWTH = L.ITEM_WILDGROWTH_PERSISTENT := by
  unfold LegacyIds.labels at hL
  simp only [List.nodup_cons, List.mem_cons, List.mem_singleton, List.not_mem_nil, or_false,
    not_or, List.nodup_nil, and_true] at hL
  obtain ⟨⟨a1, a2, a3, a4, a5, a6⟩, ⟨b2, b3, b4, b5, b6⟩, ⟨c3, c4, c5, c6⟩, ⟨d4, d5, d6⟩,
    ⟨e5, e6⟩, f6, -⟩ := hL
  unfold LegacyIds.switchId
  refine ⟨?_, ?_, ?_, ?_, ?_, ?_, ?_⟩
  · rw [if_pos rfl]
  · rw [if_neg (Ne.symm a1), if_pos rfl]
  · rw [if_neg (Ne.symm a2), if_neg (Ne.symm b2), if_pos rfl]
  · rw [if_neg (Ne.symm a3), if_neg (Ne.symm b3), if_neg (Ne.symm c3), if_pos rfl]
  · rw [if_neg (Ne.symm a4), if_neg (Ne.symm b4), if_neg (Ne.symm c4), if_neg (Ne.symm d4),
      if_pos rfl]
  · rw [if_neg (Ne.symm a5), if_neg (Ne.symm b5), if_neg (Ne.symm c5), if_neg (Ne.symm d5),
      if_neg (Ne.symm e5), if_pos rfl]
  · rw [if_neg (Ne.symm a6), if_neg (Ne.symm b6), if_neg (Ne.symm c6), if_neg (Ne.symm d6),
      if_neg (Ne.symm e6), if_neg (Ne.symm f6), if_pos rfl]

/-- C24 (amended): the legacy PvP normalisation is done by the factory that
reads from a stream, and only there. With two bytes or more in the stream,
CreateItem(stream) reads the id, sends each of the seven legacy ids (fire
field PvP full, medium and small, energy field PvP, poison field PvP, magic
wall, wild growth) to its persistent id and leaves every other id as it is,
and returns what CreateItem(id, 0) returns for the result. CreateItem(type,
count) itself does not normalise: the item it returns for an id outside the
alias table has the type id it was given, a legacy id included. -/
theorem legacy_normalisation (H : Header) (L : LegacyIds) (hL : L.labels.Nodup) :
    (∀ p : List Nat, 2 ≤ p.length →
      Item.CreateItemFromStream H L p
        = (Item.CreateItem H (L.switchId (leValue (p.take 2))) 0, p.drop 2)) ∧
    (L.switchId L.ITEM_FIREFIELD_PVP_FULL = L.ITEM_FIREFIELD_PERSISTENT_FULL ∧
      L.switchId L.ITEM_FIREFIELD_PVP_MEDIUM = L.ITEM_FIREFIELD_PERSISTENT_MEDIUM ∧
      L.switchId L.ITEM_FIREFIELD_PVP_SMALL = L.ITEM_FIREFIELD_PERSISTENT_SMALL ∧
      L.switchId L.ITEM_ENERGYFIELD_PVP = L.ITEM_ENERGYFIELD_PERSISTENT ∧
      L.switchId L.ITEM_POISONFIELD_PVP = L.ITEM_POISONFIELD_PERSISTENT ∧
      L.switchId L.ITEM_MAGICWALL = L.ITEM_MAGICWALL_PERSISTENT ∧
      L.switchId L.ITEM_WILDGROWTH = L.ITEM_WILDGROWTH_PERSISTENT) ∧
    (∀ id, id ∉ L.labels → L.switchId id = id) ∧
    (∀ type count c, (H.items type).id = type → type < 2 ^ 16 → historicalAlias type = type →
      Item.CreateItem H type count = some c → c.id = type) := by
  refine ⟨?_, switchId_labels L hL, switchId_other L, ?_⟩
  · intro p h
    unfold Item.CreateItemFromStream PropStream.read
    rw [if_neg (by omega)]
  · intro type count c hid ht ha h
    exact CreateItem_id H type count c hid ht ha h

theorem legacy_normalisation_witness :
    (Item.CreateItemFromStream factoryHeader sampleLegacyIds [207, 5, 9]).1.map (fun c => c.id)
      = some 1492 ∧
    (Item.CreateItemFromStream factoryHeader sampleLegacyIds [207, 5, 9]).2 = [9] := by
  have h := (legacy_normalisation factoryHeader sampleLegacyIds (by decide)).1 [207, 5, 9]
    (by decide)
  rw [h]
  decide

/-- C24, as stated, fails for CreateItem(type, count): given the legacy id
1487 (fire field PvP full) it returns an item of type 1487, not of the
persistent type 1492. Only the factory that reads the id from a stream
replaces it. -/
theorem legacy_normalisation_counterexample :
    sampleLegacyIds.ITEM_FIREFIELD_PVP_FULL = 1487 ∧
    sampleLegacyIds.ITEM_FIREFIELD_PERSISTENT_FULL = 1492 ∧
    (Item.CreateItem factoryHeader 1487 0).map (fun c => c.id) = some 1487 ∧
    (Item.CreateItemFromStream factoryHeader sampleLegacyIds [207, 5]).1.map (fun c => c.id)
      = some 1492 := by
  decide

/-- C25 (amended): the historical alias table. For every valid type that
matches none of the structural classifications, CreateItem(type, count)
yields a plain item, built by the constructor Item(id, count), whose id is
type-3 for ids 2210..2212, type-2 for ids 2215 and 2216, type-37 for ids
2202..2206, 6132 for id 2640, 6300 for id 6301, 18408 for id 18528, and type
itself for every other id. The count given to the constructor is the
requested count, except that a requested count of 0 is replaced by 1 when the
type is stackable. -/
theorem historical_alias_table (H : Header) (type count : Nat)
    (hdep : (H.items type).deprecated = false) (hid : (H.items type).id = type)
    (h0 : type ≠ 0) (hs : (H.items type).isStructural = false) (ht : type < 2 ^ 16) :
    ∃ c, Item.CreateItem H type count = some c ∧
      c.kind = ItemKind.plain ∧ c.id = historicalAlias type ∧
      c = (Item.construct H (historicalAlias type)
            (if (H.items type).stackable && count == 0 then 1 else count)).incrementReferenceCounter ∧
      (((H.items type).stackable = false ∨ count ≠ 0) →
        c = (Item.construct H (historicalAlias type) count).incrementReferenceCounter) := by
  refine ⟨_, CreateItem_plain H type count hdep hid h0 hs ht, ?_, ?_, rfl, ?_⟩
  · exact (construct_fields H _ _).2.2
  · exact (construct_fields H _ _).1
  · intro h
    rcases h with h | h
    · simp [h]
    · simp [h]

theorem historical_alias_table_witness :
    (Item.CreateItem factoryHeader 2210 0).map (fun c => c.id) = some 2207 ∧
    (Item.CreateItem factoryHeader 2640 0).map (fun c => c.id) = some 6132 := by
  obtain ⟨c, h1, -, h2, -⟩ := historical_alias_table factoryHeader 2210 0 (by decide) (by decide)
    (by decide) (by decide) (by decide)
  obtain ⟨d, h3, -, h4, -⟩ := historical_alias_table factoryHeader 2640 0 (by decide) (by decide)
    (by decide) (by decide) (by decide)
  rw [h1, h3]
  exact ⟨congrArg some (h2.trans (by decide)), congrArg some (h4.trans (by decide))⟩

/-- C25, as stated, fails for the count: for the stackable type 5 and the
requested count 0, CreateItem gives the constructor the count 1, not 0. With
the count 0 the constructor would take the default charges 7 of the type as
the count; the item CreateItem returns has the count 1. -/
theorem historical_alias_table_counterexample :
    (factoryHeader.items 5).stackable = true ∧
    Item.CreateItem factoryHeader 5 0
      = some (Item.construct factoryHeader 5 1).incrementReferenceCounter ∧
    Item.CreateItem factoryHeader 5 0
      ≠ some (Item.construct factoryHeader 5 0).incrementReferenceCounter ∧
    (Item.construct factoryHeader 5 0).count = 7 ∧
    (Item.construct factoryHeader 5 1).count = 1 := by
  decide

/-! ### Type reassignment -/

theorem bits_removeAttribute (s : ItemAttributes) (type : Nat) :
    (s.removeAttribute type).attributeBits
      = if s.hasAttribute type = true then bitAndNot s.attributeBits type
        else s.attributeBits := by
  unfold ItemAttributes.removeAttribute
  by_cases h : s.hasAttribute type = true
  · rw [if_pos h]
    simp only [h, Bool.not_true, Bool.false_eq_true, if_false]
    split
    · rfl
    · split
      · rfl
      · split <;> rfl
  · rw [if_neg h]
    rw [Bool.not_eq_true] at h
    simp [h]

theorem cleared_after_remove (s : ItemAttributes) (type : Nat) :
    (s.removeAttribute type).hasAttribute type = false := by
  unfold ItemAttributes.hasAttribute
  rw [bits_removeAttribute]
  by_cases h : s.hasAttribute type = true
  · rw [if_pos h]
    have : type &&& bitAndNot s.attributeBits type = 0 := by
      apply Nat.eq_of_testBit_eq
      intro i
      rw [Nat.testBit_and, testBit_bitAndNot, Nat.zero_testBit]
      cases type.testBit i <;> simp
    rw [this]
    rfl
  · rw [if_neg h]
    rw [Bool.not_eq_true] at h
    exact h

theorem absent_after_remove (s : ItemAttributes) (type other : Nat)
    (h : s.hasAttribute other = false) : (s.removeAttribute type).hasAttribute other = false := by
  unfold ItemAttributes.hasAttribute at h ⊢
  rw [bits_removeAttribute]
  split
  · have h0 : other &&& s.attributeBits = 0 := by simpa using h
    have : other &&& bitAndNot s.attributeBits type = 0 := by
      apply Nat.eq_of_testBit_eq
      intro i
      have hi := congrArg (fun n => n.testBit i) h0
      simp only [Nat.testBit_and, Nat.zero_testBit] at hi
      rw [Nat.testBit_and, testBit_bitAndNot, Nat.zero_testBit]
      cases ho : other.testBit i
      · simp
      · rw [ho] at hi
        simp only [Bool.true_and] at hi
        simp [hi]
    rw [this]
    rfl
  · exact h

theorem removeAttribute_frame (s : ItemAttributes) (hwf : s.WF) (k j : Nat) (hj : j ≠ k) :
    (s.removeAttribute (2 ^ k)).hasAttribute (2 ^ j) = s.hasAttribute (2 ^ j) ∧
    (s.removeAttribute (2 ^ k)).getExistingAttr (2 ^ j) = s.getExistingAttr (2 ^ j) := by
  by_cases h : s.hasAttribute (2 ^ k) = true
  · obtain ⟨a, hta, hperm, hbits⟩ := removeAttribute_perm s hwf k h
    have hwf2 := WF_removeAttribute s hwf k
    have := getExistingAttr_congr hwf hwf2 j (fun x hx => by
      rw [hperm.mem_iff, List.mem_cons]
      constructor
      · intro hm; exact Or.inr hm
      · rintro (rfl | hm)
        · exact absurd (two_pow_inj (hx.symm.trans hta)) hj
        · exact hm)
    exact ⟨this.2, this.1⟩
  · rw [Bool.not_eq_true] at h
    rw [removeAttribute_absent s _ h]
    exact ⟨rfl, rfl⟩

theorem Item.getAttributes_removeAttribute (i : Item) (type : Nat) :
    (i.removeAttribute type).getAttributes = i.getAttributes.removeAttribute type := by
  unfold Item.removeAttribute Item.getAttributes
  cases h : i.attributes with
  | none =>
    simp only [h, Option.getD_none]
    rw [removeAttribute_absent]
    simp [ItemAttributes.hasAttribute]
  | some s => simp [h]

theorem Item.removeAttribute_id (i : Item) (type : Nat) :
    (i.removeAttribute type).id = i.id := by
  unfold Item.removeAttribute
  split <;> rfl

theorem Item.not_has_after_remove (i : Item) (type : Nat) :
    (i.removeAttribute type).hasAttribute type = false := by
  rw [Item.hasAttribute_eq, Item.getAttributes_removeAttribute]
  exact cleared_after_remove _ _

theorem Item.still_absent_after_remove (i : Item) (type other : Nat)
    (h : i.hasAttribute other = false) : (i.removeAttribute type).hasAttribute other = false := by
  rw [Item.hasAttribute_eq] at h ⊢
  rw [Item.getAttributes_removeAttribute]
  exact absent_after_remove _ _ _ h

/-- C26 (amended): setID strips the decay data. For every item and every new
type id whose type has no duration (its decay time times 1000 is 0 as a
32-bit number), no stop-time behaviour and no type to decay to (decayTo is
negative), the item has after setID(newid) neither a decay-state attribute nor
a duration attribute, and its id is newid. -/
theorem setID_strips_decay (H : Header) (item : Item) (newid : Nat)
    (hdt : (H.items newid).decayTime * 1000 % 2 ^ 32 = 0)
    (hst : (H.items newid).stopTime = false) (hto : (H.items newid).decayTo < 0) :
    (item.setID H newid).hasAttribute (H.mask .ITEM_ATTRIBUTE_DECAYSTATE) = false ∧
    (item.setID H newid).hasAttribute (H.mask .ITEM_ATTRIBUTE_DURATION) = false ∧
    (item.setID H newid).id = newid := by
  unfold Item.setID
  simp only [hdt, hst, hto, beq_self_eq_true, Bool.not_false, Bool.and_self, decide_True,
    if_true, gt_iff_lt, lt_self_iff_false, decide_False, Bool.false_and, Bool.false_eq_true,
    if_false]
  refine ⟨?_, ?_, ?_⟩
  · apply Item.still_absent_after_remove
    apply Item.still_absent_after_remove
    exact Item.not_has_after_remove _ _
  · apply Item.still_absent_after_remove
    exact Item.not_has_after_remove _ _
  · rw [Item.removeAttribute_id, Item.removeAttribute_id, Item.removeAttribute_id]

theorem setID_strips_decay_witness :
    sampleDecaying.hasAttribute (factoryHeader.mask .ITEM_ATTRIBUTE_DURATION) = true ∧
    (sampleDecaying.setID factoryHeader 3).hasAttribute
        (factoryHeader.mask .ITEM_ATTRIBUTE_DURATION) = false :=
  ⟨by decide,
    (setID_strips_decay factoryHeader sampleDecaying 3 (by decide) (by decide) (by decide)).2.1⟩

/-- C26, as stated, fails for a type that decays into another type: type 9
has no decay time and no stop-time behaviour, but its decayTo is not
negative, so setID(9) leaves the duration attribute of the item in place. -/
theorem setID_strips_decay_counterexample :
    (factoryHeader.items 9).decayTime = 0 ∧ (factoryHeader.items 9).stopTime = false ∧
    (factoryHeader.items 9).decayTo = 10 ∧
    (sampleDecaying.setID factoryHeader 9).hasAttribute
        (factoryHeader.mask .ITEM_ATTRIBUTE_DURATION) = true ∧
    (sampleDecaying.setID factoryHeader 9).getDuration factoryHeader = 5000 := by
  decide

theorem Item.WF_after_remove {H : Header} (hH : H.WF) (i : Item) (hwf : i.WF)
    (t : itemAttrTypes) : (i.removeAttribute (H.mask t)).WF := by
  obtain ⟨k, hk⟩ := hH.mask_tag t
  unfold Item.WF at hwf ⊢
  rw [Item.getAttributes_removeAttribute, hk]
  exact WF_removeAttribute _ hwf k

theorem Item.frame_after_remove {H : Header} (hH : H.WF) (i : Item) (hwf : i.WF)
    (t u : itemAttrTypes) (hu : u ≠ t) :
    (i.removeAttribute (H.mask t)).hasAttribute (H.mask u) = i.hasAttribute (H.mask u) ∧
    (i.removeAttribute (H.mask t)).look (H.mask u) = i.look (H.mask u) := by
  obtain ⟨k, j, hk, hj, hjk⟩ := mask_ne hH (Ne.symm hu)
  unfold Item.WF at hwf
  unfold Item.look
  rw [Item.hasAttribute_eq, Item.hasAttribute_eq, Item.getAttributes_removeAttribute, hk, hj]
  exact removeAttribute_frame _ hwf k j hjk

theorem Item.has_after_setIntAttr {H : Header} (hH : H.WF) (i : Item) (hwf : i.WF)
    (t u : itemAttrTypes) (hu : u ≠ t) (v : Nat) :
    (i.setIntAttr H (H.mask t) v).hasAttribute (H.mask u) = i.hasAttribute (H.mask u) := by
  obtain ⟨k, j, hk, hj, hjk⟩ := mask_ne hH (Ne.symm hu)
  unfold Item.WF at hwf
  rw [Item.hasAttribute_eq, Item.hasAttribute_eq, getAttributes_setIntAttr]
  by_cases hint : H.isIntAttrType (H.mask t) = true
  · rw [setIntAttr_eq_writeThrough _ _ _ _ hint, hk, hj]
    exact (writeThrough_frame _ hwf k _ j hjk).2
  · unfold ItemAttributes.setIntAttr
    simp [hint]

theorem Item.getIntAttr_congr_look (H : Header) (i j : Item) (type : Nat)
    (h : j.look type = i.look type) : j.getIntAttr H type = i.getIntAttr H type := by
  unfold Item.look at h
  rw [Item.getIntAttr_eq, Item.getIntAttr_eq]
  unfold ItemAttributes.getIntAttr
  rw [h]

/-- C27 (amended): setID re-arms decay. The new duration is the decay time of
the new type times 1000, computed in 32 bits (modulo 2^32). For an item with
a well-formed store and a new type id whose new duration is not 0: if the
previous type has no stop-time rule or the item has no duration attribute,
then after setID(newid) the decay state of the item is DECAYING_FALSE and its
duration is the new duration; otherwise the duration the item had is kept. In
every case, whatever the decay time, the corpse-owner attribute is absent
afterwards and the id is newid. -/
theorem setID_rearms_decay (H : Header) (hH : H.WF) (item : Item) (hwf : item.WF)
    (newid : Nat)
    (hS : H.isIntAttrType (H.mask .ITEM_ATTRIBUTE_DECAYSTATE) = true)
    (hD : H.isIntAttrType (H.mask .ITEM_ATTRIBUTE_DURATION) = true)
    (hF : H.DECAYING_FALSE < 2 ^ 32) :
    (item.setID H newid).id = newid ∧
    (item.setID H newid).hasAttribute (H.mask .ITEM_ATTRIBUTE_CORPSEOWNER) = false ∧
    ((H.items newid).decayTime * 1000 % 2 ^ 32 ≠ 0 →
      ((H.items item.id).stopTime = false ∨
        item.hasAttribute (H.mask .ITEM_ATTRIBUTE_DURATION) = false) →
      (item.setID H newid).getDecaying H = H.DECAYING_FALSE ∧
      (item.setID H newid).getDuration H = (H.items newid).decayTime * 1000 % 2 ^ 32) ∧
    ((H.items newid).decayTime * 1000 % 2 ^ 32 ≠ 0 → (H.items item.id).stopTime = true →
      item.hasAttribute (H.mask .ITEM_ATTRIBUTE_DURATION) = true →
      (item.setID H newid).getDuration H = item.getDuration H) ∧
    ((H.items newid).decayTime * 1000 < 2 ^ 32 →
      (H.items newid).decayTime * 1000 % 2 ^ 32 = (H.items newid).decayTime * 1000) := by
  have hlt : (H.items newid).decayTime * 1000 % 2 ^ 32 < 2 ^ 32 :=
    Nat.mod_lt _ (by norm_num)
  -- the item after the two conditional removals and the removal of the corpse owner
  obtain ⟨i3, hi3, hid3, hwf3, hc3, hkeep⟩ :
      ∃ i3 : Item,
        item.setID H newid =
          (if (decide ((H.items newid).decayTime * 1000 % 2 ^ 32 > 0)
              && (!(H.items item.id).stopTime
                  || !i3.hasAttribute (H.mask .ITEM_ATTRIBUTE_DURATION))) = true then
            (i3.setDecaying H H.DECAYING_FALSE).setDuration H
              ((H.items newid).decayTime * 1000 % 2 ^ 32)
          else i3) ∧
        i3.id = newid ∧ i3.WF ∧
        i3.hasAttribute (H.mask .ITEM_ATTRIBUTE_CORPSEOWNER) = false ∧
        ((H.items newid).decayTime * 1000 % 2 ^ 32 ≠ 0 →
          i3.hasAttribute (H.mask .ITEM_ATTRIBUTE_DURATION)
              = item.hasAttribute (H.mask .ITEM_ATTRIBUTE_DURATION) ∧
          i3.look (H.mask .ITEM_ATTRIBUTE_DURATION)
              = item.look (H.mask .ITEM_ATTRIBUTE_DURATION)) := by
    refine ⟨Item.removeAttribute
        (if ((H.items newid).decayTime * 1000 % 2 ^ 32 == 0 && !(H.items newid).stopTime
              && decide ((H.items newid).decayTo < 0)) = true then
          (Item.removeAttribute { item with id := newid }
              (H.mask .ITEM_ATTRIBUTE_DECAYSTATE)).removeAttribute
            (H.mask .ITEM_ATTRIBUTE_DURATION)
        else { item with id := newid })
        (H.mask .ITEM_ATTRIBUTE_CORPSEOWNER), ?_, ?_, ?_, ?_, ?_⟩
    · unfold Item.setID
      rfl
    · simp only [Item.removeAttribute_id]
      split_ifs
      · simp only [Item.removeAttribute_id]
      · rfl
    · apply Item.WF_after_remove hH
      split_ifs
      · apply Item.WF_after_remove hH
        apply Item.WF_after_remove hH
        exact hwf
      · exact hwf
    · exact Item.not_has_after_remove _ _
    · intro hne
      have h0 : ((H.items newid).decayTime * 1000 % 2 ^ 32 == 0) = false := by
        simpa using hne
      simp only [h0, Bool.false_and, Bool.false_eq_true, if_false]
      exact Item.frame_after_remove hH { item with id := newid } hwf _ _ (by decide)
  rw [hi3]
  have hwfS : (i3.setDecaying H H.DECAYING_FALSE).WF :=
    (Frame_setIntAttr hH (List.mem_singleton.mpr rfl) i3 H.DECAYING_FALSE hwf3).1
  refine ⟨?_, ?_, ?_, ?_, ?_⟩
  · split_ifs
    · exact hid3
    · exact hid3
  · split_ifs
    · unfold Item.setDuration
      rw [Item.has_after_setIntAttr hH _ hwfS .ITEM_ATTRIBUTE_DURATION
        .ITEM_ATTRIBUTE_CORPSEOWNER (by decide)]
      unfold Item.setDecaying
      rw [Item.has_after_setIntAttr hH _ hwf3 .ITEM_ATTRIBUTE_DECAYSTATE
        .ITEM_ATTRIBUTE_CORPSEOWNER (by decide)]
      exact hc3
    · exact hc3
  · intro hne hcond
    have hpos : (H.items newid).decayTime * 1000 % 2 ^ 32 > 0 := Nat.pos_of_ne_zero hne
    have hc : (decide ((H.items newid).decayTime * 1000 % 2 ^ 32 > 0)
              && (!(H.items item.id).stopTime
                  || !i3.hasAttribute (H.mask .ITEM_ATTRIBUTE_DURATION))) = true := by
      rw [(hkeep hne).1, decide_eq_true hpos]
      rcases hcond with h | h
      · simp [h]
      · simp [h]
    rw [if_pos hc]
    constructor
    · unfold Item.getDecaying Item.setDuration
      rw [Item.getIntAttr_congr_look H _ _ _
        ((Frame_setIntAttr hH (List.mem_singleton.mpr rfl) _ _ hwfS).2
          .ITEM_ATTRIBUTE_DECAYSTATE (by decide))]
      unfold Item.setDecaying
      rw [getIntAttr_setIntAttr hH i3 hwf3 _ _ hS]
      omega
    · unfold Item.getDuration Item.setDuration
      rw [getIntAttr_setIntAttr hH _ hwfS _ _ hD]
      omega
  · intro hne hstop hhas
    have hc : ¬ (decide ((H.items newid).decayTime * 1000 % 2 ^ 32 > 0)
              && (!(H.items item.id).stopTime
                  || !i3.hasAttribute (H.mask .ITEM_ATTRIBUTE_DURATION))) = true := by
      rw [(hkeep hne).1, hstop, hhas]
      simp
    rw [if_neg hc]
    unfold Item.getDuration
    exact Item.getIntAttr_congr_look H _ _ _ (hkeep hne).2
  · intro h
    exact Nat.mod_eq_of_lt h

theorem factoryHeader_WF : factoryHeader.WF :=
  ⟨sampleHeader_WF.attrByte_lt, sampleHeader_WF.attrByte_ne, sampleHeader_WF.attrByte_inj,
    sampleHeader_WF.mask_tag, sampleHeader_WF.mask_inj⟩

theorem sampleDecaying_WF : sampleDecaying.WF :=
  (Frame_setIntAttr sampleHeader_WF (List.mem_singleton.mpr rfl) _ _
    (construct_WF sampleHeader_WF 1 0)).1

theorem sampleStopped_WF : sampleStopped.WF :=
  (Frame_setIntAttr factoryHeader_WF (List.mem_singleton.mpr rfl) _ _
    (construct_WF factoryHeader_WF 11 0)).1

theorem setID_rearms_decay_witness :
    (sampleDecaying.setID factoryHeader 10).getDecaying factoryHeader = 0 ∧
    (sampleDecaying.setID factoryHeader 10).getDuration factoryHeader = 10000 ∧
    (sampleStopped.setID factoryHeader 10).getDuration factoryHeader = 5000 ∧
    (sampleStopped.setID factoryHeader 10).id = 10 := by
  have h1 := setID_rearms_decay factoryHeader factoryHeader_WF sampleDecaying sampleDecaying_WF
    10 (by decide) (by decide) (by decide)
  have h2 := setID_rearms_decay factoryHeader factoryHeader_WF sampleStopped sampleStopped_WF
    10 (by decide) (by decide) (by decide)
  have h3 := h1.2.2.1 (by decide) (Or.inl (by decide))
  exact ⟨h3.1, h3.2.trans (by decide),
    (h2.2.2.2.1 (by decide) (by decide) (by decide)).trans (by decide), h2.1⟩

/-- C27, as stated, fails when the decay time times 1000 does not fit 32
bits. For the decay time 4294968 the product is 2^32 + 704, and the duration
after setID is 704, not 4294968000. For the decay time 2^29 the product is a
multiple of 2^32, so the new duration is 0: the type defines a decay time, but
setID strips the duration of the item and sets none. -/
theorem setID_rearms_decay_counterexample :
    (longDecayHeader.items 13).decayTime * 1000 = 4294968000 ∧
    (Item.setID longDecayHeader { id := 1 } 13).getDuration longDecayHeader = 704 ∧
    (longDecayHeader.items 14).decayTime ≠ 0 ∧
    sampleDecaying.getDuration longDecayHeader = 5000 ∧
    (sampleDecaying.setID longDecayHeader 14).hasAttribute
        (longDecayHeader.mask .ITEM_ATTRIBUTE_DURATION) = false ∧
    (sampleDecaying.setID longDecayHeader 14).getDuration longDecayHeader = 0 := by
  decide

/-! ### Clone and the decay queue -/

/-- C28 (amended): the decay registration of clone. When CreateItem(x.id,
x.count) returns an item and x has a store (well-formed), the clone of x is
registered by its duration: if the clone has a duration greater than 0, its
decay state is DECAYING_TRUE, it has been pushed on the to-decay queue and its
reference count is 2; if its duration is 0, it is not queued and its reference
count is 1. When x has no store, the clone is the item CreateItem returned: it
is not queued and its reference count is 1, whatever duration its constructor
gave it. -/
theorem clone_decay_registration (H : Header) (hH : H.WF) (x c : Item) (queue : List Item)
    (hx : x.WF) (hint : H.isIntAttrType (H.mask .ITEM_ATTRIBUTE_DECAYSTATE) = true)
    (hT : H.DECAYING_TRUE < 2 ^ 32)
    (hc : Item.CreateItem H x.id x.count = some c) :
    ∃ cl queue2, Item.clone H x queue = some (cl, queue2) ∧
      (x.attributes ≠ none →
        (0 < cl.getDuration H →
          cl.getDecaying H = H.DECAYING_TRUE ∧ queue2 = cl :: queue ∧
          cl.referenceCounter = 2) ∧
        (cl.getDuration H = 0 → queue2 = queue ∧ cl.referenceCounter = 1)) ∧
      (x.attributes = none → cl = c ∧ queue2 = queue ∧ cl.referenceCounter = 1) := by
  have hrc := CreateItem_referenceCounter H x.id x.count c hc
  unfold Item.clone
  rw [hc]
  rcases hxa : x.attributes with _ | s
  · exact ⟨c, queue, rfl, fun h => absurd rfl h, fun _ => ⟨rfl, rfl, hrc⟩⟩
  · have hga : x.getAttributes = s := by simp [Item.getAttributes, hxa]
    have hdur : Item.getDuration H { c with attributes := some s } = x.getDuration H := by
      simp [Item.getDuration, Item.getIntAttr, hxa]
    simp only [hdur]
    by_cases hd : 0 < x.getDuration H
    · rw [if_pos hd]
      have hwf1 : Item.WF
          (Item.incrementReferenceCounter { c with attributes := some s }) := by
        unfold Item.WF Item.getAttributes Item.incrementReferenceCounter
        rw [← hga]
        exact hx
      refine ⟨_, _, rfl, fun _ => ⟨fun _ => ⟨?_, rfl, ?_⟩, fun h0 => ?_⟩,
        (fun h => by cases h)⟩
      · unfold Item.getDecaying Item.setDecaying
        rw [getIntAttr_setIntAttr hH _ hwf1 _ _ hint]
        omega
      · show c.referenceCounter + 1 = 2
        rw [hrc]
      · exfalso
        have hf := (Frame_setIntAttr hH
          (List.mem_singleton.mpr (rfl : itemAttrTypes.ITEM_ATTRIBUTE_DECAYSTATE = _))
          (Item.incrementReferenceCounter { c with attributes := some s })
          H.DECAYING_TRUE hwf1).2 .ITEM_ATTRIBUTE_DURATION (by decide)
        unfold Item.getDuration at h0 hd
        unfold Item.setDecaying at h0
        rw [Item.getIntAttr_congr_look H _ _ _ hf] at h0
        have : Item.getIntAttr H (Item.incrementReferenceCounter { c with attributes := some s })
            (H.mask .ITEM_ATTRIBUTE_DURATION)
              = x.getIntAttr H (H.mask .ITEM_ATTRIBUTE_DURATION) := by
          simp [Item.getIntAttr, Item.incrementReferenceCounter, hxa]
        omega
    · rw [if_neg hd]
      refine ⟨_, _, rfl, fun _ => ⟨fun h => ?_, fun _ => ⟨rfl, hrc⟩⟩, (fun h => by cases h)⟩
      rw [hdur] at h
      exact absurd h hd

theorem clone_decay_registration_witness :
    ∃ cl queue2, Item.clone factoryHeader sampleDecaying [] = some (cl, queue2) ∧
      cl.getDecaying factoryHeader = 1 ∧ queue2 = [cl] ∧ cl.referenceCounter = 2 := by
  obtain ⟨cl, queue2, h1, h2, -⟩ :=
    clone_decay_registration factoryHeader factoryHeader_WF sampleDecaying
      (Item.construct factoryHeader 1 1).incrementReferenceCounter [] sampleDecaying_WF
      (by decide) (by decide) (by decide)
  have hd : (Item.clone factoryHeader sampleDecaying []).map
      (fun r => r.1.getDuration factoryHeader) = some 5000 := by decide
  rw [h1] at hd
  have hpos : 0 < cl.getDuration factoryHeader := by
    have := Option.some.inj hd
    simp only at this
    omega
  exact ⟨cl, queue2, h1, (h2 (by decide)).1 hpos⟩

/-- C28, as stated, fails for an item without a store whose clone is built
with a duration. The item made by CreateItem for the plain type 1 and then
given the id 2210 by setID has no store; CreateItem(2210, 1) builds its clone
as an item of type 2207, whose constructor seeds the duration 10000. The clone
has that duration, but its decay state is not DECAYING_TRUE, it is not queued
and its reference count is 1. -/
theorem clone_decay_registration_counterexample :
    Item.CreateItem factoryHeader 1 0
      = some (Item.construct factoryHeader 1 1).incrementReferenceCounter ∧
    sampleRenamed.id = 2210 ∧ sampleRenamed.attributes = none ∧
    factoryHeader.DECAYING_TRUE = 1 ∧
    (Item.clone factoryHeader sampleRenamed []).map
        (fun r => (r.1.id, r.1.getDuration factoryHeader, r.1.getDecaying factoryHeader,
          r.1.referenceCounter, r.2))
      = some (2207, 10000, 0, 1, []) := by
  decide

/-! ### Custom values -/

/-- C29: the reads of a custom value are total. Each of the four typed
getters returns a value for every custom value, never fails: the held value
when the held variant has the type asked for, and otherwise the empty value of
that type (the empty string, 0, 0.0 as its bit pattern 0, false). -/
theorem custom_reads_total (c : CustomAttribute) :
    c.getString = some (match c with
      | .text s => s
      | _ => []) ∧
    c.getInt = some (match c with
      | .integer v => v
      | _ => 0) ∧
    c.getDouble = some (match c with
      | .double bits => bits
      | _ => 0) ∧
    c.getBool = some (match c with
      | .boolean b => b
      | _ => false) := by
  cases c <;> exact ⟨rfl, rfl, rfl, rfl⟩

/-! ### The width of integer reads -/

theorem drop_leBytes_eight (w : Nat) (hw : w < 2 ^ 32) : (leBytes 8 w).drop 4 = [0, 0, 0, 0] := by
  simp only [leBytes, List.drop_succ_cons, List.drop_zero]
  have h1 : w / 256 / 256 / 256 / 256 = 0 := by omega
  simp [h1]

/-- C30: integer reads are 32-bit. On a well-formed store, for every
integer-typed tag and every 64-bit value v, getIntAttr after setIntAttr(tag,
v) returns v modulo 2^32, so a value of 2^32 or more is not returned intact.
Every 8-byte integer record that serializeAttr writes carries a value read
with getIntAttr, so its payload has 8 bytes of which the upper four are 0. -/
theorem integer_reads_32bit (H : Header) (s : ItemAttributes) (hwf : s.WF) (k v : Nat)
    (hint : H.isIntAttrType (2 ^ k) = true) (hv : v < 2 ^ 64) (item : Item) :
    (s.setIntAttr H.toAttrKinds (2 ^ k) v).getIntAttr H.toAttrKinds (2 ^ k) = v % 2 ^ 32 ∧
    (2 ^ 32 ≤ v → (s.setIntAttr H.toAttrKinds (2 ^ k) v).getIntAttr H.toAttrKinds (2 ^ k) ≠ v) ∧
    (∀ step ∈ serializeSteps, ∀ t a, step = WriteStep.intAttr t a 8 →
      ∀ p, step.payload H item = some p → p.length = 8 ∧ p.drop 4 = [0, 0, 0, 0]) := by
  have hget : (s.setIntAttr H.toAttrKinds (2 ^ k) v).getIntAttr H.toAttrKinds (2 ^ k)
      = v % 2 ^ 32 := by
    rw [setIntAttr_eq_writeThrough _ _ _ _ hint]
    unfold ItemAttributes.getIntAttr
    rw [writeThrough_get s hwf k]
    simp only [hint, Bool.not_true, Bool.false_eq_true, if_false, AttrValue.asInteger]
    rw [Nat.mod_eq_of_lt hv]
  refine ⟨hget, ?_, ?_⟩
  · intro h
    rw [hget]
    have := Nat.mod_lt v (by norm_num : 0 < 2 ^ 32)
    omega
  · intro step _ t a hstep p hp
    subst hstep
    simp only [WriteStep.payload] at hp
    split at hp
    · cases hp
      exact ⟨length_write 8 _, drop_leBytes_eight _ (getIntAttr_lt H item _)⟩
    · cases hp

theorem integer_reads_32bit_witness :
    (sampleStore.setIntAttr sampleHeader.toAttrKinds (2 ^ 3) (2 ^ 32 + 5)).getIntAttr
        sampleHeader.toAttrKinds (2 ^ 3) = 5 ∧
    WriteStep.payload sampleHeader
        (Item.setIntAttr sampleHeader { id := 1 }
          (sampleHeader.mask .ITEM_ATTRIBUTE_DEFENSE) (2 ^ 32 + 5))
        (WriteStep.intAttr .ITEM_ATTRIBUTE_DEFENSE .ATTR_DEFENSE 8)
      = some [5, 0, 0, 0, 0, 0, 0, 0] := by
  have h := integer_reads_32bit sampleHeader sampleStore sampleStore_WF 3 (2 ^ 32 + 5)
    (by decide) (by decide) { id := 1 }
  exact ⟨h.1.trans (by decide), by decide⟩

/-! ### The decoder accepts the encoder -/

/-- C31: the decoder accepts everything the encoder writes. For every item
whose strings and custom attributes fit the wire format (an item without
custom attributes among them), unserializeAttr over the output of
serializeAttr followed by one zero byte, run on any item (a fresh item of the
same type among them), returns true and consumes the whole stream; and every
record the encoder emits is accepted by readAttr, which consumes exactly the
payload that was written and continues. -/
theorem decoder_accepts_encoder (H : Header) (hH : H.WF) (orig target : Item)
    (hfit : orig.Fits H) :
    Item.unserializeAttr H (orig.serializeAttr H ++ [0]) target
      = some (true, [], target.decodeRecords H (orig.emitted H)) ∧
    (∀ e ∈ orig.emitted H, ∀ (tail : List Nat) (i : Item),
      (Item.readAttr H (H.attrByte e.1) (e.2 ++ tail) i).1 = .ATTR_READ_CONTINUE ∧
      (Item.readAttr H (H.attrByte e.1) (e.2 ++ tail) i).2.1 = tail) := by
  refine ⟨unserialize_serializeAttr hH orig target hfit [], ?_⟩
  intro e he tail i
  have hr := emitted_WF hH orig hfit ⟨H.attrByte e.1, e.2⟩ (List.mem_map.mpr ⟨e, he, rfl⟩)
  have := readAttr_append H ⟨H.attrByte e.1, e.2⟩ hr tail i
  simp only at this
  rw [this]
  exact ⟨rfl, rfl⟩

theorem decoder_accepts_encoder_witness :
    sampleItem.getAttributes.customAttributes = [] ∧
    (Item.unserializeAttr sampleHeader (sampleItem.serializeAttr sampleHeader ++ [0])
        (Item.construct sampleHeader 1 0)).map (fun r => (r.1, r.2.1)) = some (true, []) := by
  have h := (decoder_accepts_encoder sampleHeader sampleHeader_WF sampleItem
    (Item.construct sampleHeader 1 0) sampleItem_Fits).1
  rw [h]
  exact ⟨by decide, rfl⟩

/-! ### Equality of items: what it ignores, and its laws -/

theorem equals_of_look (H : Header) (x y : Item) (hx : x.WF) (hy : y.WF) (hid : x.id = y.id)
    (hlook : ∀ k, x.look (2 ^ k) = y.look (2 ^ k)) : x.equals H (some y) = true := by
  unfold Item.WF at hx hy
  unfold Item.look at hlook
  rw [equals_iff, attributesMatch_iff]
  refine ⟨hid, ?_, ?_⟩
  · apply Nat.eq_of_testBit_eq
    intro k
    have hk := hlook k
    cases hb1 : x.getAttributes.attributeBits.testBit k <;>
      cases hb2 : y.getAttributes.attributeBits.testBit k
    · rfl
    · obtain ⟨b, hb, htb⟩ := (hy.bits k).mp hb2
      rw [getExistingAttr_eq_some hy hb htb,
        getExistingAttr_eq_none (Or.inl (by rw [hasAttribute_two_pow, hb1]))] at hk
      cases hk
    · obtain ⟨a, ha, hta⟩ := (hx.bits k).mp hb1
      rw [getExistingAttr_eq_some hx ha hta,
        getExistingAttr_eq_none (Or.inl (by rw [hasAttribute_two_pow, hb2]))] at hk
      cases hk
    · rfl
  · intro a ha b hb hab
    obtain ⟨k, hk⟩ := hx.tags a ha
    have hk2 := hlook k
    rw [getExistingAttr_eq_some hx ha hk, getExistingAttr_eq_some hy hb (hab ▸ hk)] at hk2
    have heq : a = b := Option.some.inj hk2
    subst heq
    split <;> rfl

theorem Item.WF_setCustomAttribute {H : Header} (hH : H.WF) (x : Item) (hx : x.WF)
    (key : List Nat) (val : CustomAttribute) : (x.setCustomAttribute H key val).WF :=
  (Frame_setCustomAttribute hH (List.mem_singleton.mpr rfl) x key val hx).1

theorem Item.has_custom_after_set {H : Header} (hH : H.WF) (x : Item) (hx : x.WF)
    (key : List Nat) (val : CustomAttribute) :
    (x.setCustomAttribute H key val).hasAttribute (H.mask .ITEM_ATTRIBUTE_CUSTOM) = true := by
  obtain ⟨k, hk⟩ := hH.mask_tag .ITEM_ATTRIBUTE_CUSTOM
  unfold Item.WF at hx
  rw [Item.hasAttribute_eq]
  have hs : (x.setCustomAttribute H key val).getAttributes.attributeBits
      = (x.getAttributes.writeThrough (2 ^ k) (fun v => v)).attributeBits := by
    rw [← getAttr_eq_writeThrough, ← hk]
    rfl
  have hg := writeThrough_get x.getAttributes hx k (fun v => v)
  unfold ItemAttributes.getExistingAttr at hg
  unfold ItemAttributes.hasAttribute at hg ⊢
  rw [hs, hk]
  by_cases hb : ((2 ^ k &&& (x.getAttributes.writeThrough (2 ^ k) (fun v => v)).attributeBits)
      != 0) = true
  · exact hb
  · rw [if_neg hb] at hg
    cases hg

/-- C32: equals depends only on the type id and the tag-keyed entries. Two
items with well-formed stores, the same id and, under every tag, the same
entry are equal for equals in both directions, whatever their count fields and
whatever their custom-attribute maps hold. In particular, with the custom map
kept apart from the entry list as the specification has it, an item after
setCustomAttribute(key, val) and the same item after setCustomAttribute(key2,
val2) and setItemCount(n) are equal in both directions, for all keys, values
and counts. Only the presence of custom attributes is seen by equals, through
the reserved bit: an item without custom attributes is not equal to the same
item after setCustomAttribute. -/
theorem equals_ignores_count_and_custom (H : Header) (x y : Item) (hx : x.WF) (hy : y.WF)
    (hid : x.id = y.id) (hlook : ∀ k, x.look (2 ^ k) = y.look (2 ^ k)) :
    x.equals H (some y) = true ∧ y.equals H (some x) = true ∧
    (H.WF → ∀ (key key2 : List Nat) (val val2 : CustomAttribute) (n : Nat),
      (x.setCustomAttribute H key val).equals H
          (some ((x.setCustomAttribute H key2 val2).setItemCount H n)) = true ∧
      ((x.setCustomAttribute H key2 val2).setItemCount H n).equals H
          (some (x.setCustomAttribute H key val)) = true) ∧
    (H.WF → x.hasAttribute (H.mask .ITEM_ATTRIBUTE_CUSTOM) = false →
      ∀ (key : List Nat) (val : CustomAttribute),
        x.equals H (some (x.setCustomAttribute H key val)) = false) := by
  refine ⟨equals_of_look H x y hx hy hid hlook,
    equals_of_look H y x hy hx hid.symm (fun k => (hlook k).symm), ?_, ?_⟩
  · intro hH key key2 val val2 n
    have hw1 := Item.WF_setCustomAttribute hH x hx key val
    have hw2 : ((x.setCustomAttribute H key2 val2).setItemCount H n).WF :=
      Item.WF_setCustomAttribute hH x hx key2 val2
    have hl : ∀ k, (x.setCustomAttribute H key val).look (2 ^ k)
        = ((x.setCustomAttribute H key2 val2).setItemCount H n).look (2 ^ k) :=
      fun k => getExistingAttr_of_fields rfl rfl (2 ^ k)
    exact ⟨equals_of_look H _ _ hw1 hw2 rfl hl,
      equals_of_look H _ _ hw2 hw1 rfl (fun k => (hl k).symm)⟩
  · intro hH hno key val
    cases he : x.equals H (some (x.setCustomAttribute H key val)) with
    | false => rfl
    | true =>
      rw [equals_iff] at he
      have h1 := Item.has_custom_after_set hH x hx key val
      rw [Item.hasAttribute_eq] at h1 hno
      unfold ItemAttributes.hasAttribute at h1 hno
      rw [← he.2.1, hno] at h1
      cases h1

theorem sampleOrderC_WF : sampleOrderC.WF :=
  WF_of_same_types sampleOrderA_WF rfl rfl

theorem sampleCustomA_WF : sampleCustomA.WF :=
  Item.WF_setCustomAttribute sampleHeader_WF sampleOrderA sampleOrderA_WF _ _

theorem sampleCustomB_WF : sampleCustomB.WF :=
  Item.WF_setCustomAttribute sampleHeader_WF sampleOrderA sampleOrderA_WF _ _

theorem equals_ignores_count_and_custom_witness :
    sampleCustomA.count = 5 ∧ sampleCustomB.count = 9 ∧
    sampleCustomA.hasAttribute (sampleHeader.mask .ITEM_ATTRIBUTE_CUSTOM) = true ∧
    sampleCustomB.hasAttribute (sampleHeader.mask .ITEM_ATTRIBUTE_CUSTOM) = true ∧
    sampleCustomA.getAttributes.customAttributes = [([97], CustomAttribute.boolean true)] ∧
    sampleCustomB.getAttributes.customAttributes = [([98], CustomAttribute.integer 5)] ∧
    sampleCustomA.equals sampleHeader (some sampleCustomB) = true ∧
    sampleCustomB.equals sampleHeader (some sampleCustomA) = true ∧
    sampleOrderA.equals sampleHeader (some sampleCustomA) = false := by
  have h := equals_ignores_count_and_custom sampleHeader sampleCustomA sampleCustomB
    sampleCustomA_WF sampleCustomB_WF rfl (fun k => getExistingAttr_of_fields rfl rfl (2 ^ k))
  have h2 := (equals_ignores_count_and_custom sampleHeader sampleOrderA sampleOrderA
    sampleOrderA_WF sampleOrderA_WF rfl (fun _ => rfl)).2.2.2 sampleHeader_WF (by decide)
    [97] (CustomAttribute.boolean true)
  exact ⟨by decide, by decide, by decide, by decide, by decide, by decide, h.1, h.2.1, h2⟩

theorem attributesMatch_symm (K : AttrKinds) (l1 l2 : List Attribute)
    (h : attributesMatch K l1 l2 = true) : attributesMatch K l2 l1 = true := by
  rw [attributesMatch_iff] at h ⊢
  intro b hb a ha hba
  have := h a ha b hb hba.symm
  rw [hba]
  split
  · rename_i hs
    rw [if_pos hs] at this
    exact this.symm
  · rename_i hs
    rw [if_neg hs] at this
    exact this.symm

theorem attributesMatch_trans (K : AttrKinds) (s t u : ItemAttributes) (hs : s.WF) (ht : t.WF)
    (hb : s.attributeBits = t.attributeBits)
    (h1 : attributesMatch K s.attributes t.attributes = true)
    (h2 : attributesMatch K t.attributes u.attributes = true) :
    attributesMatch K s.attributes u.attributes = true := by
  rw [attributesMatch_iff] at h1 h2 ⊢
  intro a ha c hc hac
  obtain ⟨k, hk⟩ := hs.tags a ha
  have hbit : t.attributeBits.testBit k = true := by
    rw [← hb]
    exact (hs.bits k).mpr ⟨a, ha, hk⟩
  obtain ⟨b, hbm, hbt⟩ := (ht.bits k).mp hbit
  have hab : a.type = b.type := hk.trans hbt.symm
  have e1 := h1 a ha b hbm hab
  have e2 := h2 b hbm c hc (hab.symm.trans hac)
  rw [← hab] at e2
  split
  · rename_i hstr
    rw [if_pos hstr] at e1 e2
    exact e1.trans e2
  · rename_i hstr
    rw [if_neg hstr] at e1 e2
    exact e1.trans e2

/-- C33: equals is an equivalence relation on items with well-formed stores:
it is reflexive, symmetric and transitive; and an item without a store and an
item whose store has attributeBits = 0 are equal for equals, in both
directions, when their ids agree. -/
theorem equals_equivalence (H : Header) (x y z : Item) (hx : x.WF) (hy : y.WF) :
    x.equals H (some x) = true ∧
    x.equals H (some y) = y.equals H (some x) ∧
    (x.equals H (some y) = true → y.equals H (some z) = true →
      x.equals H (some z) = true) ∧
    (x.id = y.id → x.attributes = none →
      (∀ s, y.attributes = some s → s.attributeBits = 0) →
      x.equals H (some y) = true ∧ y.equals H (some x) = true) := by
  have hsymm : ∀ a b : Item, a.equals H (some b) = true → b.equals H (some a) = true := by
    intro a b h
    rw [equals_iff] at h ⊢
    exact ⟨h.1.symm, h.2.1.symm, attributesMatch_symm _ _ _ h.2.2⟩
  refine ⟨?_, ?_, ?_, ?_⟩
  · rw [equals_iff]
    exact ⟨rfl, rfl, attributesMatch_self _ _ hx⟩
  · rw [Bool.eq_iff_iff]
    exact ⟨hsymm x y, hsymm y x⟩
  · intro h1 h2
    rw [equals_iff] at h1 h2 ⊢
    exact ⟨h1.1.trans h2.1, h1.2.1.trans h2.2.1,
      attributesMatch_trans _ _ _ _ hx hy h1.2.1 h1.2.2 h2.2.2⟩
  · intro hid hxa hys
    have key : x.equals H (some y) = true := by
      rcases x with ⟨xid, xcount, xa, xl, xr, xk⟩
      rcases y with ⟨yid, ycount, ya, yl, yr, yk⟩
      simp only at hid hxa hys
      subst hid hxa
      unfold Item.equals
      cases ya with
      | none => simp
      | some s => simp [hys s rfl]
    exact ⟨key, hsymm x y key⟩

theorem equals_equivalence_witness :
    sampleOrderA.equals sampleHeader (some sampleOrderA) = true ∧
    sampleOrderA.equals sampleHeader (some sampleOrderB)
      = sampleOrderB.equals sampleHeader (some sampleOrderA) ∧
    sampleOrderA.equals sampleHeader (some sampleOrderC) = true := by
  have h := equals_equivalence sampleHeader sampleOrderA sampleOrderB sampleOrderC
    sampleOrderA_WF sampleOrderB_WF
  exact ⟨h.1, h.2.1, h.2.2.1 (by decide) (by decide)⟩

/-! ### The store: empty strings and value kinds -/

/-- C34: setting an empty string is a no-op. For every store and every tag,
string-typed or not, setStrAttr(tag, "") leaves the store as it is: no entry
is created, an existing value is not cleared, and getStrAttr and hasAttribute
of the tag return afterwards what they returned before. -/
theorem setStrAttr_empty_noop (K : AttrKinds) (s : ItemAttributes) (type : Nat) :
    s.setStrAttr K type [] = s ∧
    (s.setStrAttr K type []).getStrAttr K type = s.getStrAttr K type ∧
    (s.setStrAttr K type []).hasAttribute type = s.hasAttribute type := by
  have h : s.setStrAttr K type [] = s := by
    unfold ItemAttributes.setStrAttr
    split
    · rfl
    · rfl
  rw [h]
  exact ⟨rfl, rfl, rfl⟩

/-- C35: the value kind matches the tag kind. When no tag is both
integer-typed and string-typed, every store reachable from the empty store by
setIntAttr, setStrAttr, increaseIntAttr and removeAttribute holds an integer
in each entry of an integer-typed tag and a string in each entry of a
string-typed tag; and setIntAttr and increaseIntAttr on a tag that is not
integer-typed, and setStrAttr on a tag that is not string-typed, leave the
store unchanged. -/
theorem value_kind_matches_tag (K : AttrKinds)
    (hdisj : ∀ t, t ≠ 0 → ¬(K.isIntAttrType t = true ∧ K.isStrAttrType t = true))
    (ops : List StoreOp) :
    (∀ a ∈ (runOps K {} ops).attributes, a.type ≠ 0 →
      (K.isIntAttrType a.type = true → ∃ v, a.value = AttrValue.integer v) ∧
      (K.isStrAttrType a.type = true → ∃ str, a.value = AttrValue.string str)) ∧
    (∀ (s : ItemAttributes) (type v : Nat) (d : Int), K.isIntAttrType type = false →
      s.setIntAttr K type v = s ∧ s.increaseIntAttr K type d = s) ∧
    (∀ (s : ItemAttributes) (type : Nat) (str : List Nat), K.isStrAttrType type = false →
      s.setStrAttr K type str = s) := by
  refine ⟨?_, ?_, ?_⟩
  · have h := KindOK_runOps K hdisj ops {} (by intro a ha; cases ha)
    exact h
  · intro s type v d h
    unfold ItemAttributes.setIntAttr ItemAttributes.increaseIntAttr
    simp [h]
  · intro s type str h
    unfold ItemAttributes.setStrAttr
    simp [h]

theorem value_kind_matches_tag_witness :
    (⟨16, AttrValue.string [104, 105]⟩ : Attribute) ∈ sampleStore.attributes ∧
    (∃ str, (⟨16, AttrValue.string [104, 105]⟩ : Attribute).value = AttrValue.string str) ∧
    sampleStore.setIntAttr sampleKinds 16 5 = sampleStore :=
  ⟨by decide,
    ((value_kind_matches_tag sampleKinds sampleKinds_disjoint sampleOps).1
      ⟨16, AttrValue.string [104, 105]⟩ (by decide) (by decide)).2 (by decide),
    ((value_kind_matches_tag sampleKinds sampleKinds_disjoint sampleOps).2.1
      sampleStore 16 5 0 (by decide)).1⟩

/-! ### The decoder: missing sentinel, decay state, termination -/

/-- C36: a missing sentinel is not an error. On a stream that consists of
well-formed records (none at all is allowed, the empty stream) and ends at the
record boundary without a zero tag, unserializeAttr returns true with the
stream used up, after applying all the records in order. -/
theorem missing_sentinel_accepted (H : Header) (records : List AttrRecord) (item : Item)
    (hwf : ∀ r ∈ records, r.WF H) :
    Item.unserializeAttr H (records.map AttrRecord.bytes).flatten item
      = some (true, [], records.foldl (Item.applyRecord H) item) := by
  have h := unserializeAttr_after_records H records [] item hwf
  rw [List.append_nil] at h
  rw [h]
  rfl

theorem missing_sentinel_accepted_witness :
    Item.unserializeAttr sampleHeader (sampleRecords.map AttrRecord.bytes).flatten { id := 1 }
      = some (true, [], sampleRecords.foldl (Item.applyRecord sampleHeader) { id := 1 }) ∧
    Item.unserializeAttr sampleHeader [] { id := 1 } = some (true, [], { id := 1 }) :=
  ⟨missing_sentinel_accepted sampleHeader sampleRecords { id := 1 } sampleRecords_WF, rfl⟩

theorem decayingState_step :
    ∀ s ∈ serializeSteps, s.attr = .ATTR_DECAYING_STATE → s = .decayingState := by
  decide

/-- C37: the decay state is not restored verbatim. Decoding a decay-state
record with the payload byte s sets the decay state of the item to
DECAYING_PENDING for every s other than DECAYING_FALSE (DECAYING_TRUE among
them) and leaves the item as it is when s is DECAYING_FALSE; and
serializeAttr writes a decay-state record exactly when the decay state is
DECAYING_TRUE or DECAYING_PENDING, with the state as its one payload byte. -/
theorem decay_state_not_verbatim (H : Header) (hH : H.WF) (item : Item) (hwf : item.WF)
    (s : Nat) (tail : List Nat) (hs : s < 256)
    (hint : H.isIntAttrType (H.mask .ITEM_ATTRIBUTE_DECAYSTATE) = true)
    (hP : H.DECAYING_PENDING < 2 ^ 32) :
    (s ≠ H.DECAYING_FALSE →
      Item.readAttr H (H.attrByte .ATTR_DECAYING_STATE) (s :: tail) item
        = (.ATTR_READ_CONTINUE, tail, item.setDecaying H H.DECAYING_PENDING) ∧
      (item.setDecaying H H.DECAYING_PENDING).getDecaying H = H.DECAYING_PENDING) ∧
    (s = H.DECAYING_FALSE →
      Item.readAttr H (H.attrByte .ATTR_DECAYING_STATE) (s :: tail) item
        = (.ATTR_READ_CONTINUE, tail, item)) ∧
    (∀ p, (AttrTypes_t.ATTR_DECAYING_STATE, p) ∈ item.emitted H ↔
      ((item.getDecaying H = H.DECAYING_TRUE ∨ item.getDecaying H = H.DECAYING_PENDING) ∧
        p = PropWriteStream.write 1 (item.getDecaying H))) := by
  have hread : Item.readAttr H (H.attrByte .ATTR_DECAYING_STATE) (s :: tail) item
      = (.ATTR_READ_CONTINUE, tail,
          if (s != H.DECAYING_FALSE) = true then item.setDecaying H H.DECAYING_PENDING
          else item) := by
    unfold Item.readAttr
    rw [attrOf_attrByte hH]
    simp only [readCase, ReadCase.run, readFixed, read_cons s tail hs]
  refine ⟨?_, ?_, ?_⟩
  · intro hne
    rw [hread, if_pos (by simpa using hne)]
    refine ⟨rfl, ?_⟩
    unfold Item.getDecaying Item.setDecaying
    rw [getIntAttr_setIntAttr hH item hwf _ _ hint]
    omega
  · intro he
    rw [hread, if_neg (by simp [he])]
  · intro p
    rw [mem_emitted]
    constructor
    · rintro ⟨st, hst, ha, hp⟩
      have := decayingState_step st hst ha
      subst this
      simp only [WriteStep.payload] at hp
      split at hp
      · rename_i hc
        cases hp
        refine ⟨?_, rfl⟩
        simpa using hc
      · cases hp
    · rintro ⟨hc, rfl⟩
      refine ⟨.decayingState, by decide, rfl, ?_⟩
      simp only [WriteStep.payload]
      rw [if_pos (by simpa using hc)]

theorem decay_state_not_verbatim_witness :
    Item.readAttr sampleHeader 11 [1, 9] { id := 1 }
      = (.ATTR_READ_CONTINUE, [9],
          Item.setDecaying sampleHeader { id := 1 } sampleHeader.DECAYING_PENDING) ∧
    (Item.setDecaying sampleHeader { id := 1 } sampleHeader.DECAYING_PENDING).getDecaying
        sampleHeader = 2 ∧
    Item.readAttr sampleHeader 11 [0, 9] { id := 1 } = (.ATTR_READ_CONTINUE, [9], { id := 1 }) := by
  have h1 := (decay_state_not_verbatim sampleHeader sampleHeader_WF { id := 1 } WF_empty 1 [9]
    (by decide) (by decide) (by decide)).1 (by decide)
  have h0 := (decay_state_not_verbatim sampleHeader sampleHeader_WF { id := 1 } WF_empty 0 [9]
    (by decide) (by decide) (by decide)).2.1 (by decide)
  exact ⟨h1.1, h1.2, h0⟩

theorem unserialize_consumes {H : Header} {p rest : List Nat} {val : CustomAttribute}
    (h : CustomAttribute.unserialize H p = some (val, rest)) : rest.length < p.length := by
  unfold CustomAttribute.unserialize at h
  cases hr : PropStream.read 1 p with
  | none => rw [hr] at h; cases h
  | some r =>
    obtain ⟨t, p1⟩ := r
    have h1 := read_length hr
    rw [hr] at h
    simp only at h
    cases hk : H.customOf t with
    | none => rw [hk] at h; cases h
    | some kind =>
      rw [hk] at h
      cases kind <;> simp only [Option.map_eq_some'] at h <;> obtain ⟨r2, hr2, he⟩ := h <;>
        obtain ⟨v2, p2⟩ := r2 <;> simp only [Prod.mk.injEq] at he <;> obtain ⟨-, rfl⟩ := he
      · have := readString_length hr2; omega
      · have := read_length hr2; omega
      · have := read_length hr2; omega
      · have := read_length hr2; omega

theorem readCustomAttributes_short (H : Header) (size : Nat) (p : List Nat) (item : Item)
    (h : p.length < size) : (readCustomAttributes H size p item).1 = .ATTR_READ_ERROR := by
  induction size generalizing p item with
  | zero => omega
  | succ n ih =>
    unfold readCustomAttributes
    cases hr : PropStream.readString H.strLenBytes p with
    | none => rfl
    | some r =>
      obtain ⟨key, p1⟩ := r
      dsimp only
      cases hu : CustomAttribute.unserialize H p1 with
      | none => rfl
      | some r2 =>
        obtain ⟨val, p2⟩ := r2
        dsimp only
        have h1 := readString_length hr
        have h2 := unserialize_consumes hu
        exact ih p2 _ (by omega)

theorem readCustomAttributes_bound (H : Header) (size n : Nat) (p : List Nat) (item : Item)
    (hs : p.length < size) (hn : p.length < n) :
    readCustomAttributes H size p item = readCustomAttributes H n p item := by
  induction size generalizing n p item with
  | zero => omega
  | succ m ih =>
    cases n with
    | zero => omega
    | succ k =>
      unfold readCustomAttributes
      cases hr : PropStream.readString H.strLenBytes p with
      | none => rfl
      | some r =>
        obtain ⟨key, p1⟩ := r
        dsimp only
        cases hu : CustomAttribute.unserialize H p1 with
        | none => rfl
        | some r2 =>
          obtain ⟨val, p2⟩ := r2
          dsimp only
          have h1 := readString_length hr
          have h2 := unserialize_consumes hu
          exact ih k p2 _ (by omega) (by omega)

/-- C38: decoding terminates on every input. For every byte stream
unserializeAttr returns a result, and running its loop with any bound on the
number of iterations above the stream length gives that same result: each
iteration consumes the tag byte and readAttr never gives bytes back. The loop
over the custom attributes is bounded in the same way, even when the declared
entry count exceeds the number of bytes left: it then fails, and it does so
within as many iterations as there are bytes, plus one. -/
theorem decoding_terminates (H : Header) (p : List Nat) (item : Item) :
    (∃ r, Item.unserializeAttr H p item = some r) ∧
    (∀ fuel, p.length < fuel →
      Item.unserializeAttrLoop H fuel p item = Item.unserializeAttr H p item) ∧
    (∀ attr, (Item.readAttr H attr p item).2.1.length ≤ p.length) ∧
    (∀ size, p.length < size →
      (readCustomAttributes H size p item).1 = .ATTR_READ_ERROR ∧
      readCustomAttributes H size p item = readCustomAttributes H (p.length + 1) p item) := by
  refine ⟨?_, ?_, ?_, ?_⟩
  · exact Option.isSome_iff_exists.mp (unserializeAttr_isSome H p item)
  · intro fuel h
    exact (unserializeAttr_eq_loop H fuel p item h).symm
  · intro attr
    exact readAttr_length H attr p item
  · intro size h
    exact ⟨readCustomAttributes_short H size p item h,
      readCustomAttributes_bound H size (p.length + 1) p item h (by omega)⟩

theorem decoding_terminates_witness :
    (∃ r, Item.unserializeAttr sampleHeader [68, 255, 255, 255, 255, 255, 255, 255, 255, 1, 0, 97,
        4, 1] { id := 1 } = some r) ∧
    (readCustomAttributes sampleHeader (2 ^ 64 - 1) [1, 0, 97, 4, 1] { id := 1 }).1
      = .ATTR_READ_ERROR := by
  have h1 := decoding_terminates sampleHeader
    [68, 255, 255, 255, 255, 255, 255, 255, 255, 1, 0, 97, 4, 1] { id := 1 }
  have h2 := decoding_terminates sampleHeader [1, 0, 97, 4, 1] { id := 1 }
  exact ⟨h1.1, (h2.2.2.2 (2 ^ 64 - 1) (by decide)).1⟩

/-! ### The alias table and the clone of a valid type -/

theorem historicalAlias_outside (type : Nat) (h : type ∉ aliasDomain) :
    historicalAlias type = type := by
  unfold aliasDomain at h
  simp only [List.mem_cons, List.mem_singleton, List.not_mem_nil, or_false, not_or] at h
  unfold historicalAlias
  split_ifs <;> omega

theorem historicalAlias_leaves : ∀ type ∈ aliasDomain, historicalAlias type ∉ aliasDomain := by
  decide

theorem historicalAlias_twice (type : Nat) :
    historicalAlias (historicalAlias type) = historicalAlias type := by
  by_cases h : type ∈ aliasDomain
  · exact historicalAlias_outside _ (historicalAlias_leaves type h)
  · rw [historicalAlias_outside type h, historicalAlias_outside type h]

theorem historicalAlias_lt (type : Nat) (h : type < 2 ^ 16) : historicalAlias type < 2 ^ 16 := by
  unfold historicalAlias
  norm_num at h ⊢
  split_ifs <;> omega

/-- C39: the alias table is idempotent. For every id in the domain of the
ring and boot alias table the aliased id lies outside the domain, and an id
outside the domain is its own alias, so applying the alias mapping twice gives
the same id as applying it once. The item that CreateItem makes for a type
with no structural classification has the aliased id, and CreateItem on that
id returns an item with the same id. -/
theorem alias_idempotent (H : Header) :
    (∀ type ∈ aliasDomain, historicalAlias type ∉ aliasDomain) ∧
    (∀ type, type ∉ aliasDomain → historicalAlias type = type) ∧
    (∀ type, historicalAlias (historicalAlias type) = historicalAlias type) ∧
    (∀ type count c, (H.items type).id = type → type < 2 ^ 16 →
      (H.items type).isStructural = false → Item.CreateItem H type count = some c →
      c.id = historicalAlias type ∧
      ∀ count2 d, (H.items c.id).id = c.id → Item.CreateItem H c.id count2 = some d →
        d.id = c.id) := by
  refine ⟨historicalAlias_leaves, historicalAlias_outside, historicalAlias_twice, ?_⟩
  · intro type count c hid ht hs hc
    obtain ⟨hdep, hid0⟩ := CreateItem_some H type count c hc
    have h0 : type ≠ 0 := by rw [← hid]; exact hid0
    have hcid : c.id = historicalAlias type := by
      rw [CreateItem_plain H type count hdep hid h0 hs ht] at hc
      cases hc
      exact (construct_fields H _ _).1
    refine ⟨hcid, ?_⟩
    intro count2 d hid2 hd
    exact CreateItem_id H c.id count2 d hid2 (by rw [hcid]; exact historicalAlias_lt type ht)
      (by rw [hcid]; exact historicalAlias_twice type) hd

theorem alias_idempotent_witness :
    (Item.construct factoryHeader 2207 0).incrementReferenceCounter.id = historicalAlias 2210 ∧
    (Item.construct factoryHeader 2207 5).incrementReferenceCounter.id
      = (Item.construct factoryHeader 2207 0).incrementReferenceCounter.id := by
  have h := (alias_idempotent factoryHeader).2.2.2 2210 0
    (Item.construct factoryHeader 2207 0).incrementReferenceCounter (by decide) (by decide)
    (by decide) (by decide)
  exact ⟨h.1, h.2 5 (Item.construct factoryHeader 2207 5).incrementReferenceCounter (by decide)
    (by decide)⟩

/-- C40: clone never acts on a missing item when the type is valid. When the
type id of the item resolves to a known type (catalogue id other than 0) that
is not deprecated, the call CreateItem(id, count) inside clone returns an
item, and clone returns a clone. Without that, CreateItem returns the null
pointer and there is no clone to act on. -/
theorem clone_valid_type (H : Header) (x : Item) (queue : List Item) :
    ((H.items x.id).deprecated = false → (H.items x.id).id ≠ 0 →
      (∃ c, Item.CreateItem H x.id x.count = some c) ∧
      ∃ r, Item.clone H x queue = some r) ∧
    (((H.items x.id).deprecated = true ∨ (H.items x.id).id = 0) →
      Item.CreateItem H x.id x.count = none ∧ Item.clone H x queue = none) := by
  constructor
  · intro hdep hid
    cases hc : Item.CreateItem H x.id x.count with
    | none =>
      rcases (CreateItem_none_iff H x.id x.count).mp hc with h | h
      · rw [hdep] at h; cases h
      · exact absurd h hid
    | some c =>
      refine ⟨⟨c, rfl⟩, ?_⟩
      unfold Item.clone
      rw [hc]
      dsimp only
      split
      · exact ⟨_, rfl⟩
      · split <;> exact ⟨_, rfl⟩
  · intro h
    have hc := (CreateItem_none_iff H x.id x.count).mpr h
    refine ⟨hc, ?_⟩
    unfold Item.clone
    rw [hc]

theorem clone_valid_type_witness :
    (∃ r, Item.clone factoryHeader { id := 1 } [] = some r) ∧
    (Item.setID factoryHeader { id := 1 } 7).id = 7 ∧
    Item.clone factoryHeader (Item.setID factoryHeader { id := 1 } 7) [] = none := by
  have h1 := (clone_valid_type factoryHeader { id := 1 } []).1 (by decide) (by decide)
  have h2 := (clone_valid_type factoryHeader (Item.setID factoryHeader { id := 1 } 7) []).2
    (Or.inl (by decide))
  exact ⟨h1.2, by decide, h2.2⟩
